import Mathlib

/-!
Verification development for the recursive SQL database engine.

The definitions below are a shallow embedding of the source files:
`src/db/index.js` (table catalog, joins), `src/db/pageBuffer/index.js`
(buffer), the `Page` class, and the optimized recursive evaluator
(`executeTerm` / `executeSingleQuery` / `getCommonTreeVals`).

Modelling conventions:
- JS scalars are `JsVal` (strings and integers); `Option JsVal` models a
  possibly-`undefined` value.  A JS object is `Rec`, an ordered list of
  field/value pairs (assignment updates in place or appends, as in JS).
- The page buffer is a pure cache: `addPage`/`getPageContents` only charge
  simulated latency and never change record flow, so reads and writes are
  modelled directly against the pages owned by the table; the buffer's
  page-full error in `insertRecord` is kept (`DbErr.pageFull`).
- `nanoid()` is modelled by a fresh counter threaded through the state.
- JS runtime faults (calling a method on `undefined`, out-of-bounds slot
  access) are modelled as `DbErr.typeError` / `DbErr.outOfBounds`; code
  that throws returns `Except.error`.
- Generators are modelled eagerly as the list of values they yield; when a
  generator body can throw mid-stream, the embedding returns the yielded
  prefix together with the terminal error.
-/

namespace RecDB

/-- Scalar values stored in records: JS strings and (integer) numbers. -/
inductive JsVal where
  | str (s : String)
  | num (n : Int)
deriving DecidableEq

/-- Possibly-undefined JS value: `none` models JS `undefined`. -/
abbrev JsV := Option JsVal

/-- A record is a JS object: an ordered list of field-name/value pairs. -/
abbrev Rec := List (String × JsV)

/-- Property read `rec[k]`; yields `undefined` when the key is absent. -/
def getField (r : Rec) (k : String) : JsV :=
  match r.find? (fun p => p.1 == k) with
  | some p => p.2
  | none => none

/-- Key-presence test, JS `k in rec` (distinct from reading `undefined`). -/
def hasKey (r : Rec) (k : String) : Bool := r.any (fun p => p.1 == k)

/-- Property assignment `rec[k] = v`: updates in place, or appends a new key. -/
def setField (r : Rec) (k : String) (v : JsV) : Rec :=
  if r.any (fun p => p.1 == k) then r.map (fun p => if p.1 == k then (k, v) else p)
  else r ++ [(k, v)]

/-- JS `Object.assign(a, b)`: fields of `b` written onto a copy of `a`. -/
def objAssign (a b : Rec) : Rec := b.foldl (fun acc p => setField acc p.1 p.2) a

/-- Numeric coercion of a string, for JS loose comparison of mixed scalars. -/
def strToNum (s : String) : Option Int := s.toInt?

/-- JS loose equality `==` on defined scalars (string "3" equals number 3). -/
def jsLooseEqV : JsVal → JsVal → Bool
  | .num a, .num b => a == b
  | .str a, .str b => a == b
  | .num a, .str b => match strToNum b with | some m => m == a | none => false
  | .str a, .num b => match strToNum a with | some m => m == b | none => false

/-- JS loose equality `==` including `undefined` (equal only to itself here). -/
def jsLooseEq : JsV → JsV → Bool
  | some a, some b => jsLooseEqV a b
  | none, none => true
  | _, _ => false

/-- JS strict inequality `!==` on possibly-undefined scalar values. -/
def jsStrictNeq (a b : JsV) : Bool := !(a == b)

/-- JS `>` on defined scalars; a non-numeric string compared to a number is never greater. -/
def jsGtV : JsVal → JsVal → Bool
  | .num a, .num b => decide (b < a)
  | .str a, .str b => decide (b < a)
  | .num a, .str b => match strToNum b with | some m => decide (m < a) | none => false
  | .str a, .num b => match strToNum a with | some m => decide (b < m) | none => false

/-- JS `>` lifted to possibly-undefined values (`undefined` compares as NaN). -/
def jsGt : JsV → JsV → Bool
  | some a, some b => jsGtV a b
  | _, _ => false

/-- JS truthiness of a possibly-undefined value. -/
def jsTruthy : JsV → Bool
  | none => false
  | some (.str s) => !(s == "")
  | some (.num n) => !(n == 0)

/-- String form used by template literals (`undefined` prints as "undefined"). -/
def jsDisplay : JsV → String
  | none => "undefined"
  | some (.str s) => s
  | some (.num n) => toString n

/-- Maximum number of records one page can store (config `maxNoOfRecsPerFile`). -/
def pageCap : Nat := 100

/-- A page: opaque id plus the ordered record slots (`Page._files`). -/
structure Page where
  pid : String
  recs : List Rec
deriving DecidableEq

/-- Free slots remaining in a page (`Page.spacesLeft`). -/
def Page.spacesLeft (p : Page) : Nat := pageCap - p.recs.length

/-- A free-space queue element: `{pageId, spacesLeft}`. -/
structure Entry where
  pid : String
  spacesLeft : Nat
deriving DecidableEq

/-- A locator `(page_id, slot)` stored by hash indexes. -/
abbrev Loc := String × Nat

/-- A hash index on one column: value to non-empty list of locators.
Keys are kept in insertion order, as the backing hashmap does. -/
abbrev Index := List (JsV × List Loc)

/-- Per-table map from column name to its hash index. -/
abbrev Hashes := List (String × Index)

/-- One table of the catalog: page list (insertion-ordered), free-space
queue contents, declared column list, and the hash-index map. -/
structure Table where
  pages : List Page
  queue : List Entry
  cols : List String
  hashes : Hashes
deriving DecidableEq

/-- The whole catalog plus the fresh-name counter standing in for `nanoid`. -/
structure DBState where
  tables : List (String × Table)
  freshCtr : Nat
deriving DecidableEq

/-- Errors thrown by the embedded code. -/
inductive DbErr where
  /-- `PageBuffer.insertRecord`: the page has no more space. -/
  | pageFull
  /-- JS `TypeError`: method or property access on `undefined`. -/
  | typeError
  /-- `Page.directAccess`: record index out of bounds. -/
  | outOfBounds
  /-- `getRecsFromHash`: table needs to be hashed first. -/
  | needsHash
  /-- `hasValue`: table must be hashed first. -/
  | mustBeHashed
  /-- `getRecsFromHash`: unexpected operator. -/
  | unexpectedOp
  /-- `blockJoin` / `hashJoin`: unexpected projection source table. -/
  | unexpectedProj
  /-- Marker for a state in which the JS `while` loop would spin forever. -/
  | stuck
deriving DecidableEq

/-- Fresh opaque id from the counter (stands in for `nanoid()`). -/
def genId (n : Nat) : String := "nid" ++ String.mk (List.replicate n 'i')

/-- Extraction of the maximum-priority element of the free-space heap
(comparator: greater `spacesLeft` first); returns it and the remaining
entries.  Ties resolve to the earliest entry, one of the behaviours the
heap is allowed. -/
def pollMax : List Entry → Option (Entry × List Entry)
  | [] => none
  | e :: rest =>
    match pollMax rest with
    | none => some (e, [])
    | some (m, rest') =>
      if m.spacesLeft ≤ e.spacesLeft then some (e, rest) else some (m, e :: rest')

/-- Heap `peek`: the element `pollMax` would return, without removal. -/
def peekMax (q : List Entry) : Option Entry := (pollMax q).map Prod.fst

/-- Catalog lookup `this._tables.get(t)` (with its satellite structures). -/
def getTable? (s : DBState) (t : String) : Option Table :=
  (s.tables.find? (fun p => p.1 == t)).map Prod.snd

/-- Catalog membership `this._tables.has(t)`. -/
def hasTableB (s : DBState) (t : String) : Bool := s.tables.any (fun p => p.1 == t)

/-- Writing a table value back into the catalog under its name. -/
def setTable (s : DBState) (t : String) (T : Table) : DBState :=
  if hasTableB s t then
    { s with tables := s.tables.map (fun p => if p.1 == t then (t, T) else p) }
  else { s with tables := s.tables ++ [(t, T)] }

/-- Record append into a page (`Page.insertRecord`): slot index on success,
`none` when the page is full. -/
def pageInsertRecord (p : Page) (r : Rec) : Option (Page × Nat) :=
  if p.recs.length < pageCap then some ({ p with recs := p.recs ++ [r] }, p.recs.length)
  else none

/-- Page lookup within a table by page id. -/
def findPage (T : Table) (pid : String) : Option Page :=
  T.pages.find? (fun p => p.pid == pid)

/-- In-place update of the page with the given id. -/
def updatePage (T : Table) (pid : String) (f : Page → Page) : Table :=
  { T with pages := T.pages.map (fun p => if p.pid == pid then f p else p) }

/-- `PageBuffer.insertRecord`: inserts through the buffer into the page,
raising the page-full error when `Page.insertRecord` refuses. -/
def bufInsertRecord (T : Table) (pid : String) (r : Rec) : Except DbErr (Table × Nat) :=
  match findPage T pid with
  | none => .error .typeError
  | some p =>
    match pageInsertRecord p r with
    | none => .error .pageFull
    | some pr => .ok (updatePage T pid (fun _ => pr.1), pr.2)

/-- `DB._addNewPageToTable`: appends a fresh empty page and its queue entry. -/
def addNewPageToTable (T : Table) (ctr : Nat) : Table × Nat :=
  let pid := genId ctr
  ({ T with pages := T.pages ++ [{ pid := pid, recs := [] }],
            queue := T.queue ++ [{ pid := pid, spacesLeft := pageCap }] }, ctr + 1)

/-- `DB._getPageToInsert`: peek the most-free page, add a fresh page when it
is full, then poll.  An empty queue means `peek()` returned `undefined` and
the field access throws. -/
def getPageToInsert (T : Table) (ctr : Nat) : Except DbErr (Entry × Table × Nat) :=
  match peekMax T.queue with
  | none => .error .typeError
  | some e0 =>
    let tc := if e0.spacesLeft == 0 then addNewPageToTable T ctr else (T, ctr)
    match pollMax tc.1.queue with
    | none => .error .typeError
    | some er => .ok (er.1, { tc.1 with queue := er.2 }, tc.2)

/-- Record copy plus `_id` defaulting done by `insertRecords` for each
record: a record without `_id` gets `{tableName}:{nanoid()}` prepended. -/
def withDefaultId (t : String) (r : Rec) (ctr : Nat) : Rec × Nat :=
  if hasKey r "_id" then (r, ctr)
  else (("_id", some (.str (t ++ ":" ++ genId ctr))) :: r, ctr + 1)

/-- Inner loop of `insertRecords`: up to `spacesLeft` records written into
the polled page; stops early when the batch is exhausted. -/
def insertIntoPage (t : String) (T : Table) (ctr : Nat) (pid : String) :
    Nat → List Rec → Except DbErr (Table × Nat × List Rec)
  | 0, rs => .ok (T, ctr, rs)
  | _ + 1, [] => .ok (T, ctr, [])
  | k + 1, r :: rs =>
    let rc := withDefaultId t r ctr
    match bufInsertRecord T pid rc.1 with
    | .error e => .error e
    | .ok Ts => insertIntoPage t Ts.1 rc.2 pid k rs

/-- Queue repair after a batch: push the page's current free-space entry. -/
def requeueEntry (T : Table) (pid : String) : Table :=
  match findPage T pid with
  | none => T
  | some p => { T with queue := T.queue ++ [{ pid := pid, spacesLeft := p.spacesLeft }] }

/-- Outer `while` loop of `insertRecords`.  A pass that consumes no records
(a polled entry with zero space) would loop forever in JS; the embedding
returns the `stuck` marker there. -/
def insertRecordsLoop (t : String) (T : Table) (ctr : Nat) (recs : List Rec) :
    Except DbErr (Table × Nat) :=
  if recs.isEmpty then .ok (T, ctr)
  else
    match getPageToInsert T ctr with
    | .error e => .error e
    | .ok (e, T1, c1) =>
      match insertIntoPage t T1 c1 e.pid e.spacesLeft recs with
      | .error er => .error er
      | .ok (T2, c2, rs') =>
        let T3 := requeueEntry T2 e.pid
        if h : rs'.length < recs.length then insertRecordsLoop t T3 c2 rs'
        else .error .stuck
termination_by recs.length
decreasing_by exact h

/-- `DB.insertRecords`: batch insertion without uniqueness.  With an empty
batch the JS loop body never runs, so even a missing table is untouched. -/
def insertRecords (s : DBState) (t : String) (recs : List Rec) : Except DbErr DBState :=
  match recs with
  | [] => .ok s
  | _ :: _ =>
    match getTable? s t with
    | none => .error .typeError
    | some T =>
      match insertRecordsLoop t T s.freshCtr recs with
      | .error e => .error e
      | .ok Tc => .ok { setTable s t Tc.1 with freshCtr := Tc.2 }

/-- Key membership in a hash index. -/
def idxHasKey (idx : Index) (k : JsV) : Bool := idx.any (fun p => p.1 == k)

/-- Locator list stored under a key (empty when the key is absent). -/
def idxGet (idx : Index) (k : JsV) : List Loc :=
  match idx.find? (fun p => p.1 == k) with
  | some p => p.2
  | none => []

/-- One step of `hashTable`: append a locator under the record's key. -/
def idxAddLoc (idx : Index) (k : JsV) (l : Loc) : Index :=
  if idxHasKey idx k then idx.map (fun p => if p.1 == k then (p.1, p.2 ++ [l]) else p)
  else idx ++ [(k, [l])]

/-- Scan of one page by `hashTable`: slot counter restarts at 0 per page. -/
def hashPageInto (idx : Index) (c : String) (pid : String) (recs : List Rec) : Index :=
  (recs.foldl (fun acc r => (idxAddLoc acc.1 (getField r c) (pid, acc.2), acc.2 + 1)) (idx, 0)).1

/-- Full scan of all pages by `hashTable`, extending `idx0`. -/
def buildIndexOver (idx0 : Index) (c : String) (pages : List Page) : Index :=
  pages.foldl (fun acc p => hashPageInto acc c p.pid p.recs) idx0

/-- Index lookup in a table's hash map. -/
def getHashes (T : Table) (c : String) : Option Index :=
  (T.hashes.find? (fun p => p.1 == c)).map Prod.snd

/-- Storing an index under a column name. -/
def setHashIndex (T : Table) (c : String) (idx : Index) : Table :=
  { T with hashes :=
      if T.hashes.any (fun p => p.1 == c) then
        T.hashes.map (fun p => if p.1 == c then (c, idx) else p)
      else T.hashes ++ [(c, idx)] }

/-- `DB.hashTable(t, c, isNew)`: rebuild (or extend) the index on a column
by scanning every page.  Extending a missing index dereferences
`undefined`; the embedding raises that eagerly. -/
def hashTable (s : DBState) (t c : String) (isNew : Bool) : Except DbErr DBState :=
  match getTable? s t with
  | none => .error .typeError
  | some T =>
    match (if isNew then some [] else getHashes T c : Option Index) with
    | none => .error .typeError
    | some idx0 => .ok (setTable s t (setHashIndex T c (buildIndexOver idx0 c T.pages)))

/-- `DB.isTableHashed(t, c)`; throws on a missing table. -/
def isTableHashed (s : DBState) (t c : String) : Except DbErr Bool :=
  match getTable? s t with
  | none => .error .typeError
  | some T => .ok (T.hashes.any (fun p => p.1 == c))

/-- All records of a table in page order (`DB.getAllRecords`). -/
def getAllRecords (s : DBState) (t : String) : Except DbErr (List Rec) :=
  match getTable? s t with
  | none => .error .typeError
  | some T => .ok (T.pages.map Page.recs).flatten

/-- `Page.directAccess`: slot read returning a shallow copy (identical to
the stored record in this pure model). -/
def directAccess (p : Page) (i : Nat) : Except DbErr Rec :=
  if i ≥ p.recs.length then .error .outOfBounds
  else .ok (p.recs.getD i [])

/-- `PageBuffer.getPageRecord` through the table's pages. -/
def bufGetPageRecord (T : Table) (l : Loc) : Except DbErr Rec :=
  match findPage T l.1 with
  | none => .error .typeError
  | some p => directAccess p l.2

/-- Materialization of a locator list through the buffer. -/
def matLocs (T : Table) : List Loc → Except DbErr (List Rec)
  | [] => .ok []
  | l :: ls =>
    match bufGetPageRecord T l with
    | .error e => .error e
    | .ok r =>
      match matLocs T ls with
      | .error e => .error e
      | .ok rs => .ok (r :: rs)

/-- `DB.getRecsFromHash(t, c, op, rhs)`: `=` looks the key up, `>` walks all
greater keys; any other operator throws, as does a missing index. -/
def getRecsFromHash (s : DBState) (t c : String) (op : String) (rhs : JsV) :
    Except DbErr (List Rec) :=
  match isTableHashed s t c with
  | .error e => .error e
  | .ok false => .error .needsHash
  | .ok true =>
    match getTable? s t with
    | none => .error .typeError
    | some T =>
      let idx := (getHashes T c).getD []
      if op == "=" then
        if !(idxHasKey idx rhs) then .ok []
        else matLocs T (idxGet idx rhs)
      else if op == ">" then
        matLocs T (((idx.map Prod.fst).filter (fun k => jsGt k rhs)).flatMap (idxGet idx))
      else .error .unexpectedOp

/-- `DB.hasValue(t, c, v)`: requires an existing index and is then an O(1)
key-membership test. -/
def hasValue (s : DBState) (t c : String) (v : JsV) : Except DbErr Bool :=
  match isTableHashed s t c with
  | .error e => .error e
  | .ok false => .error .mustBeHashed
  | .ok true =>
    match getTable? s t with
    | none => .error .typeError
    | some T => .ok (idxHasKey ((getHashes T c).getD []) v)

/-- `DB.addTable(name, cols)`: no-op (returning false) when the name
exists; otherwise one empty page, its queue entry, and empty index map. -/
def addTable (s : DBState) (t : String) (cols : List String) : DBState :=
  if hasTableB s t then s
  else
    let pid := genId s.freshCtr
    { tables := s.tables ++ [(t,
        { pages := [{ pid := pid, recs := [] }],
          queue := [{ pid := pid, spacesLeft := pageCap }],
          cols := cols, hashes := [] })],
      freshCtr := s.freshCtr + 1 }

/-- `DB.clearTable(t)`: clears every page in place, re-heapifies the queue
from the cleared pages, and discards all hash indexes. -/
def clearTable (s : DBState) (t : String) : Except DbErr DBState :=
  match getTable? s t with
  | none => .error .typeError
  | some T =>
    let pages' := T.pages.map (fun p => { p with recs := ([] : List Rec) })
    .ok (setTable s t
      { pages := pages',
        queue := pages'.map (fun p => { pid := p.pid, spacesLeft := p.spacesLeft }),
        cols := T.cols, hashes := [] })

/-- `DB.drop(t)`: clears then removes all table state when the table
exists; a silent no-op otherwise. -/
def dropTable (s : DBState) (t : String) : DBState :=
  if hasTableB s t then { s with tables := s.tables.filter (fun p => !(p.1 == t)) }
  else s

/-- `DB.getNumberOfEntries(t)`: capacity times page count minus the free
spaces recorded in the queue. -/
def getNumberOfEntries (s : DBState) (t : String) : Except DbErr Int :=
  match getTable? s t with
  | none => .error .typeError
  | some T =>
    .ok ((pageCap : Int) * T.pages.length - (T.queue.map (fun e => (e.spacesLeft : Int))).sum)

/-- `DB.getTableKeys(t)`: the declared column list (a defensive copy). -/
def getTableKeys (s : DBState) (t : String) : Except DbErr (List String) :=
  match getTable? s t with
  | none => .error .typeError
  | some T => .ok T.cols

/-- `DB.filterRecords(t, f)`: lazy full scan with a predicate. -/
def filterRecords (s : DBState) (t : String) (f : Rec → Bool) : Except DbErr (List Rec) :=
  match getAllRecords s t with
  | .error e => .error e
  | .ok rs => .ok (rs.filter f)

/-- Per-record loop of `insertUniqueRecordsById`: a record whose `_id` is
already an index key is skipped; an accepted record is written through the
buffer into the polled page, the queue is repaired, and the `_id` index
gains the `(page_id, slot)` locator — all before the next record is seen. -/
def insUniqueLoop (T : Table) (ctr : Nat) (idx : Index) :
    List Rec → Except DbErr (Table × Nat × Index)
  | [] => .ok (T, ctr, idx)
  | r :: rs =>
    let i := getField r "_id"
    if idxHasKey idx i then insUniqueLoop T ctr idx rs
    else
      match getPageToInsert T ctr with
      | .error e => .error e
      | .ok (e, T1, c1) =>
        match bufInsertRecord T1 e.pid r with
        | .error er => .error er
        | .ok (T2, slot) =>
          insUniqueLoop (requeueEntry T2 e.pid) c1 (idx ++ [(i, [(e.pid, slot)])]) rs

/-- `DB.insertUniqueRecordsById(t, recs)`: ensures an `_id` index exists
(building it fresh if absent), then runs the skip-or-insert loop.  The
record object is stored as given (no copy, no `_id` defaulting). -/
def insertUniqueRecordsById (s : DBState) (t : String) (recs : List Rec) :
    Except DbErr DBState :=
  match isTableHashed s t "_id" with
  | .error e => .error e
  | .ok hashed =>
    match (if hashed then .ok s else hashTable s t "_id" true : Except DbErr DBState) with
    | .error e => .error e
    | .ok s1 =>
      match getTable? s1 t with
      | none => .error .typeError
      | some T =>
        match insUniqueLoop T s1.freshCtr ((getHashes T "_id").getD []) recs with
        | .error e => .error e
        | .ok (T', c', idx') =>
          .ok { setTable s1 t (setHashIndex T' "_id" idx') with freshCtr := c' }

/-- A projection entry `{colNameDst, colSrc: [tName, cName]}`. -/
structure Proj where
  colNameDst : String
  colSrc : String × String
deriving DecidableEq

/-- The projection switch shared by both joins: a column is drawn from
`rec1` when its source is `t1` (tested first), from `rec2` when `t2`, and
any other source table throws. -/
def applyProjection (t1 t2 : String) (proj : List Proj) (rec1 rec2 : Rec) :
    Except DbErr Rec :=
  proj.foldlM
    (fun res p =>
      if p.colSrc.1 == t1 then .ok (setField res p.colNameDst (getField rec1 p.colSrc.2))
      else if p.colSrc.1 == t2 then .ok (setField res p.colNameDst (getField rec2 p.colSrc.2))
      else .error .unexpectedProj)
    []

/-- Pair-id decoration of `hashJoin` when `shouldGenPairId` is set: the
composite `_id = "{id1}|{id2}"`, then `_id<t1> = rec1._id`, then
`_id<t2> = rec2._id` — the last assignment overwrites the one before it
when `t1 = t2`. -/
def genPairIdFields (t1 t2 : String) (rec1 rec2 : Rec) (res : Rec) : Rec :=
  let res1 := setField res "_id"
    (some (.str (jsDisplay (getField rec1 "_id") ++ "|" ++ jsDisplay (getField rec2 "_id"))))
  let res2 := setField res1 ("_id" ++ t1) (getField rec1 "_id")
  setField res2 ("_id" ++ t2) (getField rec2 "_id")

/-- Output assembly for one `(rec1, rec2)` pair of `hashJoin`. -/
def hashJoinOut (t1 t2 : String) (proj : List Proj) (genPair : Bool)
    (rec1 rec2 : Rec) : Except DbErr Rec :=
  match applyProjection t1 t2 proj rec1 rec2 with
  | .error e => .error e
  | .ok res => .ok (if genPair then genPairIdFields t1 t2 rec1 rec2 res else res)

/-- Cartesian pairing step of `hashJoin`: all projected outputs for the
materialized left records against the materialized right records. -/
def hashJoinEmit (t1 t2 : String) (proj : List Proj) (genPair : Bool)
    (recs1 recs2 : List Rec) : Except DbErr (List Rec) :=
  recs1.foldlM
    (fun acc r1 =>
      recs2.foldlM (fun acc2 r2 =>
        match hashJoinOut t1 t2 proj genPair r1 r2 with
        | .error e => .error e
        | .ok o => .ok (acc2 ++ [o])) acc)
    []

/-- The `op` filter of `hashJoin` on right-hand index keys (`default`
branch of the switch keeps nothing, without error). -/
def hashJoinKeyMatch (op : String) (v1 v2 : JsV) : Bool :=
  if op == ">" then jsGt v1 v2
  else if op == "=" then jsLooseEq v1 v2
  else false

/-- Main loop of `hashJoin` over the distinct left keys. -/
def hashJoinLoop (T1 T2 : Table) (t1 t2 : String) (proj : List Proj) (op : String)
    (genPair : Bool) (idx2 : Index) : List (JsV × List Loc) → Except DbErr (List Rec)
  | [] => .ok []
  | (v1, locs1) :: rest =>
    match matLocs T1 locs1 with
    | .error e => .error e
    | .ok recs1 =>
      let vals2 := (idx2.map Prod.fst).filter (fun v2 => hashJoinKeyMatch op v1 v2)
      match matLocs T2 (vals2.flatMap (idxGet idx2)) with
      | .error e => .error e
      | .ok recs2 =>
        match hashJoinEmit t1 t2 proj genPair recs1 recs2 with
        | .error e => .error e
        | .ok out =>
          match hashJoinLoop T1 T2 t1 t2 proj op genPair idx2 rest with
          | .error e => .error e
          | .ok outRest => .ok (out ++ outRest)

/-- `DB.hashJoin(t1, c1, t2, c2, proj, op, shouldGenPairId)`: hashes both
sides when not already hashed, then for each distinct left value emits the
Cartesian product of the matching locator lists under the projection.
Returns the updated state (the built indexes are stored) and the emitted
stream. -/
def hashJoin (s : DBState) (t1 c1 t2 c2 : String) (proj : List Proj) (op : String)
    (genPair : Bool) : Except DbErr (DBState × List Rec) :=
  match isTableHashed s t1 c1 with
  | .error e => .error e
  | .ok h1 =>
    match (if h1 then .ok s else hashTable s t1 c1 true : Except DbErr DBState) with
    | .error e => .error e
    | .ok sa =>
      match isTableHashed sa t2 c2 with
      | .error e => .error e
      | .ok h2 =>
        match (if h2 then .ok sa else hashTable sa t2 c2 true : Except DbErr DBState) with
        | .error e => .error e
        | .ok sb =>
          match getTable? sb t1, getTable? sb t2 with
          | some T1, some T2 =>
            let idx1 := (getHashes T1 c1).getD []
            let idx2 := (getHashes T2 c2).getD []
            match hashJoinLoop T1 T2 t1 t2 proj op genPair idx2 idx1 with
            | .error e => .error e
            | .ok out => .ok (sb, out)
          | _, _ => .error .typeError

/-- Left-to-right accumulation of `blockJoin` blocks: each pushed element
joins the current block, which is flushed when it reaches `n` elements;
the remainder is flushed at end of input. -/
def chunksAux (n : Nat) (cur : List α) : List α → List (List α)
  | [] => if cur.isEmpty then [] else [cur]
  | x :: xs =>
    let cur' := cur ++ [x]
    if cur'.length == n then cur' :: chunksAux n [] xs
    else chunksAux n cur' xs

/-- Splitting of a list into chunks of size `n` (the outer blocks driven by
`blockJoin`): flush happens when the block reaches `n` elements or the
input ends. -/
def chunksOf (n : Nat) (l : List α) : List (List α) := chunksAux n [] l

/-- Output assembly for one `(outer, inner)` pair of `blockJoin`.  The
outer slot carries `none` when it holds the driver generator's terminal
`undefined` (the source pushes `value` before testing `done`); projecting
a column from table 1 then dereferences `undefined` and throws. -/
def blockJoinOut (t1 t2 : String) (proj : List Proj) (mrec1 : Option Rec)
    (rec2 : Rec) : Except DbErr Rec :=
  proj.foldlM
    (fun res p =>
      if p.colSrc.1 == t1 then
        match mrec1 with
        | none => .error .typeError
        | some rec1 => .ok (setField res p.colNameDst (getField rec1 p.colSrc.2))
      else if p.colSrc.1 == t2 then .ok (setField res p.colNameDst (getField rec2 p.colSrc.2))
      else .error .unexpectedProj)
    []

/-- Stream of a generator that can throw: the yielded prefix plus the
terminal error, if any. -/
abbrev GenStream := List Rec × Option DbErr

/-- Concatenation of generator streams: a terminal error cuts the rest. -/
def genAppend (a : GenStream) (bf : Unit → GenStream) : GenStream :=
  match a.2 with
  | some _ => a
  | none => let b := bf (); (a.1 ++ b.1, b.2)

/-- Inner scan of `blockJoin` for one outer slot. -/
def blockJoinInner (t1 t2 : String) (proj : List Proj) (mrec1 : Option Rec) :
    List Rec → GenStream
  | [] => ([], none)
  | r2 :: rs =>
    match blockJoinOut t1 t2 proj mrec1 r2 with
    | .error e => ([], some e)
    | .ok o => genAppend ([o], none) (fun _ => blockJoinInner t1 t2 proj mrec1 rs)

/-- One flushed block of `blockJoin`.  The source creates `t2Generator`
once per flushed block and every outer slot iterates the same generator:
the first slot's `for...of` exhausts it, so every later slot of the block
sees an empty scan. -/
def blockJoinBlock (t1 t2 : String) (proj : List Proj) (recs2 : List Rec) :
    List (Option Rec) → GenStream
  | [] => ([], none)
  | m :: ms =>
    genAppend (blockJoinInner t1 t2 proj m recs2)
      (fun _ => blockJoinBlock t1 t2 proj [] ms)

/-- All blocks in sequence. -/
def blockJoinBlocks (t1 t2 : String) (proj : List Proj) (recs2 : List Rec) :
    List (List (Option Rec)) → GenStream
  | [] => ([], none)
  | b :: bs =>
    genAppend (blockJoinBlock t1 t2 proj recs2 b)
      (fun _ => blockJoinBlocks t1 t2 proj recs2 bs)

/-- Block size from the config (`blockJoinSize`). -/
def blockJoinSize : Nat := 100

/-- The record flow of `DB.blockJoin` as written, granting the intended
resolution of its `DB.getAllRecords` calls to the instance method (the
source invokes them on the class, where the method is `undefined`, so the
real generator throws a `TypeError` on first use — see the claim
theorems).  The driver pushes `value` into the current block before
testing `done`, so the terminal `undefined` of the outer generator lands
in the final block as a `none` slot; each flushed block opens one shared
inner scan, exhausted by the block's first slot. -/
def blockJoin (t1 t2 : String) (recs1 recs2 : List Rec) (proj : List Proj) : GenStream :=
  blockJoinBlocks t1 t2 proj recs2
    (chunksOf blockJoinSize (recs1.map some ++ [none]))

/-- Phase D insertion loop guard of `executeTerm`: a joined record is
skipped iff both sides resolved to the same source table and its
`_id<src1>` field differs strictly from its `_id<src2>` field; the
survivors are inserted.  When `src1 = src2` those are the same field. -/
def selfJoinFilterInsert (src1 src2 : String) (joined : List Rec) : List Rec :=
  joined.filter (fun jr =>
    !(src1 == src2 &&
      jsStrictNeq (getField jr ("_id" ++ src1)) (getField jr ("_id" ++ src2))))

/-- The pair-table intersection of `getCommonTreeVals`:
`parentTables.filter(pt => childTables.includes(pt))[0]`. -/
def intersectionTable (parentTables childTables : List String) : Option String :=
  (parentTables.filter (fun pt => childTables.contains pt)).head?

/-- Shared-source column name `_id<t*>`; indexing an empty intersection
gives `undefined`, which the template literal prints. -/
def intersectionCol (parentTables childTables : List String) : String :=
  match intersectionTable parentTables childTables with
  | some t => "_id" ++ t
  | none => "_idundefined"

/-- The `childrenTables.every` callback chain of `getCommonTreeVals`: the
arrow function evaluates `DB.hasValue(...)` but its block body has no
return statement, so the callback's value is `undefined`; `every` tests
its truthiness. -/
def childKeepCheck (s : DBState) (parentTables : List String) (pr : Rec) :
    List (String × List String) → Except DbErr Bool
  | [] => .ok true
  | c :: cs =>
    let col := intersectionCol parentTables c.2
    match hasValue s c.1 col (getField pr col) with
    | .error e => .error e
    | .ok _ =>
      if jsTruthy none then childKeepCheck s parentTables pr cs
      else .ok false

/-- In-memory composition against one child inside `getCommonTreeVals`:
for each matching child record (via `get_recs_from_hash` on the shared
`_id<t*>` column with `=`), merge it over every accumulated record. -/
def composeWithChild (s : DBState) (parentTables : List String) (pr : Rec)
    (recs : List Rec) (c : String × List String) : Except DbErr (List Rec) :=
  let col := intersectionCol parentTables c.2
  match getRecsFromHash s c.1 col "=" (getField pr col) with
  | .error e => .error e
  | .ok childRecs =>
    .ok (childRecs.flatMap (fun childRec =>
      recs.map (fun r => objAssign (objAssign [] r) childRec)))

/-- Fold of the composition across all children, seeded with the parent
record's copy. -/
def composeAcrossChildren (s : DBState) (parentTables : List String) (pr : Rec) :
    List (String × List String) → List Rec → Except DbErr (List Rec)
  | [], recs => .ok recs
  | c :: cs, recs =>
    match composeWithChild s parentTables pr recs c with
    | .error e => .error e
    | .ok recs' => composeAcrossChildren s parentTables pr cs recs'

/-- Projection of a composed record to
`{_id<p0>, _id<p1>} ∪ term.cols` (`keysToKeep` in the source). -/
def projectKeysToKeep (parentTables : List String) (columns : List String) (r : Rec) : Rec :=
  let keysToKeep := ("_id" ++ (parentTables.getD 0 "undefined")) ::
    ("_id" ++ (parentTables.getD 1 "undefined")) :: columns
  keysToKeep.foldl (fun res k => if hasKey r k then setField res k (getField r k) else res) []

/-- Per-parent-record loop of the non-leaf branch of `getCommonTreeVals`:
a record passing the keep test is composed across the children and its
projections appended to the results. -/
def treeNodeResults (s : DBState) (parentTables : List String)
    (children : List (String × List String)) (columns : List String) :
    List Rec → Except DbErr (List Rec)
  | [] => .ok []
  | pr :: prs =>
    match childKeepCheck s parentTables pr children with
    | .error e => .error e
    | .ok keep =>
      match (if keep then
          match composeAcrossChildren s parentTables pr children [objAssign [] pr] with
          | .error e => .error e
          | .ok recs => .ok (recs.map (projectKeysToKeep parentTables columns))
        else .ok [] : Except DbErr (List Rec)) with
      | .error e => .error e
      | .ok here =>
        match treeNodeResults s parentTables children columns prs with
        | .error e => .error e
        | .ok rest => .ok (here ++ rest)

/-- Re-hash loop at the end of the non-leaf branch:
`parentTables.forEach(t => DB.hashTable(parentId, _id<t>, true))`. -/
def hashParentCols (parentId : String) : DBState → List String → Except DbErr DBState
  | s, [] => .ok s
  | s, t :: ts =>
    match hashTable s parentId ("_id" ++ t) true with
    | .error e => .error e
    | .ok s' => hashParentCols parentId s' ts

/-- One non-root evaluation step of `getCommonTreeVals` (Phase E): with no
children the node's own pair table is the result; otherwise the parent
rows passing the keep test are composed with the children's matching rows,
projected, and the parent table is overwritten with exactly these rows and
re-hashed on both provenance columns. -/
def getCommonTreeValsStep (s : DBState) (parentId : String)
    (parentTables : List String) (children : List (String × List String))
    (columns : List String) : Except DbErr DBState :=
  if children.isEmpty then .ok s
  else
    match getAllRecords s parentId with
    | .error e => .error e
    | .ok prs =>
      match treeNodeResults s parentTables children columns prs with
      | .error e => .error e
      | .ok results =>
        match clearTable s parentId with
        | .error e => .error e
        | .ok s1 =>
          match insertRecords s1 parentId results with
          | .error e => .error e
          | .ok s2 => hashParentCols parentId s2 parentTables

/-- Catalog write operations issued by the evaluator. -/
inductive DbOp where
  | addTable (t : String) (cols : List String)
  | insertRecords (t : String) (recs : List Rec)
  | insertUnique (t : String) (recs : List Rec)
  | clearTable (t : String)
  | dropT (t : String)
  | hashTableOp (t c : String) (isNew : Bool)
deriving DecidableEq

/-- The table an operation addresses. -/
def DbOp.target : DbOp → String
  | .addTable t _ => t
  | .insertRecords t _ => t
  | .insertUnique t _ => t
  | .clearTable t => t
  | .dropT t => t
  | .hashTableOp t _ _ => t

/-- Effect of one catalog operation on the state. -/
def applyOp (s : DBState) : DbOp → Except DbErr DBState
  | .addTable t cols => .ok (addTable s t cols)
  | .insertRecords t recs => insertRecords s t recs
  | .insertUnique t recs => insertUniqueRecordsById s t recs
  | .clearTable t => clearTable s t
  | .dropT t => .ok (dropTable s t)
  | .hashTableOp t c isNew => hashTable s t c isNew

/-- Sequential effect of a list of catalog operations. -/
def applyOps (s : DBState) : List DbOp → Except DbErr DBState
  | [] => .ok s
  | op :: ops =>
    match applyOp s op with
    | .error e => .error e
    | .ok s' => applyOps s' ops

/-- The operations a term execution may address at the result table `R`:
only `insertUniqueRecordsById` (the source's lines inserting into
`resultTableName`); every other operation of the pass addresses other
tables (working, temp, pair and source tables). -/
def RInsertOnly (R : String) (ops : List DbOp) : Prop :=
  ∀ op ∈ ops, op.target = R → ∃ recs, op = DbOp.insertUnique R recs

/-- One `executeTerm` pass as seen by the fixpoint driver: the entry count
of `R` before, the pass's operations, the entry count after, and the
returned delta `|R_after| - |R_before|`. -/
def passStep (R : String) (trace : DBState → List DbOp) (s : DBState) :
    Except DbErr (DBState × Int) :=
  match getNumberOfEntries s R with
  | .error e => .error e
  | .ok n0 =>
    match applyOps s (trace s) with
    | .error e => .error e
    | .ok s' =>
      match getNumberOfEntries s' R with
      | .error e => .error e
      | .ok n1 => .ok (s', n1 - n0)

/-- The driver's `do ... while (recordsInserted > 0)` loop of
`executeSingleQuery`, with fuel: returns the deltas of the executed passes
and the final state when the loop exited (none when fuel ran out with the
loop still running). -/
def driveLoop (R : String) (trace : DBState → List DbOp) :
    Nat → DBState → Except DbErr (List Int × Option DBState)
  | 0, _ => .ok ([], none)
  | fuel + 1, s =>
    match passStep R trace s with
    | .error e => .error e
    | .ok (s', d) =>
      if d > 0 then
        match driveLoop R trace fuel s' with
        | .error e => .error e
        | .ok dsr => .ok (d :: dsr.1, dsr.2)
      else .ok ([d], some s')

/-- Object address in the reference model of record identity. -/
abbrev Addr := Nat

/-- Object heap: addresses index allocated JS objects. -/
abbrev Heap := List Rec

/-- Dereference of an object. -/
def hGet (h : Heap) (a : Addr) : Rec := h.getD a []

/-- Overwrite of the object at an address. -/
def hSet (h : Heap) (a : Addr) (r : Rec) : Heap := h.set a r

/-- Allocation of a fresh object. -/
def allocObj (h : Heap) (r : Rec) : Heap × Addr := (h ++ [r], h.length)

/-- `Page.iterator()`: `this._files.slice()` copies the slot array but
yields the stored object references themselves, unchanged. -/
def pageIterRefs (files : List Addr) : List Addr := files

/-- `Page.directAccess(i)`: allocates `Object.assign({}, stored)`, a fresh
shallow copy, and hands out its address. -/
def directAccessRef (h : Heap) (files : List Addr) (i : Nat) :
    Except DbErr (Heap × Addr) :=
  if i ≥ files.length then .error .outOfBounds
  else .ok (allocObj h (hGet h (files.getD i 0)))

/-- `insertRecords` storage of one record: `Object.assign({}, rec)` is
allocated and the fresh copy's address is stored in the page. -/
def insertCopyRef (h : Heap) (files : List Addr) (a : Addr) : Heap × List Addr :=
  let ha := allocObj h (hGet h a)
  (ha.1, files ++ [ha.2])

/-- `insertUniqueRecordsById` storage of one record: the caller's object
itself is stored (no copy is taken). -/
def insertSharedRef (h : Heap) (files : List Addr) (a : Addr) : Heap × List Addr :=
  (h, files ++ [a])

/-- Mutation of one field of an object through a reference. -/
def setFieldAt (h : Heap) (a : Addr) (k : String) (v : JsV) : Heap :=
  hSet h a (setField (hGet h a) k v)

/-- The record contents a subsequent reader of the page observes. -/
def tableContents (h : Heap) (files : List Addr) : List Rec := files.map (hGet h)

/-- Records of a table in storage order (page order, then slot order). -/
def recsOf (T : Table) : List Rec := (T.pages.map Page.recs).flatten

/-- The `_id` values of all records stored in a table. -/
def idsOf (T : Table) : List JsV := (recsOf T).map (fun r => getField r "_id")

/-- The free-space entry a page accounts for. -/
def pageEntry (p : Page) : Entry := { pid := p.pid, spacesLeft := p.spacesLeft }

/-- Structural soundness of one table's auxiliary state: the free-space
queue holds exactly one accurate entry per page, page ids are distinct and
were all drawn from the fresh counter, no page overflows its capacity, and
the table has at least one page. -/
def TInv (T : Table) (ctr : Nat) : Prop :=
  T.queue.Perm (T.pages.map pageEntry) ∧
  (T.pages.map Page.pid).Nodup ∧
  (∀ p ∈ T.pages, p.recs.length ≤ pageCap) ∧
  (∀ p ∈ T.pages, p.pid ∈ (List.range ctr).map genId) ∧
  T.pages ≠ []

/-- Structural soundness of the catalog: distinct table names and `TInv`
for every table. -/
def Inv (s : DBState) : Prop :=
  (s.tables.map Prod.fst).Nodup ∧ ∀ nT ∈ s.tables, TInv nT.2 s.freshCtr

instance decidableTInv (T : Table) (ctr : Nat) : Decidable (TInv T ctr) := by
  unfold TInv
  infer_instance

instance decidableInv (s : DBState) : Decidable (Inv s) := by
  unfold Inv
  infer_instance

theorem genId_inj {m n : Nat} (h : genId m = genId n) : m = n := by
  have hl := congrArg String.length h
  simpa [genId] using hl

theorem genId_not_mem_range {n : Nat} : genId n ∉ (List.range n).map genId := by
  intro hmem
  rcases List.mem_map.mp hmem with ⟨k, hk, hEq⟩
  exact absurd (genId_inj hEq.symm) (Nat.ne_of_gt (List.mem_range.mp hk))

theorem pollMax_nil : pollMax [] = none := rfl

theorem pollMax_eq_none {q : List Entry} (h : pollMax q = none) : q = [] := by
  cases q with
  | nil => rfl
  | cons e rest =>
    exfalso
    simp only [pollMax] at h
    cases hr : pollMax rest with
    | none => rw [hr] at h; exact Option.noConfusion h
    | some mr =>
      rw [hr] at h
      by_cases hle : mr.1.spacesLeft ≤ e.spacesLeft <;> simp [hle] at h

theorem pollMax_perm {q : List Entry} {m : Entry} {r : List Entry}
    (h : pollMax q = some (m, r)) : q.Perm (m :: r) := by
  induction q generalizing m r with
  | nil => exact absurd h (by simp [pollMax])
  | cons e rest ih =>
    simp only [pollMax] at h
    cases hr : pollMax rest with
    | none =>
      rw [hr] at h
      have hnil : rest = [] := pollMax_eq_none hr
      subst hnil
      simp only [Option.some.injEq, Prod.mk.injEq] at h
      obtain ⟨h1, h2⟩ := h
      subst h1
      subst h2
      exact List.Perm.refl _
    | some mr =>
      rw [hr] at h
      obtain ⟨m', rest'⟩ := mr
      have hperm : rest.Perm (m' :: rest') := ih hr
      by_cases hle : m'.spacesLeft ≤ e.spacesLeft
      · simp only [hle, if_true, Option.some.injEq, Prod.mk.injEq] at h
        obtain ⟨h1, h2⟩ := h
        subst h1
        subst h2
        exact List.Perm.refl _
      · simp only [hle, if_false, Option.some.injEq, Prod.mk.injEq] at h
        obtain ⟨h1, h2⟩ := h
        subst h1
        subst h2
        exact (hperm.cons e).trans (List.Perm.swap m' e rest')

theorem pollMax_max {q : List Entry} {m : Entry} {r : List Entry}
    (h : pollMax q = some (m, r)) : ∀ x ∈ q, x.spacesLeft ≤ m.spacesLeft := by
  induction q generalizing m r with
  | nil => exact absurd h (by simp [pollMax])
  | cons e rest ih =>
    simp only [pollMax] at h
    cases hr : pollMax rest with
    | none =>
      rw [hr] at h
      have hnil : rest = [] := pollMax_eq_none hr
      subst hnil
      simp only [Option.some.injEq, Prod.mk.injEq] at h
      intro x hx
      rcases List.mem_cons.mp hx with hx | hx
      · rw [hx, h.1]
      · exact absurd hx (List.not_mem_nil x)
    | some mr =>
      rw [hr] at h
      obtain ⟨m', rest'⟩ := mr
      by_cases hle : m'.spacesLeft ≤ e.spacesLeft
      · simp only [hle, if_true, Option.some.injEq, Prod.mk.injEq] at h
        intro x hx
        rcases List.mem_cons.mp hx with hx | hx
        · rw [hx, h.1]
        · exact le_trans (le_trans (ih hr x hx) hle) (le_of_eq (congrArg Entry.spacesLeft h.1))
      · simp only [hle, if_false, Option.some.injEq, Prod.mk.injEq] at h
        intro x hx
        rcases List.mem_cons.mp hx with hx | hx
        · rw [hx]
          exact le_trans (le_of_lt (lt_of_not_le hle)) (le_of_eq (congrArg Entry.spacesLeft h.1))
        · exact le_trans (ih hr x hx) (le_of_eq (congrArg Entry.spacesLeft h.1))

theorem pollMax_of_ne_nil {q : List Entry} (h : q ≠ []) :
    ∃ m r, pollMax q = some (m, r) := by
  cases hp : pollMax q with
  | none => exact absurd (pollMax_eq_none hp) h
  | some mr =>
    obtain ⟨a, b⟩ := mr
    exact ⟨a, b, rfl⟩

theorem TInv_queue_ne_nil {T : Table} {ctr : Nat} (h : TInv T ctr) : T.queue ≠ [] := by
  intro hq
  obtain ⟨hperm, _, _, _, hne⟩ := h
  rw [hq] at hperm
  have := hperm.length_eq
  simp only [List.length_nil, List.length_map] at this
  exact hne (List.eq_nil_of_length_eq_zero this.symm)

theorem findPage_decomp {T : Table} {l₁ l₂ : List Page} {p : Page}
    (hp : T.pages = l₁ ++ p :: l₂) (hnd : (T.pages.map Page.pid).Nodup) :
    findPage T p.pid = some p := by
  unfold findPage
  rw [hp]
  rw [hp] at hnd
  simp only [List.map_append, List.map_cons] at hnd
  have hdisj := (List.nodup_append.mp hnd).2.2
  have hl₁ : ∀ q ∈ l₁, ¬(q.pid == p.pid) = true := by
    intro q hq hbeq
    exact hdisj (List.mem_map_of_mem Page.pid hq)
      (by rw [eq_of_beq hbeq]; exact List.mem_cons_self _ _)
  rw [List.find?_append]
  rw [List.find?_eq_none.mpr hl₁]
  simp [List.find?_cons]

theorem updatePage_decomp {T : Table} {l₁ l₂ : List Page} {p : Page} (f : Page → Page)
    (hp : T.pages = l₁ ++ p :: l₂) (hnd : (T.pages.map Page.pid).Nodup) :
    updatePage T p.pid f = { T with pages := l₁ ++ f p :: l₂ } := by
  unfold updatePage
  rw [hp] at hnd
  simp only [List.map_append, List.map_cons] at hnd
  have hnd2 := List.nodup_append.mp hnd
  have hdisj := hnd2.2.2
  have hcons := List.nodup_cons.mp hnd2.2.1
  have hgoal : T.pages.map (fun q => if (q.pid == p.pid) = true then f q else q) =
      l₁ ++ f p :: l₂ := by
    simp only [hp, List.map_append, List.map_cons]
    have hid₁ : ∀ q ∈ l₁, (if (q.pid == p.pid) = true then f q else q) = id q := by
      intro q hq
      have hne : ¬(q.pid == p.pid) = true := by
        intro hbeq
        exact hdisj (List.mem_map_of_mem Page.pid hq)
          (by rw [eq_of_beq hbeq]; exact List.mem_cons_self _ _)
      simp [hne]
    have hid₂ : ∀ q ∈ l₂, (if (q.pid == p.pid) = true then f q else q) = id q := by
      intro q hq
      have hne : ¬(q.pid == p.pid) = true := by
        intro hbeq
        exact hcons.1 (by
          rw [← (eq_of_beq hbeq)]
          exact List.mem_map_of_mem Page.pid hq)
      simp [hne]
    rw [List.map_congr_left hid₁, List.map_id]
    congr 1
    rw [List.map_congr_left hid₂, List.map_id]
    simp
  simp only [hgoal]

theorem bufInsertRecord_ok {T : Table} {l₁ l₂ : List Page} {p : Page} {r : Rec}
    (hp : T.pages = l₁ ++ p :: l₂) (hnd : (T.pages.map Page.pid).Nodup)
    (hlen : p.recs.length < pageCap) :
    bufInsertRecord T p.pid r =
      .ok ({ T with pages := l₁ ++ { p with recs := p.recs ++ [r] } :: l₂ }, p.recs.length) := by
  unfold bufInsertRecord
  rw [findPage_decomp hp hnd]
  unfold pageInsertRecord
  simp only [hlen, if_true]
  rw [updatePage_decomp (fun _ => { p with recs := p.recs ++ [r] }) hp hnd]

theorem requeueEntry_spec {T : Table} {l₁ l₂ : List Page} {p : Page}
    (hp : T.pages = l₁ ++ p :: l₂) (hnd : (T.pages.map Page.pid).Nodup) :
    requeueEntry T p.pid = { T with queue := T.queue ++ [pageEntry p] } := by
  unfold requeueEntry
  rw [findPage_decomp hp hnd]
  simp [pageEntry]

/-- State of a table right after `_getPageToInsert` returned: the polled
entry is accurate for a real page with at least one free slot, and the
remaining queue plus that entry still accounts for every page exactly. -/
structure PolledOk (T : Table) (ctr : Nat) (e : Entry) (T' : Table) (ctr' : Nat) : Prop where
  perm : (e :: T'.queue).Perm (T'.pages.map pageEntry)
  nodup : (T'.pages.map Page.pid).Nodup
  lens : ∀ p ∈ T'.pages, p.recs.length ≤ pageCap
  pidsLt : ∀ p ∈ T'.pages, p.pid ∈ (List.range ctr').map genId
  nonempty : T'.pages ≠ []
  ctrLe : ctr ≤ ctr'
  recsEq : recsOf T' = recsOf T
  colsEq : T'.cols = T.cols
  hashesEq : T'.hashes = T.hashes
  spaces : 1 ≤ e.spacesLeft

theorem getPageToInsert_spec {T : Table} {ctr : Nat} (h : TInv T ctr) :
    ∃ e T' ctr', getPageToInsert T ctr = .ok (e, T', ctr') ∧ PolledOk T ctr e T' ctr' := by
  obtain ⟨hperm, hnd, hlens, hpids, hne⟩ := h
  obtain ⟨m, r, hpoll⟩ := pollMax_of_ne_nil (TInv_queue_ne_nil ⟨hperm, hnd, hlens, hpids, hne⟩)
  unfold getPageToInsert peekMax
  rw [hpoll]
  simp only [Option.map_some']
  by_cases hz : m.spacesLeft = 0
  · -- the most-free page is full: a fresh page is added before polling
    simp only [hz, beq_self_eq_true, if_true]
    unfold addNewPageToTable
    set P0 : Page := { pid := genId ctr, recs := [] } with hP0
    set E0 : Entry := { pid := genId ctr, spacesLeft := pageCap } with hE0
    have hqa : T.queue ++ [E0] ≠ [] := by simp
    obtain ⟨e, rest, hpoll2⟩ := pollMax_of_ne_nil hqa
    rw [hpoll2]
    refine ⟨e, _, ctr + 1, rfl, ?_⟩
    have hpageE0 : pageEntry P0 = E0 := by
      simp [pageEntry, Page.spacesLeft, hP0, hE0]
    have hnotmem : genId ctr ∉ T.pages.map Page.pid := by
      intro hmem
      rcases List.mem_map.mp hmem with ⟨q, hq, hqe⟩
      exact genId_not_mem_range (hqe ▸ hpids q hq)
    constructor
    · -- perm
      exact (pollMax_perm hpoll2).symm.trans (by
        simp only [List.map_append, List.map_cons, List.map_nil]
        rw [hpageE0]
        exact hperm.append_right [E0])
    · -- nodup
      simp only [List.map_append, List.map_cons, List.map_nil]
      have : (T.pages.map Page.pid ++ [P0.pid]).Perm (P0.pid :: T.pages.map Page.pid) :=
        List.perm_append_singleton _ _
      rw [this.nodup_iff]
      exact List.nodup_cons.mpr ⟨by simpa [hP0] using hnotmem, hnd⟩
    · -- lens
      intro q hq
      rcases List.mem_append.mp hq with hq | hq
      · exact hlens q hq
      · simp only [List.mem_singleton] at hq
        subst hq
        simp [hP0, pageCap]
    · -- pidsLt
      intro q hq
      rcases List.mem_append.mp hq with hq | hq
      · exact List.map_subset genId (List.range_subset.mpr (Nat.le_succ ctr)) (hpids q hq)
      · simp only [List.mem_singleton] at hq
        subst hq
        exact List.mem_map_of_mem genId (List.mem_range.mpr (Nat.lt_succ_self ctr))
    · -- nonempty
      simp
    · -- ctrLe
      exact Nat.le_succ ctr
    · -- recsEq
      simp [recsOf, hP0]
    · -- colsEq
      rfl
    · -- hashesEq
      rfl
    · -- spaces
      have hmem : E0 ∈ T.queue ++ [E0] := by simp
      have hcap : pageCap ≤ e.spacesLeft := pollMax_max hpoll2 E0 hmem
      exact le_trans (by norm_num [pageCap]) hcap
  · -- the most-free page still has room: poll returns it unchanged
    have hfalse : (m.spacesLeft == 0) = false := by simpa using hz
    simp only [hfalse, Bool.false_eq_true, if_false]
    rw [hpoll]
    refine ⟨m, _, ctr, rfl, ?_⟩
    exact ⟨(pollMax_perm hpoll).symm.trans hperm, hnd, hlens, hpids, hne, le_refl ctr,
      rfl, rfl, rfl, Nat.pos_of_ne_zero hz⟩

theorem withDefaultId_ctr_le (t : String) (r : Rec) (ctr : Nat) :
    ctr ≤ (withDefaultId t r ctr).2 := by
  unfold withDefaultId
  split <;> simp

theorem insertIntoPage_spec {t : String} :
    ∀ (k : Nat) (rs : List Rec) (T : Table) (ctr : Nat) (l₁ l₂ : List Page) (p : Page),
      T.pages = l₁ ++ p :: l₂ →
      (T.pages.map Page.pid).Nodup →
      p.recs.length + k ≤ pageCap →
      ∃ T' ctr' added,
        insertIntoPage t T ctr p.pid k rs = .ok (T', ctr', rs.drop (min k rs.length)) ∧
        T'.pages = l₁ ++ { p with recs := p.recs ++ added } :: l₂ ∧
        added.length = min k rs.length ∧
        ctr ≤ ctr' ∧ T'.queue = T.queue ∧ T'.cols = T.cols ∧ T'.hashes = T.hashes := by
  intro k
  induction k with
  | zero =>
    intro rs T ctr l₁ l₂ p hp hnd hcap
    refine ⟨T, ctr, [], ?_, ?_, ?_, le_refl ctr, rfl, rfl, rfl⟩
    · simp [insertIntoPage]
    · simpa using hp
    · simp
  | succ k ih =>
    intro rs T ctr l₁ l₂ p hp hnd hcap
    cases rs with
    | nil =>
      refine ⟨T, ctr, [], ?_, ?_, ?_, le_refl ctr, rfl, rfl, rfl⟩
      · simp [insertIntoPage]
      · simpa using hp
      · simp
    | cons r rs' =>
      have hlt : p.recs.length < pageCap := by omega
      have hstep : insertIntoPage t T ctr p.pid (k + 1) (r :: rs') =
          (match bufInsertRecord T p.pid (withDefaultId t r ctr).1 with
           | .error e => .error e
           | .ok Ts => insertIntoPage t Ts.1 (withDefaultId t r ctr).2 p.pid k rs') := rfl
      have hbuf := bufInsertRecord_ok (r := (withDefaultId t r ctr).1) hp hnd hlt
      set p1 : Page := { p with recs := p.recs ++ [(withDefaultId t r ctr).1] } with hp1
      set T1 : Table := { T with pages := l₁ ++ p1 :: l₂ } with hT1
      have hpages1 : T1.pages = l₁ ++ p1 :: l₂ := rfl
      have hnd1 : (T1.pages.map Page.pid).Nodup := by
        have hmapeq : T1.pages.map Page.pid = T.pages.map Page.pid := by
          simp [hpages1, hp, hp1]
        rw [hmapeq]
        exact hnd
      have hcap1 : p1.recs.length + k ≤ pageCap := by
        simp only [hp1, List.length_append, List.length_cons, List.length_nil]
        omega
      obtain ⟨T', ctr', added', heq, hpagesF, hlenF, hctrF, hqF, hcF, hhF⟩ :=
        ih rs' T1 (withDefaultId t r ctr).2 l₁ l₂ p1 hpages1 hnd1 hcap1
      refine ⟨T', ctr', (withDefaultId t r ctr).1 :: added', ?_, ?_, ?_, ?_, ?_, ?_, ?_⟩
      · rw [hstep, hbuf]
        show insertIntoPage t T1 (withDefaultId t r ctr).2 p.pid k rs' =
          .ok (T', ctr', (r :: rs').drop (min (k + 1) (r :: rs').length))
        have hdrop : (r :: rs').drop (min (k + 1) (r :: rs').length) =
            rs'.drop (min k rs'.length) := by
          simp [Nat.succ_min_succ]
        rw [hdrop]
        have hpid : p1.pid = p.pid := rfl
        rw [← hpid]
        exact heq
      · rw [hpagesF]
        simp [hp1, List.append_assoc]
      · simp only [List.length_cons, hlenF, List.length_cons, Nat.succ_min_succ]
      · exact le_trans (withDefaultId_ctr_le t r ctr) hctrF
      · rw [hqF]
      · rw [hcF]
      · rw [hhF]

theorem recsOf_length_decomp {l₁ l₂ : List Page} {p : Page} {T : Table}
    (hp : T.pages = l₁ ++ p :: l₂) :
    (recsOf T).length =
      ((l₁.map Page.recs).flatten).length + p.recs.length +
        ((l₂.map Page.recs).flatten).length := by
  simp [recsOf, hp]
  omega

/-- Queue repair preserves the per-page accounting: pushing the grown
page's entry after removing its stale one restores the permutation. -/
theorem queue_repair_perm {q : List Entry} {l₁ l₂ : List Page} {p p2 : Page}
    (hperm : (pageEntry p :: q).Perm ((l₁ ++ p :: l₂).map pageEntry)) :
    (q ++ [pageEntry p2]).Perm ((l₁ ++ p2 :: l₂).map pageEntry) := by
  simp only [List.map_append, List.map_cons] at hperm ⊢
  have h1 : (pageEntry p :: q).Perm
      (pageEntry p :: (l₁.map pageEntry ++ l₂.map pageEntry)) :=
    hperm.trans List.perm_middle
  have h2 : q.Perm (l₁.map pageEntry ++ l₂.map pageEntry) := h1.cons_inv
  have h3 : (q ++ [pageEntry p2]).Perm
      ((l₁.map pageEntry ++ l₂.map pageEntry) ++ [pageEntry p2]) :=
    h2.append_right [pageEntry p2]
  have h4 : ((l₁.map pageEntry ++ l₂.map pageEntry) ++ [pageEntry p2]).Perm
      (pageEntry p2 :: (l₁.map pageEntry ++ l₂.map pageEntry)) :=
    List.perm_append_singleton _ _
  exact h3.trans (h4.trans List.perm_middle.symm)

theorem insertRecordsLoop_spec {t : String} :
    ∀ (n : Nat) (recs : List Rec) (T : Table) (ctr : Nat),
      recs.length = n →
      TInv T ctr →
      ∃ T' ctr',
        insertRecordsLoop t T ctr recs = .ok (T', ctr') ∧
        TInv T' ctr' ∧ ctr ≤ ctr' ∧
        (recsOf T').length = (recsOf T).length + recs.length ∧
        T'.cols = T.cols ∧ T'.hashes = T.hashes := by
  intro n
  induction n using Nat.strong_induction_on with
  | _ n ih =>
    intro recs T ctr hlen hInv
    by_cases hre : recs.isEmpty
    · have hnil : recs = [] := List.isEmpty_iff.mp hre
      subst hnil
      refine ⟨T, ctr, ?_, hInv, le_refl ctr, by simp, rfl, rfl⟩
      rw [insertRecordsLoop]
      simp
    · have hne : recs ≠ [] := fun hc => hre (by simp [hc])
      obtain ⟨e, T1, c1, heq1, pok⟩ := getPageToInsert_spec hInv
      -- the polled entry names a real page with accurate free space
      have hemem : e ∈ T1.pages.map pageEntry :=
        pok.perm.mem_iff.mp (List.mem_cons_self e T1.queue)
      obtain ⟨p, hpmem, hpe⟩ := List.mem_map.mp hemem
      obtain ⟨l₁, l₂, hdecomp⟩ := List.append_of_mem hpmem
      have hppid : p.pid = e.pid := by rw [← hpe]; rfl
      have hpspace : p.spacesLeft = e.spacesLeft := by rw [← hpe]; rfl
      have hplen : p.recs.length ≤ pageCap := pok.lens p hpmem
      have hcap : p.recs.length + e.spacesLeft ≤ pageCap := by
        rw [← hpspace]
        unfold Page.spacesLeft
        omega
      obtain ⟨T2, c2, added, heq2, hpages2, haddlen, hc12, hq2, hcols2, hh2⟩ :=
        insertIntoPage_spec e.spacesLeft recs T1 c1 l₁ l₂ p hdecomp pok.nodup hcap
      have hj1 : 1 ≤ min e.spacesLeft recs.length := by
        have : 1 ≤ recs.length := by
          cases recs with
          | nil => exact absurd rfl hne
          | cons a as => simp
        exact le_min pok.spaces this
      set p2 : Page := { p with recs := p.recs ++ added } with hp2
      have hnd2 : (T2.pages.map Page.pid).Nodup := by
        have hmapeq : T2.pages.map Page.pid = T1.pages.map Page.pid := by
          simp [hpages2, hdecomp, hp2]
        rw [hmapeq]
        exact pok.nodup
      have hreq := requeueEntry_spec (p := p2) (by simpa using hpages2) hnd2
      have hp2pid : p2.pid = p.pid := rfl
      set T3 : Table := { T2 with queue := T2.queue ++ [pageEntry p2] } with hT3
      have hInv3 : TInv T3 c2 := by
        refine ⟨?_, ?_, ?_, ?_, ?_⟩
        · -- queue accounting
          show (T2.queue ++ [pageEntry p2]).Perm (T3.pages.map pageEntry)
          have hq : T2.queue = T1.queue := hq2
          have hpagesT3 : T3.pages = l₁ ++ p2 :: l₂ := by simpa using hpages2
          rw [hq, hpagesT3]
          apply queue_repair_perm
          rw [hpe, ← hdecomp]
          exact pok.perm
        · show (T2.pages.map Page.pid).Nodup
          exact hnd2
        · show ∀ q ∈ T2.pages, q.recs.length ≤ pageCap
          intro q hq
          rw [hpages2] at hq
          rcases List.mem_append.mp hq with hq | hq
          · exact pok.lens q (by rw [hdecomp]; exact List.mem_append_left _ hq)
          · rcases List.mem_cons.mp hq with hq | hq
            · subst hq
              simp only [List.length_append]
              have : added.length ≤ e.spacesLeft := by
                rw [haddlen]; exact min_le_left _ _
              omega
            · exact pok.lens q (by
                rw [hdecomp]
                exact List.mem_append_right _ (List.mem_cons_of_mem _ hq))
        · show ∀ q ∈ T2.pages, q.pid ∈ (List.range c2).map genId
          intro q hq
          have hsub : (List.range c1).map genId ⊆ (List.range c2).map genId :=
            List.map_subset genId (List.range_subset.mpr hc12)
          rw [hpages2] at hq
          rcases List.mem_append.mp hq with hq | hq
          · exact hsub (pok.pidsLt q (by rw [hdecomp]; exact List.mem_append_left _ hq))
          · rcases List.mem_cons.mp hq with hq | hq
            · subst hq
              exact hsub (pok.pidsLt p (by rw [hdecomp]; exact List.mem_append_right _ (List.mem_cons_self _ _)))
            · exact hsub (pok.pidsLt q (by
                rw [hdecomp]
                exact List.mem_append_right _ (List.mem_cons_of_mem _ hq)))
        · show T2.pages ≠ []
          rw [hpages2]
          simp
      have hlen3 : (recsOf T3).length = (recsOf T).length + added.length := by
        have h3 : (recsOf T3).length = (recsOf T2).length := by
          simp [recsOf, hT3]
        have h2 : (recsOf T2).length =
            ((l₁.map Page.recs).flatten).length + (p.recs.length + added.length) +
              ((l₂.map Page.recs).flatten).length := by
          have := recsOf_length_decomp (T := T2) (by simpa using hpages2)
          simpa [hp2] using this
        have h1 : (recsOf T1).length =
            ((l₁.map Page.recs).flatten).length + p.recs.length +
              ((l₂.map Page.recs).flatten).length := recsOf_length_decomp hdecomp
        have h0 : (recsOf T1).length = (recsOf T).length := by rw [pok.recsEq]
        omega
      -- the recursive call on the remaining records
      have hdroplen : (recs.drop (min e.spacesLeft recs.length)).length =
          recs.length - min e.spacesLeft recs.length := by simp
      have hlt : (recs.drop (min e.spacesLeft recs.length)).length < n := by
        rw [hdroplen]
        omega
      obtain ⟨T', c', heqF, hInvF, hcF, hlenF, hcolsF, hhF⟩ :=
        ih _ hlt (recs.drop (min e.spacesLeft recs.length)) T3 c2 rfl hInv3
      refine ⟨T', c', ?_, hInvF, le_trans pok.ctrLe (le_trans hc12 hcF), ?_, ?_, ?_⟩
      · -- the computation path
        rw [insertRecordsLoop]
        simp only [hre, Bool.false_eq_true, if_false, heq1]
        rw [← hppid, heq2]
        have hdite : (recs.drop (min e.spacesLeft recs.length)).length < recs.length := by
          rw [hdroplen]
          omega
        show (if h : (recs.drop (min e.spacesLeft recs.length)).length < recs.length
              then insertRecordsLoop t (requeueEntry T2 p.pid) c2
                (recs.drop (min e.spacesLeft recs.length))
              else .error .stuck) = .ok (T', c')
        rw [dif_pos hdite, ← hp2pid, hreq]
        exact heqF
      · rw [hlenF, hlen3, hdroplen, haddlen]
        omega
      · rw [hcolsF]
        show T2.cols = T.cols
        rw [hcols2, pok.colsEq]
      · rw [hhF]
        show T2.hashes = T.hashes
        rw [hh2, pok.hashesEq]

theorem TInv_mono_ctr {T : Table} {c c' : Nat} (h : TInv T c) (hle : c ≤ c') :
    TInv T c' := by
  obtain ⟨h1, h2, h3, h4, h5⟩ := h
  exact ⟨h1, h2, h3, fun p hp =>
    List.map_subset genId (List.range_subset.mpr hle) (h4 p hp), h5⟩

theorem getTable?_mem {s : DBState} {t : String} {T : Table}
    (h : getTable? s t = some T) : (t, T) ∈ s.tables := by
  unfold getTable? at h
  cases hf : s.tables.find? (fun p => p.1 == t) with
  | none => rw [hf] at h; exact Option.noConfusion h
  | some pT =>
    rw [hf] at h
    simp only [Option.map_some', Option.some.injEq] at h
    have hmem := List.mem_of_find?_eq_some hf
    have hp : pT.1 = t := by simpa using List.find?_some hf
    rw [← h, ← hp]
    exact hmem

theorem hasTableB_of_getTable? {s : DBState} {t : String} {T : Table}
    (h : getTable? s t = some T) : hasTableB s t = true := by
  unfold hasTableB
  rw [List.any_eq_true]
  exact ⟨(t, T), getTable?_mem h, by simp⟩

theorem getTable?_none {s : DBState} {t : String}
    (h : hasTableB s t = false) : getTable? s t = none := by
  unfold hasTableB at h
  unfold getTable?
  have hnone : s.tables.find? (fun p => p.1 == t) = none :=
    List.find?_eq_none.mpr (fun p hp hbeq => (List.any_eq_false.mp h p hp) hbeq)
  rw [hnone]
  rfl

theorem getTable?_isSome {s : DBState} {t : String}
    (h : hasTableB s t = true) : ∃ T, getTable? s t = some T := by
  unfold hasTableB at h
  rw [List.any_eq_true] at h
  obtain ⟨p, hp, hbeq⟩ := h
  cases hf : s.tables.find? (fun q => q.1 == t) with
  | none =>
    exact absurd hbeq (List.find?_eq_none.mp hf p hp)
  | some pT =>
    exact ⟨pT.2, by unfold getTable?; rw [hf]; rfl⟩

theorem setTable_freshCtr (s : DBState) (t : String) (T : Table) :
    (setTable s t T).freshCtr = s.freshCtr := by
  unfold setTable
  split <;> rfl

theorem setTable_names {s : DBState} {t : String} (T : Table)
    (h : hasTableB s t = true) :
    (setTable s t T).tables.map Prod.fst = s.tables.map Prod.fst := by
  unfold setTable
  rw [if_pos h]
  simp only [List.map_map]
  apply List.map_congr_left
  intro p _
  by_cases hbeq : (p.1 == t) = true
  · simp only [Function.comp_apply, if_pos hbeq]
    exact (eq_of_beq hbeq).symm
  · simp only [Function.comp_apply, if_neg hbeq]

theorem setTable_mem {s : DBState} {t : String} {T : Table} {pT : String × Table}
    (htrue : hasTableB s t = true)
    (hmem : pT ∈ (setTable s t T).tables) :
    pT = (t, T) ∨ pT ∈ s.tables := by
  unfold setTable at hmem
  rw [if_pos htrue] at hmem
  simp only [List.mem_map] at hmem
  obtain ⟨q, hq, hqe⟩ := hmem
  by_cases hbeq : (q.1 == t) = true
  · rw [if_pos hbeq] at hqe
    exact Or.inl hqe.symm
  · rw [if_neg hbeq] at hqe
    exact Or.inr (hqe ▸ hq)

theorem find?_update_self {α : Type} {l : List (String × α)} {t : String} {T : α}
    (h : ∃ p ∈ l, (p.1 == t) = true) :
    (l.map (fun p => if (p.1 == t) = true then (t, T) else p)).find?
      (fun p => p.1 == t) = some (t, T) := by
  induction l with
  | nil =>
    obtain ⟨p, hp, _⟩ := h
    exact absurd hp (List.not_mem_nil p)
  | cons q rest ih =>
    simp only [List.map_cons]
    by_cases hqb : (q.1 == t) = true
    · rw [if_pos hqb]
      simp [List.find?_cons]
    · rw [if_neg hqb]
      have hqb' : (q.1 == t) = false := by simpa using hqb
      simp only [List.find?_cons, hqb']
      apply ih
      obtain ⟨p, hp, hpb⟩ := h
      rcases List.mem_cons.mp hp with hq | hq
      · exact absurd (hq ▸ hpb) hqb
      · exact ⟨p, hq, hpb⟩

theorem find?_update_other {α : Type} {l : List (String × α)} {t u : String} {T : α}
    (hne : u ≠ t) :
    (l.map (fun p => if (p.1 == t) = true then (t, T) else p)).find?
      (fun p => p.1 == u) = l.find? (fun p => p.1 == u) := by
  induction l with
  | nil => rfl
  | cons q rest ih =>
    simp only [List.map_cons]
    by_cases hqb : (q.1 == t) = true
    · rw [if_pos hqb]
      have h1 : (((t, T) : String × α).1 == u) = false := by
        simp only [beq_eq_false_iff_ne, ne_eq]
        exact fun hc => hne hc.symm
      have h2 : (q.1 == u) = false := by
        simp only [beq_eq_false_iff_ne, ne_eq]
        rw [eq_of_beq hqb]
        exact fun hc => hne hc.symm
      simp only [List.find?_cons, h1, h2]
      exact ih
    · rw [if_neg hqb]
      by_cases hqu : (q.1 == u) = true
      · simp only [List.find?_cons, hqu]
      · have hqu' : (q.1 == u) = false := by simpa using hqu
        simp only [List.find?_cons, hqu']
        exact ih

theorem find?_append_new {α : Type} {l : List (String × α)} {t : String} {T : α}
    (h : ∀ p ∈ l, ¬((p.1 == t) = true)) :
    (l ++ [(t, T)]).find? (fun p => p.1 == t) = some (t, T) := by
  rw [List.find?_append, List.find?_eq_none.mpr h]
  simp [List.find?_cons]

theorem setTable_get_self {s : DBState} {t : String} (T : Table)
    (h : hasTableB s t = true) :
    getTable? (setTable s t T) t = some T := by
  unfold setTable
  rw [if_pos h]
  unfold hasTableB at h
  rw [List.any_eq_true] at h
  unfold getTable?
  simp only []
  rw [find?_update_self h]
  rfl

theorem setTable_get_other {s : DBState} {t u : String} (T : Table)
    (hne : u ≠ t) :
    getTable? (setTable s t T) u = getTable? s u := by
  unfold setTable getTable?
  split
  · simp only []
    rw [find?_update_other hne]
  · simp only []
    rw [List.find?_append]
    have hlast : ([(t, T)].find? (fun p => p.1 == u)) = none :=
      List.find?_eq_none.mpr (fun p hp hbeq => by
        simp only [List.mem_singleton] at hp
        subst hp
        exact hne (eq_of_beq hbeq).symm)
    rw [hlast]
    cases s.tables.find? (fun p => p.1 == u) <;> rfl

theorem getHashes_setHashIndex (T : Table) (c : String) (idx : Index) :
    getHashes (setHashIndex T c idx) c = some idx := by
  unfold setHashIndex getHashes
  by_cases hany : T.hashes.any (fun p => p.1 == c) = true
  · rw [if_pos hany]
    simp only []
    rw [List.any_eq_true] at hany
    rw [find?_update_self hany]
    rfl
  · rw [if_neg hany]
    simp only []
    rw [find?_append_new (fun p hp hbeq => hany (List.any_eq_true.mpr ⟨p, hp, hbeq⟩))]
    rfl

theorem setHashIndex_pages (T : Table) (c : String) (idx : Index) :
    (setHashIndex T c idx).pages = T.pages := by
  unfold setHashIndex
  rfl

theorem setHashIndex_queue (T : Table) (c : String) (idx : Index) :
    (setHashIndex T c idx).queue = T.queue := rfl

theorem TInv_setHashIndex {T : Table} {ctr : Nat} (c : String) (idx : Index)
    (h : TInv T ctr) : TInv (setHashIndex T c idx) ctr := by
  obtain ⟨h1, h2, h3, h4, h5⟩ := h
  exact ⟨h1, h2, h3, h4, h5⟩

theorem recsOf_setHashIndex (T : Table) (c : String) (idx : Index) :
    recsOf (setHashIndex T c idx) = recsOf T := rfl

theorem flatten_insert_perm {α : Type} (A B : List (List α)) (P : List α) (r : α) :
    ((A ++ (P ++ [r]) :: B).flatten).Perm ((A ++ P :: B).flatten ++ [r]) := by
  simp only [List.flatten_append, List.flatten_cons, List.append_assoc]
  apply List.Perm.append_left
  apply List.Perm.append_left
  exact List.perm_append_comm

/-- A single accepted record of `insertUniqueRecordsById`: poll a page,
write through the buffer, repair the queue.  The resulting table holds
exactly the old records plus the new one. -/
theorem insertOneRec_spec {T : Table} {ctr : Nat} (r : Rec) (hInv : TInv T ctr) :
    ∃ e T1 c1 T2 slot,
      getPageToInsert T ctr = .ok (e, T1, c1) ∧
      bufInsertRecord T1 e.pid r = .ok (T2, slot) ∧
      TInv (requeueEntry T2 e.pid) c1 ∧ ctr ≤ c1 ∧
      (recsOf (requeueEntry T2 e.pid)).Perm (recsOf T ++ [r]) ∧
      (requeueEntry T2 e.pid).cols = T.cols ∧
      (requeueEntry T2 e.pid).hashes = T.hashes := by
  obtain ⟨e, T1, c1, heq1, pok⟩ := getPageToInsert_spec hInv
  have hemem : e ∈ T1.pages.map pageEntry :=
    pok.perm.mem_iff.mp (List.mem_cons_self e T1.queue)
  obtain ⟨p, hpmem, hpe⟩ := List.mem_map.mp hemem
  obtain ⟨l₁, l₂, hdecomp⟩ := List.append_of_mem hpmem
  have hppid : p.pid = e.pid := by rw [← hpe]; rfl
  have hpspace : p.spacesLeft = e.spacesLeft := by rw [← hpe]; rfl
  have hplen : p.recs.length ≤ pageCap := pok.lens p hpmem
  have hlt : p.recs.length < pageCap := by
    have h1 : 1 ≤ p.spacesLeft := by rw [hpspace]; exact pok.spaces
    unfold Page.spacesLeft at h1
    omega
  have hbuf := bufInsertRecord_ok (r := r) hdecomp pok.nodup hlt
  set p2 : Page := { p with recs := p.recs ++ [r] } with hp2
  set T2 : Table := { T1 with pages := l₁ ++ p2 :: l₂ } with hT2
  have hpages2 : T2.pages = l₁ ++ p2 :: l₂ := rfl
  have hnd2 : (T2.pages.map Page.pid).Nodup := by
    have hmapeq : T2.pages.map Page.pid = T1.pages.map Page.pid := by
      simp [hpages2, hdecomp, hp2]
    rw [hmapeq]
    exact pok.nodup
  have hreq := requeueEntry_spec (p := p2) hpages2 hnd2
  have hp2pid : p2.pid = p.pid := rfl
  refine ⟨e, T1, c1, T2, p.recs.length, heq1, ?_, ?_, pok.ctrLe, ?_, ?_, ?_⟩
  · rw [← hppid]
    exact hbuf
  · -- TInv of the requeued table
    rw [← hppid, ← hp2pid, hreq]
    refine ⟨?_, ?_, ?_, ?_, ?_⟩
    · show (T2.queue ++ [pageEntry p2]).Perm (T2.pages.map pageEntry)
      have hq : T2.queue = T1.queue := rfl
      rw [hq, hpages2]
      apply queue_repair_perm
      rw [hpe, ← hdecomp]
      exact pok.perm
    · exact hnd2
    · intro q hq
      rw [hpages2] at hq
      rcases List.mem_append.mp hq with hq | hq
      · exact pok.lens q (by rw [hdecomp]; exact List.mem_append_left _ hq)
      · rcases List.mem_cons.mp hq with hq | hq
        · subst hq
          simp only [hp2, List.length_append, List.length_singleton]
          omega
        · exact pok.lens q (by
            rw [hdecomp]
            exact List.mem_append_right _ (List.mem_cons_of_mem _ hq))
    · intro q hq
      rw [hpages2] at hq
      rcases List.mem_append.mp hq with hq | hq
      · exact pok.pidsLt q (by rw [hdecomp]; exact List.mem_append_left _ hq)
      · rcases List.mem_cons.mp hq with hq | hq
        · subst hq
          exact pok.pidsLt p (by
            rw [hdecomp]
            exact List.mem_append_right _ (List.mem_cons_self _ _))
        · exact pok.pidsLt q (by
            rw [hdecomp]
            exact List.mem_append_right _ (List.mem_cons_of_mem _ hq))
    · rw [hpages2]
      simp
  · -- the records grew by exactly the accepted record
    rw [← hppid, ← hp2pid, hreq]
    show (recsOf T2).Perm (recsOf T ++ [r])
    have h2 : recsOf T2 = ((l₁.map Page.recs) ++ (p.recs ++ [r]) :: (l₂.map Page.recs)).flatten := by
      simp [recsOf, hpages2, hp2]
    have h1 : recsOf T1 = ((l₁.map Page.recs) ++ p.recs :: (l₂.map Page.recs)).flatten := by
      simp [recsOf, hdecomp]
    rw [h2, ← pok.recsEq, h1]
    exact flatten_insert_perm _ _ _ r
  · rw [← hppid, ← hp2pid, hreq]
    show T2.cols = T.cols
    rw [← pok.colsEq]
  · rw [← hppid, ← hp2pid, hreq]
    show T2.hashes = T.hashes
    rw [← pok.hashesEq]

theorem idxHasKey_iff_mem (idx : Index) (k : JsV) :
    idxHasKey idx k = true ↔ k ∈ idx.map Prod.fst := by
  unfold idxHasKey
  rw [List.any_eq_true]
  constructor
  · rintro ⟨p, hp, hbeq⟩
    exact (eq_of_beq hbeq) ▸ List.mem_map_of_mem Prod.fst hp
  · intro hmem
    rcases List.mem_map.mp hmem with ⟨p, hp, hpe⟩
    exact ⟨p, hp, by simp [hpe]⟩

theorem idxAddLoc_keys (idx : Index) (k : JsV) (l : Loc) :
    (idxAddLoc idx k l).map Prod.fst =
      if idxHasKey idx k then idx.map Prod.fst else idx.map Prod.fst ++ [k] := by
  unfold idxAddLoc
  split
  · simp only [List.map_map]
    apply List.map_congr_left
    intro p _
    by_cases h : p.1 = k <;> simp [h]
  · simp

theorem idxAddLoc_hasKey_iff (idx : Index) (kv : JsV) (l : Loc) (k : JsV) :
    idxHasKey (idxAddLoc idx kv l) k = true ↔
      (idxHasKey idx k = true ∨ k = kv) := by
  rw [idxHasKey_iff_mem, idxAddLoc_keys]
  by_cases h : idxHasKey idx k = true
  · have hmem := (idxHasKey_iff_mem idx k).mp h
    split <;> simp [hmem, h]
  · by_cases hkv : idxHasKey idx kv = true
    · rw [if_pos hkv]
      rw [← idxHasKey_iff_mem]
      constructor
      · intro hc
        exact Or.inl hc
      · intro hc
        rcases hc with hc | hc
        · exact hc
        · subst hc
          exact hkv
    · rw [if_neg hkv]
      rw [List.mem_append, List.mem_singleton, ← idxHasKey_iff_mem]

theorem hashPageInto_hasKey (c pid : String) :
    ∀ (recs : List Rec) (idx : Index) (i0 : Nat) (k : JsV),
      idxHasKey
        ((recs.foldl (fun acc r => (idxAddLoc acc.1 (getField r c) (pid, acc.2), acc.2 + 1))
          (idx, i0)).1) k = true ↔
        (idxHasKey idx k = true ∨ k ∈ recs.map (fun r => getField r c)) := by
  intro recs
  induction recs with
  | nil =>
    intro idx i0 k
    simp
  | cons r rs ih =>
    intro idx i0 k
    simp only [List.foldl_cons, List.map_cons, List.mem_cons]
    rw [ih]
    rw [idxAddLoc_hasKey_iff]
    tauto

theorem buildIndexOver_hasKey (c : String) :
    ∀ (pages : List Page) (idx : Index) (k : JsV),
      idxHasKey (buildIndexOver idx c pages) k = true ↔
        (idxHasKey idx k = true ∨
          k ∈ ((pages.map Page.recs).flatten).map (fun r => getField r c)) := by
  intro pages
  induction pages with
  | nil =>
    intro idx k
    simp [buildIndexOver]
  | cons p ps ih =>
    intro idx k
    unfold buildIndexOver
    simp only [List.foldl_cons, List.map_cons, List.flatten_cons, List.map_append,
      List.mem_append]
    rw [show (List.foldl (fun acc q => hashPageInto acc c q.pid q.recs)
        (hashPageInto idx c p.pid p.recs) ps) =
      buildIndexOver (hashPageInto idx c p.pid p.recs) c ps from rfl]
    rw [ih]
    unfold hashPageInto
    rw [hashPageInto_hasKey]
    tauto

theorem idxHasKey_append_single (idx : Index) (i : JsV) (L : List Loc) (k : JsV) :
    idxHasKey (idx ++ [(i, L)]) k = true ↔ (idxHasKey idx k = true ∨ k = i) := by
  unfold idxHasKey
  rw [List.any_append]
  simp only [List.any_cons, List.any_nil, Bool.or_false, Bool.or_eq_true, beq_iff_eq]
  exact or_congr Iff.rfl eq_comm

theorem insUniqueLoop_spec :
    ∀ (recs : List Rec) (T : Table) (ctr : Nat) (idx : Index), TInv T ctr →
      ∃ T' ctr' idx', insUniqueLoop T ctr idx recs = .ok (T', ctr', idx') ∧
        TInv T' ctr' ∧ ctr ≤ ctr' ∧
        (recsOf T).length ≤ (recsOf T').length ∧
        T'.cols = T.cols ∧ T'.hashes = T.hashes ∧
        (((∀ k, idxHasKey idx k = true ↔ k ∈ idsOf T) ∧ (idsOf T).Nodup) →
          ((∀ k, idxHasKey idx' k = true ↔ k ∈ idsOf T') ∧ (idsOf T').Nodup)) := by
  intro recs
  induction recs with
  | nil =>
    intro T ctr idx hInv
    exact ⟨T, ctr, idx, rfl, hInv, le_refl ctr, le_refl _, rfl, rfl, id⟩
  | cons r rs ih =>
    intro T ctr idx hInv
    by_cases hk : idxHasKey idx (getField r "_id") = true
    · obtain ⟨T', ctr', idx', heqF, hInvF, hctrF, hlenF, hcolsF, hhF, hsyncF⟩ :=
        ih T ctr idx hInv
      refine ⟨T', ctr', idx', ?_, hInvF, hctrF, hlenF, hcolsF, hhF, hsyncF⟩
      show (if idxHasKey idx (getField r "_id") then insUniqueLoop T ctr idx rs
            else
              match getPageToInsert T ctr with
              | .error e => .error e
              | .ok (e, T1, c1) =>
                match bufInsertRecord T1 e.pid r with
                | .error er => .error er
                | .ok (T2, slot) =>
                  insUniqueLoop (requeueEntry T2 e.pid) c1
                    (idx ++ [(getField r "_id", [(e.pid, slot)])]) rs)
        = .ok (T', ctr', idx')
      rw [if_pos hk]
      exact heqF
    · obtain ⟨e, T1, c1, T2, slot, heq1, hbuf, hInv3, hctr3, hperm3, hcols3, hh3⟩ :=
        insertOneRec_spec r hInv
      obtain ⟨T', ctr', idx', heqF, hInvF, hctrF, hlenF, hcolsF, hhF, hsyncF⟩ :=
        ih (requeueEntry T2 e.pid) c1 (idx ++ [(getField r "_id", [(e.pid, slot)])]) hInv3
      refine ⟨T', ctr', idx', ?_, hInvF, le_trans hctr3 hctrF, ?_, ?_, ?_, ?_⟩
      · show (if idxHasKey idx (getField r "_id") then insUniqueLoop T ctr idx rs
              else
                match getPageToInsert T ctr with
                | .error e => .error e
                | .ok (e, T1, c1) =>
                  match bufInsertRecord T1 e.pid r with
                  | .error er => .error er
                  | .ok (T2, slot) =>
                    insUniqueLoop (requeueEntry T2 e.pid) c1
                      (idx ++ [(getField r "_id", [(e.pid, slot)])]) rs)
          = .ok (T', ctr', idx')
        rw [if_neg hk, heq1]
        show (match bufInsertRecord T1 e.pid r with
              | Except.error er => Except.error er
              | Except.ok (T2, slot) =>
                insUniqueLoop (requeueEntry T2 e.pid) c1
                  (idx ++ [(getField r "_id", [(e.pid, slot)])]) rs)
          = Except.ok (T', ctr', idx')
        rw [hbuf]
        exact heqF
      · have h3 : (recsOf (requeueEntry T2 e.pid)).length = (recsOf T).length + 1 := by
          rw [hperm3.length_eq]
          simp
        omega
      · rw [hcolsF, hcols3]
      · rw [hhF, hh3]
      · intro hsync
        obtain ⟨hs, hnd⟩ := hsync
        have hnotin : getField r "_id" ∉ idsOf T := fun hc => hk ((hs _).mpr hc)
        have hids3 : (idsOf (requeueEntry T2 e.pid)).Perm
            (idsOf T ++ [getField r "_id"]) := by
          have := hperm3.map (fun rr => getField rr "_id")
          simpa [idsOf] using this
        apply hsyncF
        constructor
        · intro k
          rw [idxHasKey_append_single, hids3.mem_iff, List.mem_append,
            List.mem_singleton, hs k]
        · rw [hids3.nodup_iff]
          have hps : (idsOf T ++ [getField r "_id"]).Perm
              (getField r "_id" :: idsOf T) := List.perm_append_singleton _ _
          rw [hps.nodup_iff]
          exact List.nodup_cons.mpr ⟨hnotin, hnd⟩

theorem Inv_setTable {s : DBState} {t : String} {T' : Table} {c' : Nat}
    (hInv : Inv s) (ht : hasTableB s t = true) (hT : TInv T' c')
    (hc : s.freshCtr ≤ c') :
    Inv { setTable s t T' with freshCtr := c' } := by
  constructor
  · show ((setTable s t T').tables.map Prod.fst).Nodup
    rw [setTable_names T' ht]
    exact hInv.1
  · intro pT hmem
    rcases setTable_mem ht hmem with h | h
    · rw [h]
      exact hT
    · exact TInv_mono_ctr (hInv.2 pT h) hc

theorem insertRecords_spec {s : DBState} {t : String} {recs : List Rec}
    (hInv : Inv s) :
    insertRecords s t recs ≠ .error .pageFull ∧
    ∀ s', insertRecords s t recs = .ok s' →
      Inv s' ∧ s.freshCtr ≤ s'.freshCtr ∧
      (∀ u, u ≠ t → getTable? s' u = getTable? s u) ∧
      ∀ T T', getTable? s t = some T → getTable? s' t = some T' →
        (recsOf T').length = (recsOf T).length + recs.length ∧
        T'.cols = T.cols ∧ T'.hashes = T.hashes := by
  cases recs with
  | nil =>
    constructor
    · simp [insertRecords]
    · intro s' hok
      have hs : s' = s := by
        simp only [insertRecords] at hok
        exact (Except.ok.inj hok).symm
      subst hs
      refine ⟨hInv, le_refl _, fun u _ => rfl, ?_⟩
      intro T T' hT hT'
      rw [hT] at hT'
      have : T = T' := Option.some.inj hT'
      subst this
      simp
  | cons r rs =>
    cases hT : getTable? s t with
    | none =>
      constructor
      · simp [insertRecords, hT]
      · intro s' hok
        simp [insertRecords, hT] at hok
    | some T =>
      have hTInv : TInv T s.freshCtr := hInv.2 (t, T) (getTable?_mem hT)
      obtain ⟨T', c', heqL, hInvT', hctr, hlen, hcols, hh⟩ :=
        insertRecordsLoop_spec (t := t) (r :: rs).length (r :: rs) T s.freshCtr rfl hTInv
      constructor
      · simp [insertRecords, hT, heqL]
      · intro s' hok
        have hs' : s' = { setTable s t T' with freshCtr := c' } := by
          simp only [insertRecords, hT, heqL] at hok
          exact (Except.ok.inj hok).symm
        subst hs'
        have htB : hasTableB s t = true := hasTableB_of_getTable? hT
        refine ⟨Inv_setTable hInv htB hInvT' hctr, hctr, ?_, ?_⟩
        · intro u hu
          exact setTable_get_other T' hu
        · intro Ta Tb hTa hTb
          have hTaT : Ta = T := (Option.some.inj hTa).symm
          subst hTaT
          have hTb' : getTable? (setTable s t T') t = some Tb := hTb
          rw [setTable_get_self T' htB] at hTb'
          have hTbT : Tb = T' := (Option.some.inj hTb').symm
          subst hTbT
          exact ⟨hlen, hcols, hh⟩

theorem find?_isSome_of_any {α : Type} {l : List (String × α)} {t : String}
    (h : l.any (fun p => p.1 == t) = true) :
    ∃ x, (l.find? (fun p => p.1 == t)).map Prod.snd = some x := by
  rw [List.any_eq_true] at h
  obtain ⟨p, hp, hbeq⟩ := h
  cases hf : l.find? (fun q => q.1 == t) with
  | none => exact absurd hbeq (List.find?_eq_none.mp hf p hp)
  | some pT => exact ⟨pT.2, by rw [Option.map_some']⟩

theorem find?_filter_ne {α : Type} {l : List (String × α)} {t u : String} (hne : u ≠ t) :
    (l.filter (fun p => !(p.1 == t))).find? (fun p => p.1 == u) =
      l.find? (fun p => p.1 == u) := by
  induction l with
  | nil => rfl
  | cons q rest ih =>
    by_cases hqt : (q.1 == t) = true
    · have hqu : (q.1 == u) = false := by
        simp only [beq_eq_false_iff_ne, ne_eq]
        rw [eq_of_beq hqt]
        exact fun hc => hne hc.symm
      simp only [List.filter_cons, hqt, Bool.not_true, if_false, List.find?_cons, hqu]
      exact ih
    · have hqt' : (q.1 == t) = false := by simpa using hqt
      simp only [List.filter_cons, hqt', Bool.not_false, if_true, List.find?_cons]
      cases hqu : (q.1 == u) with
      | true => rfl
      | false => exact ih

/-- Soundness of a table's `_id` bookkeeping: stored `_id` values are
pairwise distinct, and an existing `_id` hash index has exactly the stored
`_id` values as keys. -/
def UniqSync (T : Table) : Prop :=
  (idsOf T).Nodup ∧
  ∀ idx, getHashes T "_id" = some idx →
    ∀ k, idxHasKey idx k = true ↔ k ∈ idsOf T

theorem insUniqueFinish_spec {s1 : DBState} {t : String} (recs : List Rec) {T1 : Table}
    (hInv1 : Inv s1) (hT1 : getTable? s1 t = some T1) :
    ∃ res, (match insUniqueLoop T1 s1.freshCtr ((getHashes T1 "_id").getD []) recs with
            | Except.error e => Except.error e
            | Except.ok (T', c', idx') =>
              Except.ok { setTable s1 t (setHashIndex T' "_id" idx') with freshCtr := c' })
        = Except.ok res ∧
      Inv res ∧ s1.freshCtr ≤ res.freshCtr ∧
      (∀ u, u ≠ t → getTable? res u = getTable? s1 u) ∧
      ∃ Tf, getTable? res t = some Tf ∧
        (recsOf T1).length ≤ (recsOf Tf).length ∧ Tf.cols = T1.cols ∧
        (((∀ k, idxHasKey ((getHashes T1 "_id").getD []) k = true ↔ k ∈ idsOf T1) ∧
            (idsOf T1).Nodup) →
          ((idsOf Tf).Nodup ∧
            ∀ idx, getHashes Tf "_id" = some idx →
              ∀ k, idxHasKey idx k = true ↔ k ∈ idsOf Tf)) := by
  have hTInv1 : TInv T1 s1.freshCtr := hInv1.2 (t, T1) (getTable?_mem hT1)
  obtain ⟨T2, c2, idx2, heqL, hInv2, hctr2, hlen2, hcols2, hh2, hsync2⟩ :=
    insUniqueLoop_spec recs T1 s1.freshCtr ((getHashes T1 "_id").getD []) hTInv1
  have htB : hasTableB s1 t = true := hasTableB_of_getTable? hT1
  set Tf : Table := setHashIndex T2 "_id" idx2 with hTf
  refine ⟨{ setTable s1 t Tf with freshCtr := c2 }, by rw [heqL], ?_, hctr2, ?_, Tf, ?_, ?_, ?_, ?_⟩
  · exact Inv_setTable hInv1 htB (TInv_setHashIndex _ _ hInv2) hctr2
  · intro u hu
    exact setTable_get_other Tf hu
  · exact setTable_get_self Tf htB
  · rw [show recsOf Tf = recsOf T2 from rfl]
    exact hlen2
  · show T2.cols = T1.cols
    exact hcols2
  · intro hsync
    obtain ⟨hsync2', hnd2'⟩ := hsync2 hsync
    constructor
    · exact hnd2'
    · intro idx hidx k
      have : idx = idx2 := by
        have := getHashes_setHashIndex T2 "_id" idx2
        rw [← hTf] at this
        rw [this] at hidx
        exact (Option.some.inj hidx).symm
      subst this
      exact hsync2' k

theorem insertUnique_spec {s : DBState} {t : String} {recs : List Rec}
    (hInv : Inv s) :
    insertUniqueRecordsById s t recs ≠ .error .pageFull ∧
    ∀ s', insertUniqueRecordsById s t recs = .ok s' →
      Inv s' ∧ s.freshCtr ≤ s'.freshCtr ∧
      (∀ u, u ≠ t → getTable? s' u = getTable? s u) ∧
      (∀ Ta, getTable? s t = some Ta → ∃ Tb, getTable? s' t = some Tb) ∧
      ∀ T T', getTable? s t = some T → getTable? s' t = some T' →
        (recsOf T).length ≤ (recsOf T').length ∧
        T'.cols = T.cols ∧ (UniqSync T → UniqSync T') := by
  cases hT : getTable? s t with
  | none =>
    have hiserr : isTableHashed s t "_id" = .error .typeError := by
      unfold isTableHashed
      rw [hT]
    constructor
    · intro hc
      unfold insertUniqueRecordsById at hc
      rw [hiserr] at hc
      exact DbErr.noConfusion (Except.error.inj hc)
    · intro s' hok
      unfold insertUniqueRecordsById at hok
      rw [hiserr] at hok
      exact Except.noConfusion hok
  | some T =>
    have hish : isTableHashed s t "_id" = .ok (T.hashes.any (fun p => p.1 == "_id")) := by
      unfold isTableHashed
      rw [hT]
    cases hhashed : T.hashes.any (fun p => p.1 == "_id") with
    | true =>
      -- an `_id` index already exists: the loop runs on the stored index
      obtain ⟨res, heqM, hInvR, hctrR, hotherR, Tf, hTfR, hlenR, hcolsR, hsyncR⟩ :=
        insUniqueFinish_spec recs hInv hT
      have hish2 : isTableHashed s t "_id" = .ok true := by rw [hish, hhashed]
      have hrun : insertUniqueRecordsById s t recs =
          (match insUniqueLoop T s.freshCtr ((getHashes T "_id").getD []) recs with
           | Except.error e => Except.error e
           | Except.ok (T', c', idx') =>
             Except.ok { setTable s t (setHashIndex T' "_id" idx') with freshCtr := c' }) := by
        unfold insertUniqueRecordsById
        rw [hish2]
        show (match getTable? s t with
              | none => Except.error DbErr.typeError
              | some T0 =>
                match insUniqueLoop T0 s.freshCtr ((getHashes T0 "_id").getD []) recs with
                | Except.error e => Except.error e
                | Except.ok (T', c', idx') =>
                  Except.ok { setTable s t (setHashIndex T' "_id" idx') with freshCtr := c' })
          = (match insUniqueLoop T s.freshCtr ((getHashes T "_id").getD []) recs with
             | Except.error e => Except.error e
             | Except.ok (T', c', idx') =>
               Except.ok { setTable s t (setHashIndex T' "_id" idx') with freshCtr := c' })
        rw [hT]
      rw [hrun, heqM]
      constructor
      · intro hc
        exact Except.noConfusion hc
      · intro s' hok
        have hs' : s' = res := (Except.ok.inj hok).symm
        subst hs'
        refine ⟨hInvR, hctrR, hotherR, fun Ta _ => ⟨Tf, hTfR⟩, ?_⟩
        intro Ta Tb hTa hTb
        have hTaT : Ta = T := (Option.some.inj hTa).symm
        have hTbT : Tb = Tf := by
          rw [hTfR] at hTb
          exact (Option.some.inj hTb).symm
        rw [hTaT, hTbT]
        refine ⟨hlenR, hcolsR, ?_⟩
        intro hU
        obtain ⟨hnd, hstored⟩ := hU
        obtain ⟨idx0, hidx0⟩ := find?_isSome_of_any hhashed
        have hidx0' : getHashes T "_id" = some idx0 := hidx0
        have hsync0 : ∀ k, idxHasKey ((getHashes T "_id").getD []) k = true ↔
            k ∈ idsOf T := by
          rw [hidx0']
          exact hstored idx0 hidx0'
        obtain ⟨hndF, hsyncF⟩ := hsyncR ⟨hsync0, hnd⟩
        exact ⟨hndF, hsyncF⟩
    | false =>
      -- no `_id` index yet: `hashTable` builds one fresh before the loop
      have hhash : hashTable s t "_id" true =
          .ok (setTable s t (setHashIndex T "_id" (buildIndexOver [] "_id" T.pages))) := by
        unfold hashTable
        rw [hT]
        rfl
      have htB : hasTableB s t = true := hasTableB_of_getTable? hT
      have hfr0 : (setTable s t
          (setHashIndex T "_id" (buildIndexOver [] "_id" T.pages))).freshCtr = s.freshCtr :=
        setTable_freshCtr s t _
      have heta : ({ setTable s t (setHashIndex T "_id" (buildIndexOver [] "_id" T.pages)) with
            freshCtr := s.freshCtr } : DBState) =
          setTable s t (setHashIndex T "_id" (buildIndexOver [] "_id" T.pages)) := by
        rw [← hfr0]
      have hInv1 : Inv (setTable s t (setHashIndex T "_id" (buildIndexOver [] "_id" T.pages))) := by
        have hbig := @Inv_setTable s t (setHashIndex T "_id" (buildIndexOver [] "_id" T.pages))
          s.freshCtr hInv htB
          (TInv_setHashIndex _ _ (hInv.2 (t, T) (getTable?_mem hT))) (le_refl _)
        rw [heta] at hbig
        exact hbig
      set T1 : Table := setHashIndex T "_id" (buildIndexOver [] "_id" T.pages) with hT1
      set s1 : DBState := setTable s t T1 with hs1
      have hfr1 : s1.freshCtr = s.freshCtr := setTable_freshCtr s t T1
      have hT1get : getTable? s1 t = some T1 := setTable_get_self T1 htB
      obtain ⟨res, heqM, hInvR, hctrR, hotherR, Tf, hTfR, hlenR, hcolsR, hsyncR⟩ :=
        insUniqueFinish_spec recs hInv1 hT1get
      have hrun : insertUniqueRecordsById s t recs =
          (match insUniqueLoop T1 s1.freshCtr ((getHashes T1 "_id").getD []) recs with
           | Except.error e => Except.error e
           | Except.ok (T', c', idx') =>
             Except.ok { setTable s1 t (setHashIndex T' "_id" idx') with freshCtr := c' }) := by
        have hish2 : isTableHashed s t "_id" = .ok false := by rw [hish, hhashed]
        unfold insertUniqueRecordsById
        rw [hish2]
        show (match hashTable s t "_id" true with
              | Except.error e => Except.error e
              | Except.ok s1x =>
                match getTable? s1x t with
                | none => Except.error DbErr.typeError
                | some T0 =>
                  match insUniqueLoop T0 s1x.freshCtr ((getHashes T0 "_id").getD []) recs with
                  | Except.error e => Except.error e
                  | Except.ok (T', c', idx') =>
                    Except.ok { setTable s1x t (setHashIndex T' "_id" idx') with freshCtr := c' })
          = (match insUniqueLoop T1 s1.freshCtr ((getHashes T1 "_id").getD []) recs with
             | Except.error e => Except.error e
             | Except.ok (T', c', idx') =>
               Except.ok { setTable s1 t (setHashIndex T' "_id" idx') with freshCtr := c' })
        rw [hhash]
        show (match getTable? s1 t with
              | none => Except.error DbErr.typeError
              | some T0 =>
                match insUniqueLoop T0 s1.freshCtr ((getHashes T0 "_id").getD []) recs with
                | Except.error e => Except.error e
                | Except.ok (T', c', idx') =>
                  Except.ok { setTable s1 t (setHashIndex T' "_id" idx') with freshCtr := c' })
          = (match insUniqueLoop T1 s1.freshCtr ((getHashes T1 "_id").getD []) recs with
             | Except.error e => Except.error e
             | Except.ok (T', c', idx') =>
               Except.ok { setTable s1 t (setHashIndex T' "_id" idx') with freshCtr := c' })
        rw [hT1get]
      rw [hrun, heqM]
      constructor
      · intro hc
        exact Except.noConfusion hc
      · intro s' hok
        have hs' : s' = res := (Except.ok.inj hok).symm
        subst hs'
        refine ⟨hInvR, by rw [← hfr1]; exact hctrR, ?_, fun Ta _ => ⟨Tf, hTfR⟩, ?_⟩
        · intro u hu
          rw [hotherR u hu]
          exact setTable_get_other T1 hu
        · intro Ta Tb hTa hTb
          have hTaT : Ta = T := (Option.some.inj hTa).symm
          have hTbT : Tb = Tf := by
            rw [hTfR] at hTb
            exact (Option.some.inj hTb).symm
          rw [hTaT, hTbT]
          have hrecs1 : recsOf T1 = recsOf T := rfl
          have hids1 : idsOf T1 = idsOf T := rfl
          refine ⟨by rw [← hrecs1]; exact hlenR, by rw [hcolsR]; rfl, ?_⟩
          intro hU
          obtain ⟨hnd, _⟩ := hU
          have hidxb : getHashes T1 "_id" = some (buildIndexOver [] "_id" T.pages) :=
            getHashes_setHashIndex T "_id" _
          have hsync0 : ∀ k, idxHasKey ((getHashes T1 "_id").getD []) k = true ↔
              k ∈ idsOf T1 := by
            rw [hidxb]
            intro k
            rw [Option.getD_some, buildIndexOver_hasKey]
            simp only [idxHasKey, List.any_nil, Bool.false_eq_true, false_or]
            rw [hids1]
            exact Iff.rfl
          obtain ⟨hndF, hsyncF⟩ := hsyncR ⟨hsync0, by rw [hids1]; exact hnd⟩
          exact ⟨hndF, hsyncF⟩

theorem hashTable_spec {s : DBState} {t c : String} {isNew : Bool} (hInv : Inv s) :
    hashTable s t c isNew ≠ .error .pageFull ∧
    ∀ s', hashTable s t c isNew = .ok s' →
      Inv s' ∧ s.freshCtr ≤ s'.freshCtr ∧
      ∀ u, u ≠ t → getTable? s' u = getTable? s u := by
  cases hT : getTable? s t with
  | none =>
    have herr : hashTable s t c isNew = .error .typeError := by
      unfold hashTable
      rw [hT]
    rw [herr]
    constructor
    · intro hc
      exact DbErr.noConfusion (Except.error.inj hc)
    · intro s' hok
      exact Except.noConfusion hok
  | some T =>
    cases hidx : (if isNew then some [] else getHashes T c : Option Index) with
    | none =>
      have herr : hashTable s t c isNew = .error .typeError := by
        unfold hashTable
        rw [hT]
        show (match (if isNew then some [] else getHashes T c : Option Index) with
              | none => Except.error DbErr.typeError
              | some idx0 =>
                Except.ok (setTable s t (setHashIndex T c (buildIndexOver idx0 c T.pages))))
          = Except.error DbErr.typeError
        rw [hidx]
      rw [herr]
      constructor
      · intro hc
        exact DbErr.noConfusion (Except.error.inj hc)
      · intro s' hok
        exact Except.noConfusion hok
    | some idx0 =>
      have heq : hashTable s t c isNew =
          .ok (setTable s t (setHashIndex T c (buildIndexOver idx0 c T.pages))) := by
        unfold hashTable
        rw [hT]
        show (match (if isNew then some [] else getHashes T c : Option Index) with
              | none => Except.error DbErr.typeError
              | some i0 =>
                Except.ok (setTable s t (setHashIndex T c (buildIndexOver i0 c T.pages))))
          = Except.ok (setTable s t (setHashIndex T c (buildIndexOver idx0 c T.pages)))
        rw [hidx]
      rw [heq]
      constructor
      · intro hc
        exact Except.noConfusion hc
      · intro s' hok
        have hs' : s' = setTable s t (setHashIndex T c (buildIndexOver idx0 c T.pages)) :=
          (Except.ok.inj hok).symm
        subst hs'
        have htB : hasTableB s t = true := hasTableB_of_getTable? hT
        have hfr : (setTable s t (setHashIndex T c (buildIndexOver idx0 c T.pages))).freshCtr
            = s.freshCtr := setTable_freshCtr s t _
        refine ⟨?_, by rw [hfr], fun u hu => setTable_get_other _ hu⟩
        have hbig := @Inv_setTable s t (setHashIndex T c (buildIndexOver idx0 c T.pages))
          s.freshCtr hInv htB
          (TInv_setHashIndex c (buildIndexOver idx0 c T.pages)
            (hInv.2 (t, T) (getTable?_mem hT))) (le_refl _)
        have heta : ({ setTable s t (setHashIndex T c (buildIndexOver idx0 c T.pages)) with
            freshCtr := s.freshCtr } : DBState) =
            setTable s t (setHashIndex T c (buildIndexOver idx0 c T.pages)) := by
          rw [← hfr]
        rw [heta] at hbig
        exact hbig

theorem clearTable_spec {s : DBState} {t : String} (hInv : Inv s) :
    clearTable s t ≠ .error .pageFull ∧
    ∀ s', clearTable s t = .ok s' →
      Inv s' ∧ s.freshCtr ≤ s'.freshCtr ∧
      ∀ u, u ≠ t → getTable? s' u = getTable? s u := by
  cases hT : getTable? s t with
  | none =>
    have herr : clearTable s t = .error .typeError := by
      unfold clearTable
      rw [hT]
    rw [herr]
    constructor
    · intro hc
      exact DbErr.noConfusion (Except.error.inj hc)
    · intro s' hok
      exact Except.noConfusion hok
  | some T =>
    have hTInv := hInv.2 (t, T) (getTable?_mem hT)
    set pages' : List Page := T.pages.map (fun p => { p with recs := ([] : List Rec) })
      with hpages'
    set Tc : Table :=
      { pages := pages',
        queue := pages'.map (fun p => { pid := p.pid, spacesLeft := p.spacesLeft }),
        cols := T.cols, hashes := [] } with hTc
    have heq : clearTable s t = .ok (setTable s t Tc) := by
      unfold clearTable
      rw [hT]
    rw [heq]
    constructor
    · intro hc
      exact Except.noConfusion hc
    · intro s' hok
      have hs' : s' = setTable s t Tc := (Except.ok.inj hok).symm
      subst hs'
      have htB : hasTableB s t = true := hasTableB_of_getTable? hT
      have hfr : (setTable s t Tc).freshCtr = s.freshCtr := setTable_freshCtr s t Tc
      have hTcInv : TInv Tc s.freshCtr := by
        obtain ⟨_, hnd, _, hpids, hne⟩ := hTInv
        refine ⟨?_, ?_, ?_, ?_, ?_⟩
        · exact List.Perm.refl _
        · show ((T.pages.map (fun p => { p with recs := ([] : List Rec) })).map Page.pid).Nodup
          have : (T.pages.map (fun p => ({ p with recs := ([] : List Rec) } : Page))).map Page.pid
              = T.pages.map Page.pid := by
            simp
          rw [this]
          exact hnd
        · intro q hq
          rcases List.mem_map.mp hq with ⟨p, _, hpe⟩
          rw [← hpe]
          simp [pageCap]
        · intro q hq
          rcases List.mem_map.mp hq with ⟨p, hp, hpe⟩
          rw [← hpe]
          exact hpids p hp
        · show T.pages.map (fun p => ({ p with recs := ([] : List Rec) } : Page)) ≠ []
          simp only [ne_eq, List.map_eq_nil_iff]
          exact hne
      have hbig := @Inv_setTable s t Tc s.freshCtr hInv htB hTcInv (le_refl _)
      have heta : ({ setTable s t Tc with freshCtr := s.freshCtr } : DBState)
          = setTable s t Tc := by
        rw [← hfr]
      rw [heta] at hbig
      exact ⟨hbig, by rw [hfr], fun u hu => setTable_get_other Tc hu⟩

theorem addTable_spec {s : DBState} {t : String} {cols : List String} (hInv : Inv s) :
    Inv (addTable s t cols) ∧ s.freshCtr ≤ (addTable s t cols).freshCtr ∧
    ∀ u, u ≠ t → getTable? (addTable s t cols) u = getTable? s u := by
  by_cases hhas : hasTableB s t = true
  · have heq : addTable s t cols = s := by
      unfold addTable
      rw [if_pos hhas]
    rw [heq]
    exact ⟨hInv, le_refl _, fun u _ => rfl⟩
  · set Tnew : Table :=
      { pages := [{ pid := genId s.freshCtr, recs := [] }],
        queue := [{ pid := genId s.freshCtr, spacesLeft := pageCap }],
        cols := cols, hashes := [] } with hTnew
    have heq : addTable s t cols =
        { tables := s.tables ++ [(t, Tnew)], freshCtr := s.freshCtr + 1 } := by
      unfold addTable
      rw [if_neg hhas]
    rw [heq]
    have hnotmem : t ∉ s.tables.map Prod.fst := by
      intro hmem
      rcases List.mem_map.mp hmem with ⟨p, hp, hpe⟩
      exact hhas (List.any_eq_true.mpr ⟨p, hp, by simp [hpe]⟩)
    refine ⟨⟨?_, ?_⟩, by simp, ?_⟩
    · show ((s.tables ++ [(t, Tnew)]).map Prod.fst).Nodup
      rw [List.map_append]
      have hps : (s.tables.map Prod.fst ++ ([(t, Tnew)].map Prod.fst)).Perm
          (t :: s.tables.map Prod.fst) := by
        rw [show ([(t, Tnew)].map Prod.fst) = [t] from rfl]
        exact List.perm_append_singleton _ _
      rw [hps.nodup_iff]
      exact List.nodup_cons.mpr ⟨hnotmem, hInv.1⟩
    · intro pT hmem
      show TInv pT.2 (s.freshCtr + 1)
      rcases List.mem_append.mp hmem with hmem | hmem
      · exact TInv_mono_ctr (hInv.2 pT hmem) (Nat.le_succ _)
      · simp only [List.mem_singleton] at hmem
        subst hmem
        show TInv Tnew (s.freshCtr + 1)
        refine ⟨?_, by simp [hTnew], ?_, ?_, by simp [hTnew]⟩
        · show Tnew.queue.Perm (Tnew.pages.map pageEntry)
          rw [hTnew]
          simp [pageEntry, Page.spacesLeft]
        · intro p hp
          rw [hTnew] at hp
          simp only [List.mem_singleton] at hp
          subst hp
          simp [pageCap]
        · intro p hp
          rw [hTnew] at hp
          simp only [List.mem_singleton] at hp
          subst hp
          exact List.mem_map_of_mem genId (List.mem_range.mpr (Nat.lt_succ_self _))
    · intro u hu
      show getTable? { tables := s.tables ++ [(t, Tnew)], freshCtr := s.freshCtr + 1 } u
          = getTable? s u
      unfold getTable?
      simp only []
      rw [List.find?_append]
      have hlast : (([(t, Tnew)] : List (String × Table)).find? (fun p => p.1 == u)) = none :=
        List.find?_eq_none.mpr (fun p hp hbeq => by
          simp only [List.mem_singleton] at hp
          subst hp
          exact hu (eq_of_beq hbeq).symm)
      rw [hlast]
      cases s.tables.find? (fun p => p.1 == u) <;> rfl

theorem dropTable_spec {s : DBState} {t : String} (hInv : Inv s) :
    Inv (dropTable s t) ∧ (dropTable s t).freshCtr = s.freshCtr ∧
    ∀ u, u ≠ t → getTable? (dropTable s t) u = getTable? s u := by
  unfold dropTable
  by_cases hhas : hasTableB s t = true
  · rw [if_pos hhas]
    refine ⟨⟨?_, ?_⟩, rfl, ?_⟩
    · show ((s.tables.filter (fun p => !(p.1 == t))).map Prod.fst).Nodup
      exact ((List.filter_sublist _).map Prod.fst).nodup hInv.1
    · intro pT hmem
      exact hInv.2 pT (List.mem_of_mem_filter hmem)
    · intro u hu
      unfold getTable?
      simp only []
      rw [find?_filter_ne hu]
  · rw [if_neg hhas]
    exact ⟨hInv, rfl, fun u _ => rfl⟩

theorem entries_eq_recsOf {T : Table} {ctr : Nat} (h : TInv T ctr) :
    (pageCap : Int) * T.pages.length -
      (T.queue.map (fun e => (e.spacesLeft : Int))).sum = ((recsOf T).length : Int) := by
  obtain ⟨hperm, _, hlens, _, _⟩ := h
  have hq : (T.queue.map (fun e => (e.spacesLeft : Int))).sum
      = ((T.pages.map pageEntry).map (fun e => (e.spacesLeft : Int))).sum :=
    (hperm.map _).sum_eq
  unfold recsOf
  rw [hq, List.map_map]
  rw [show ((fun (e : Entry) => (e.spacesLeft : Int)) ∘ pageEntry)
      = (fun (p : Page) => ((p.spacesLeft : Nat) : Int)) from rfl]
  have hgen : ∀ (ps : List Page), (∀ p ∈ ps, p.recs.length ≤ pageCap) →
      (pageCap : Int) * ps.length - (ps.map (fun p => ((p.spacesLeft : Nat) : Int))).sum
        = ((((ps.map Page.recs).flatten).length : Nat) : Int) := by
    intro ps
    induction ps with
    | nil => simp
    | cons p rest ih =>
      intro hl
      have hrest := ih (fun q hq2 => hl q (List.mem_cons_of_mem p hq2))
      have hple : p.recs.length ≤ pageCap := hl p (List.mem_cons_self p rest)
      have hcast : ((p.spacesLeft : Nat) : Int) = (pageCap : Int) - (p.recs.length : Int) := by
        unfold Page.spacesLeft
        exact Nat.cast_sub hple
      have hcap100 : (pageCap : Int) = 100 := by simp [pageCap]
      simp only [List.map_cons, List.sum_cons, List.flatten_cons, List.length_append,
        List.length_cons]
      push_cast at hrest ⊢
      rw [hcap100] at hrest hcast ⊢
      omega
  exact hgen T.pages hlens

theorem getNumberOfEntries_eq {s : DBState} {R : String} {T : Table}
    (hInv : Inv s) (hT : getTable? s R = some T) :
    getNumberOfEntries s R = .ok (((recsOf T).length : Nat) : Int) := by
  unfold getNumberOfEntries
  rw [hT]
  show Except.ok ((pageCap : Int) * T.pages.length -
      (T.queue.map (fun e => (e.spacesLeft : Int))).sum) = Except.ok (((recsOf T).length : Nat) : Int)
  rw [entries_eq_recsOf (hInv.2 (R, T) (getTable?_mem hT))]

theorem applyOp_spec {s : DBState} (op : DbOp) (hInv : Inv s) :
    applyOp s op ≠ .error .pageFull ∧
    ∀ s', applyOp s op = .ok s' →
      Inv s' ∧ s.freshCtr ≤ s'.freshCtr ∧
      ∀ u, u ≠ op.target → getTable? s' u = getTable? s u := by
  cases op with
  | addTable t cols =>
    obtain ⟨h1, h2, h3⟩ := @addTable_spec s t cols hInv
    refine ⟨fun hc => Except.noConfusion hc, fun s' hok => ?_⟩
    have hs : s' = addTable s t cols := (Except.ok.inj hok).symm
    subst hs
    exact ⟨h1, h2, h3⟩
  | insertRecords t recs =>
    obtain ⟨h1, h2⟩ := @insertRecords_spec s t recs hInv
    refine ⟨h1, fun s' hok => ?_⟩
    obtain ⟨ha, hb, hc, _⟩ := h2 s' hok
    exact ⟨ha, hb, hc⟩
  | insertUnique t recs =>
    obtain ⟨h1, h2⟩ := @insertUnique_spec s t recs hInv
    refine ⟨h1, fun s' hok => ?_⟩
    obtain ⟨ha, hb, hc, _⟩ := h2 s' hok
    exact ⟨ha, hb, hc⟩
  | clearTable t =>
    obtain ⟨h1, h2⟩ := @clearTable_spec s t hInv
    exact ⟨h1, h2⟩
  | dropT t =>
    obtain ⟨h1, h2, h3⟩ := @dropTable_spec s t hInv
    refine ⟨fun hc => Except.noConfusion hc, fun s' hok => ?_⟩
    have hs : s' = dropTable s t := (Except.ok.inj hok).symm
    subst hs
    exact ⟨h1, le_of_eq h2.symm, h3⟩
  | hashTableOp t c isNew =>
    obtain ⟨h1, h2⟩ := @hashTable_spec s t c isNew hInv
    exact ⟨h1, h2⟩

theorem applyOps_spec {ops : List DbOp} :
    ∀ {s : DBState}, Inv s →
      applyOps s ops ≠ .error .pageFull ∧
      ∀ s', applyOps s ops = .ok s' → Inv s' ∧ s.freshCtr ≤ s'.freshCtr := by
  induction ops with
  | nil =>
    intro s hInv
    refine ⟨fun hc => Except.noConfusion hc, fun s' hok => ?_⟩
    have hs : s' = s := (Except.ok.inj hok).symm
    subst hs
    exact ⟨hInv, le_refl _⟩
  | cons op ops ih =>
    intro s hInv
    obtain ⟨h1, h2⟩ := applyOp_spec op hInv
    cases hstep : applyOp s op with
    | error e =>
      have herr : applyOps s (op :: ops) = .error e := by
        show (match applyOp s op with
          | .error e => .error e
          | .ok s1 => applyOps s1 ops) = Except.error e
        rw [hstep]
      rw [herr]
      constructor
      · intro hc
        apply h1
        rw [hstep, Except.error.inj hc]
      · intro s' hok
        exact Except.noConfusion hok
    | ok s1 =>
      obtain ⟨hInv1, hctr1, _⟩ := h2 s1 hstep
      have heq : applyOps s (op :: ops) = applyOps s1 ops := by
        show (match applyOp s op with
          | .error e => .error e
          | .ok s2 => applyOps s2 ops) = applyOps s1 ops
        rw [hstep]
      rw [heq]
      obtain ⟨h1r, h2r⟩ := ih hInv1
      refine ⟨h1r, fun s' hok => ?_⟩
      obtain ⟨ha, hb⟩ := h2r s' hok
      exact ⟨ha, hctr1.trans hb⟩

theorem applyOp_R_mono {s s' : DBState} {R : String} {op : DbOp} (hInv : Inv s)
    (hR : op.target = R → ∃ recs, op = DbOp.insertUnique R recs)
    (hok : applyOp s op = .ok s') {T : Table} (hT : getTable? s R = some T) :
    ∃ T', getTable? s' R = some T' ∧ (recsOf T).length ≤ (recsOf T').length := by
  by_cases htgt : op.target = R
  · obtain ⟨recs, rfl⟩ := hR htgt
    have hspec := (@insertUnique_spec s R recs hInv).2 s'
      (by rw [← hok]; rfl)
    obtain ⟨T', hT'⟩ := hspec.2.2.2.1 T hT
    exact ⟨T', hT', (hspec.2.2.2.2 T T' hT hT').1⟩
  · have hsame := ((applyOp_spec op hInv).2 s' hok).2.2 R
      (fun hc => htgt hc.symm)
    exact ⟨T, hsame.trans hT, le_refl _⟩

theorem applyOps_R_mono {R : String} {ops : List DbOp} :
    ∀ {s : DBState}, Inv s → RInsertOnly R ops →
      ∀ {s'}, applyOps s ops = .ok s' →
        ∀ {T}, getTable? s R = some T →
          ∃ T', getTable? s' R = some T' ∧ (recsOf T).length ≤ (recsOf T').length := by
  induction ops with
  | nil =>
    intro s _ _ s' hok T hT
    have hs : s' = s := (Except.ok.inj hok).symm
    subst hs
    exact ⟨T, hT, le_refl _⟩
  | cons op ops ih =>
    intro s hInv hRIO s' hok T hT
    cases hstep : applyOp s op with
    | error e =>
      have : applyOps s (op :: ops) = .error e := by
        show (match applyOp s op with
          | .error e => .error e
          | .ok s1 => applyOps s1 ops) = Except.error e
        rw [hstep]
      rw [this] at hok
      exact Except.noConfusion hok
    | ok s1 =>
      have heq : applyOps s (op :: ops) = applyOps s1 ops := by
        show (match applyOp s op with
          | .error e => .error e
          | .ok s2 => applyOps s2 ops) = applyOps s1 ops
        rw [hstep]
      rw [heq] at hok
      have hInv1 : Inv s1 := (((applyOp_spec op hInv).2 s1 hstep).1)
      have hRop : op.target = R → ∃ recs, op = DbOp.insertUnique R recs :=
        hRIO op (List.mem_cons_self op ops)
      obtain ⟨T1, hT1, hle1⟩ := applyOp_R_mono hInv hRop hstep hT
      have hRIO1 : RInsertOnly R ops :=
        fun o ho => hRIO o (List.mem_cons_of_mem op ho)
      obtain ⟨T', hT', hle2⟩ := ih hInv1 hRIO1 hok hT1
      exact ⟨T', hT', hle1.trans hle2⟩

theorem passStep_spec {R : String} {trace : DBState → List DbOp} {s : DBState}
    (hInv : Inv s) (htr : RInsertOnly R (trace s)) :
    ∀ s' d, passStep R trace s = .ok (s', d) → Inv s' ∧ 0 ≤ d := by
  intro s' d hok
  unfold passStep at hok
  cases hT : getTable? s R with
  | none =>
    have : getNumberOfEntries s R = .error .typeError := by
      unfold getNumberOfEntries
      rw [hT]
    simp only [this] at hok
    exact Except.noConfusion hok
  | some T =>
    rw [getNumberOfEntries_eq hInv hT] at hok
    cases happ : applyOps s (trace s) with
    | error e =>
      simp only [happ] at hok
      exact Except.noConfusion hok
    | ok s1 =>
      simp only [happ] at hok
      have hInv1 : Inv s1 := ((applyOps_spec hInv).2 s1 happ).1
      obtain ⟨T1, hT1, hle⟩ := applyOps_R_mono hInv htr happ hT
      rw [getNumberOfEntries_eq hInv1 hT1] at hok
      have hpair : s1 = s' ∧ (((recsOf T1).length : Int) - ((recsOf T).length : Int)) = d := by
        have := Except.ok.inj hok
        exact ⟨congrArg Prod.fst this, congrArg Prod.snd this⟩
      refine ⟨hpair.1 ▸ hInv1, ?_⟩
      rw [← hpair.2]
      have : ((recsOf T).length : Int) ≤ ((recsOf T1).length : Int) := by
        exact_mod_cast hle
      omega

theorem driveLoop_spec {R : String} {trace : DBState → List DbOp} :
    ∀ (fuel : Nat) (s : DBState), Inv s → (∀ s₀, RInsertOnly R (trace s₀)) →
      ∀ ds os, driveLoop R trace fuel s = .ok (ds, os) →
        (∀ d ∈ ds, 0 ≤ d) ∧
        (∀ s₂, os = some s₂ → Inv s₂ ∧
          ∃ ds₀, ds = ds₀ ++ [0] ∧ ∀ d ∈ ds₀, 0 < d) ∧
        (os = none → ∀ d ∈ ds, 0 < d) := by
  intro fuel
  induction fuel with
  | zero =>
    intro s hInv htr ds os hok
    have hds : ds = [] ∧ os = none := by
      have := Except.ok.inj hok
      exact ⟨(congrArg Prod.fst this).symm, (congrArg Prod.snd this).symm⟩
    obtain ⟨rfl, rfl⟩ := hds
    exact ⟨fun d hd => absurd hd (List.not_mem_nil d),
      fun s₂ h => Option.noConfusion h,
      fun _ d hd => absurd hd (List.not_mem_nil d)⟩
  | succ fuel ih =>
    intro s hInv htr ds os hok
    unfold driveLoop at hok
    cases hps : passStep R trace s with
    | error e =>
      simp only [hps] at hok
      exact Except.noConfusion hok
    | ok p =>
      obtain ⟨s1, d⟩ := p
      obtain ⟨hInv1, hd0⟩ := passStep_spec hInv (htr s) s1 d hps
      simp only [hps] at hok
      by_cases hdpos : d > 0
      · rw [if_pos hdpos] at hok
        cases hrec : driveLoop R trace fuel s1 with
        | error e =>
          simp only [hrec] at hok
          exact Except.noConfusion hok
        | ok dsr =>
          simp only [hrec] at hok
          have hds : d :: dsr.1 = ds ∧ dsr.2 = os := by
            have := Except.ok.inj hok
            exact ⟨congrArg Prod.fst this, congrArg Prod.snd this⟩
          obtain ⟨hds1, hds2⟩ := hds
          obtain ⟨ha, hb, hc⟩ := ih s1 hInv1 htr dsr.1 dsr.2 (by rw [hrec])
          subst hds1
          subst hds2
          refine ⟨?_, ?_, ?_⟩
          · intro x hx
            rcases List.mem_cons.mp hx with h | h
            · rw [h]; exact hd0
            · exact ha x h
          · intro s₂ hs₂
            obtain ⟨hInv₂, ds₀, hds₀, hpos₀⟩ := hb s₂ hs₂
            refine ⟨hInv₂, d :: ds₀, by rw [hds₀]; rfl, ?_⟩
            intro x hx
            rcases List.mem_cons.mp hx with h | h
            · rw [h]; exact hdpos
            · exact hpos₀ x h
          · intro hn x hx
            rcases List.mem_cons.mp hx with h | h
            · rw [h]; exact hdpos
            · exact hc hn x h
      · rw [if_neg hdpos] at hok
        have hds : [d] = ds ∧ some s1 = os := by
          have := Except.ok.inj hok
          exact ⟨congrArg Prod.fst this, congrArg Prod.snd this⟩
        obtain ⟨hds1, hds2⟩ := hds
        subst hds1
        subst hds2
        have hdz : d = 0 := le_antisymm (not_lt.mp hdpos) hd0
        subst hdz
        refine ⟨?_, ?_, ?_⟩
        · intro x hx
          rw [List.mem_singleton.mp hx]
        · intro s₂ hs₂
          have : s₂ = s1 := (Option.some.inj hs₂).symm
          subst this
          exact ⟨hInv1, [], rfl, fun x hx => absurd hx (List.not_mem_nil x)⟩
        · intro hn
          exact Option.noConfusion hn

/-- C3: across fixpoint passes of `executeSingleQuery` (modelled by
`driveLoop` over `passStep`), every pass's delta `|R_after| - |R_before|`
(measured by `getNumberOfEntries` on `R`) is nonnegative, so `|R|` is
non-decreasing; the driver terminates exactly when a pass returns delta 0:
if the loop exited, the deltas are positives followed by a final 0, and if
the fuel ran out with the loop still running, every executed pass had a
strictly positive delta. Holds provided each pass writes `R` only through
`insertUniqueRecordsById` (as `executeTerm` does). -/
theorem c3_fixpoint_monotone_terminates (R : String) (trace : DBState → List DbOp)
    (fuel : Nat) (s : DBState) (ds : List Int) (os : Option DBState)
    (hInv : Inv s) (htr : ∀ s₀, RInsertOnly R (trace s₀))
    (hrun : driveLoop R trace fuel s = .ok (ds, os)) :
    (∀ d ∈ ds, 0 ≤ d) ∧
    (∀ s₂, os = some s₂ → Inv s₂ ∧ ∃ ds₀, ds = ds₀ ++ [0] ∧ ∀ d ∈ ds₀, 0 < d) ∧
    (os = none → ∀ d ∈ ds, 0 < d) :=
  driveLoop_spec fuel s hInv htr ds os hrun

/-- Concrete record for the fixpoint-driver witness run. -/
def c3rec : Rec := [("_id", some (JsVal.str "a")), ("c1", some (JsVal.num 1))]

/-- Witness trace: a pass inserts one record into `R` while `R` is empty
and does nothing afterwards. -/
def c3Trace (s : DBState) : List DbOp :=
  match getTable? s "R" with
  | some T => if (recsOf T).length = 0 then [DbOp.insertUnique "R" [c3rec]] else []
  | none => []

/-- Initial state of the fixpoint-driver witness run. -/
def c3s0 : DBState := addTable { tables := [], freshCtr := 0 } "R" ["c1"]

theorem c3Trace_RInsertOnly : ∀ s₀, RInsertOnly "R" (c3Trace s₀) := by
  intro s₀ op hop _
  unfold c3Trace at hop
  cases h : getTable? s₀ "R" with
  | none =>
    simp only [h] at hop
    exact absurd hop (List.not_mem_nil op)
  | some T =>
    simp only [h] at hop
    by_cases hlen : (recsOf T).length = 0
    · rw [if_pos hlen] at hop
      exact ⟨[c3rec], List.mem_singleton.mp hop⟩
    · rw [if_neg hlen] at hop
      exact absurd hop (List.not_mem_nil op)

/-- Outcome of the witness run of the driver loop. -/
def c3run : List Int × Option DBState :=
  match driveLoop "R" c3Trace 3 c3s0 with
  | .ok p => p
  | .error _ => ([], none)

theorem c3_fixpoint_monotone_terminates_witness :
    (∀ d ∈ c3run.1, 0 ≤ d) ∧
    (∀ s₂, c3run.2 = some s₂ → Inv s₂ ∧
      ∃ ds₀, c3run.1 = ds₀ ++ [0] ∧ ∀ d ∈ ds₀, 0 < d) ∧
    (c3run.2 = none → ∀ d ∈ c3run.1, 0 < d) :=
  c3_fixpoint_monotone_terminates "R" c3Trace 3 c3s0 c3run.1 c3run.2
    (by decide) c3Trace_RInsertOnly rfl

/-- The five public catalog write operations of claim C6. -/
def isCatalogWrite : DbOp → Bool
  | .addTable _ _ => true
  | .insertRecords _ _ => true
  | .insertUnique _ _ => true
  | .clearTable _ => true
  | .dropT _ => true
  | .hashTableOp _ _ _ => false

/-- C6: under every sequence of public catalog write operations from a
consistent state, the buffer's page-full insertion error is unreachable:
the page chosen via the free-space queue always has a free slot at the
moment of insertion. -/
theorem c6_page_full_unreachable (s : DBState) (ops : List DbOp)
    (hInv : Inv s) (hw : ∀ op ∈ ops, isCatalogWrite op = true) :
    applyOps s ops ≠ .error .pageFull :=
  (applyOps_spec hInv).1

/-- Empty catalog used by the page-full witness. -/
def c6s0 : DBState := { tables := [], freshCtr := 0 }

/-- Witness sequence exercising all five public catalog writes. -/
def c6ops : List DbOp :=
  [DbOp.addTable "a" ["c1"],
   DbOp.insertRecords "a" [[("c1", some (JsVal.num 1))]],
   DbOp.insertUnique "a" [[("_id", some (JsVal.str "u")), ("c1", some (JsVal.num 2))]],
   DbOp.clearTable "a",
   DbOp.dropT "a"]

theorem c6_page_full_unreachable_witness :
    applyOps c6s0 c6ops ≠ .error .pageFull :=
  c6_page_full_unreachable c6s0 c6ops (by decide) (by decide)

/-- C10: dropping a table name absent from the catalog is a silent no-op
returning the state unchanged, while the representative other operation
(`clearTable`) raises the missing-table error on the same name. -/
theorem c10_drop_missing_noop (s : DBState) (t : String)
    (h : hasTableB s t = false) :
    dropTable s t = s ∧ clearTable s t = .error .typeError := by
  constructor
  · unfold dropTable
    rw [if_neg (by rw [h]; exact Bool.false_ne_true)]
  · unfold clearTable
    rw [getTable?_none h]

/-- One-table catalog used by the drop-missing witness. -/
def c10s : DBState := addTable { tables := [], freshCtr := 0 } "a" ["c1"]

theorem c10_drop_missing_noop_witness :
    hasTableB c10s "b" = false ∧
    (dropTable c10s "b" = c10s ∧ clearTable c10s "b" = .error .typeError) :=
  ⟨by decide, c10_drop_missing_noop c10s "b" (by decide)⟩

theorem addTable_new {s : DBState} {t : String} {cols : List String}
    (hfree : hasTableB s t = false) :
    ∃ Tn, getTable? (addTable s t cols) t = some Tn ∧
      recsOf Tn = [] ∧ Tn.hashes = [] := by
  set Tnew : Table :=
    { pages := [{ pid := genId s.freshCtr, recs := [] }],
      queue := [{ pid := genId s.freshCtr, spacesLeft := pageCap }],
      cols := cols, hashes := [] } with hTnew
  have hif : addTable s t cols =
      { tables := s.tables ++ [(t, Tnew)], freshCtr := s.freshCtr + 1 } := by
    unfold addTable
    rw [if_neg (by rw [hfree]; exact Bool.false_ne_true)]
  have hnone : ∀ p ∈ s.tables, ¬((p.1 == t) = true) := by
    intro p hp hc
    have : hasTableB s t = true := List.any_eq_true.mpr ⟨p, hp, hc⟩
    rw [hfree] at this
    exact Bool.noConfusion this
  refine ⟨Tnew, ?_, rfl, rfl⟩
  rw [hif]
  show ((s.tables ++ [(t, Tnew)]).find? (fun p => p.1 == t)).map Prod.snd = some Tnew
  rw [find?_append_new hnone]
  rfl

theorem c5_aux {t : String} : ∀ (batches : List (List Rec)) (s : DBState), Inv s →
    (∃ T, getTable? s t = some T ∧ UniqSync T) →
    ∀ s', applyOps s (batches.map (DbOp.insertUnique t)) = .ok s' →
      Inv s' ∧ ∃ T', getTable? s' t = some T' ∧ UniqSync T' := by
  intro batches
  induction batches with
  | nil =>
    intro s hInv hex s' hok
    have hs : s' = s := (Except.ok.inj hok).symm
    subst hs
    exact ⟨hInv, hex⟩
  | cons b bs ih =>
    intro s hInv hex s' hok
    obtain ⟨T, hT, hUS⟩ := hex
    cases hstep : applyOp s (DbOp.insertUnique t b) with
    | error e =>
      have herr : applyOps s ((b :: bs).map (DbOp.insertUnique t)) = .error e := by
        show (match applyOp s (DbOp.insertUnique t b) with
          | .error e => .error e
          | .ok s1 => applyOps s1 (bs.map (DbOp.insertUnique t))) = Except.error e
        rw [hstep]
      rw [herr] at hok
      exact Except.noConfusion hok
    | ok s1 =>
      have heq : applyOps s ((b :: bs).map (DbOp.insertUnique t)) =
          applyOps s1 (bs.map (DbOp.insertUnique t)) := by
        show (match applyOp s (DbOp.insertUnique t b) with
          | .error e => .error e
          | .ok s2 => applyOps s2 (bs.map (DbOp.insertUnique t))) =
          applyOps s1 (bs.map (DbOp.insertUnique t))
        rw [hstep]
      rw [heq] at hok
      have hstepU : insertUniqueRecordsById s t b = .ok s1 := hstep
      obtain ⟨hInv1, _, _, hexist, hTT⟩ := (insertUnique_spec hInv).2 s1 hstepU
      obtain ⟨T1, hT1⟩ := hexist T hT
      have hUS1 : UniqSync T1 := (hTT T T1 hT hT1).2.2 hUS
      exact ih s1 hInv1 ⟨T1, hT1, hUS1⟩ s' hok

/-- C5: a table created fresh by `addTable` and populated only through
`insertUniqueRecordsById` batches has pairwise-distinct stored `_id`
values at every point: the operation ensures an `_id` hash index exists,
skips input records whose `_id` is already indexed (including duplicates
inside one batch), and indexes the locator of each accepted record. -/
theorem c5_insert_unique_ids_nodup (s s' : DBState) (t : String)
    (cols : List String) (batches : List (List Rec)) (T' : Table)
    (hInv : Inv s) (hfree : hasTableB s t = false)
    (happ : applyOps (addTable s t cols) (batches.map (DbOp.insertUnique t)) = .ok s')
    (hT' : getTable? s' t = some T') :
    (idsOf T').Nodup := by
  obtain ⟨Tn, hTn, hrecs, hhashes⟩ := @addTable_new s t cols hfree
  have hInv0 : Inv (addTable s t cols) := (addTable_spec hInv).1
  have hUSn : UniqSync Tn := by
    constructor
    · unfold idsOf
      rw [hrecs]
      exact List.nodup_nil
    · intro idx hidx
      unfold getHashes at hidx
      rw [hhashes] at hidx
      simp at hidx
  obtain ⟨_, T2, hT2, hUS2⟩ := c5_aux batches _ hInv0 ⟨Tn, hTn, hUSn⟩ s' happ
  have hTeq : T2 = T' := by
    rw [hT2] at hT'
    exact Option.some.inj hT'
  rw [← hTeq]
  exact hUS2.1

/-- Empty catalog for the unique-insert witness. -/
def c5s0 : DBState := { tables := [], freshCtr := 0 }

/-- Witness batches with a duplicate `_id` inside the first batch and
another duplicate across the two batches. -/
def c5batches : List (List Rec) :=
  [[[("_id", some (JsVal.str "u")), ("c1", some (JsVal.num 1))],
    [("_id", some (JsVal.str "u")), ("c1", some (JsVal.num 2))],
    [("_id", some (JsVal.str "w")), ("c1", some (JsVal.num 3))]],
   [[("_id", some (JsVal.str "w")), ("c1", some (JsVal.num 4))],
    [("_id", some (JsVal.str "x")), ("c1", some (JsVal.num 5))]]]

/-- Final state of the unique-insert witness run. -/
def c5send : DBState :=
  match applyOps (addTable c5s0 "t" ["c1"]) (c5batches.map (DbOp.insertUnique "t")) with
  | .ok s => s
  | .error _ => c5s0

/-- The witness table as stored at the end of the run. -/
def c5T : Table :=
  (getTable? c5send "t").getD { pages := [], queue := [], cols := [], hashes := [] }

theorem c5_insert_unique_ids_nodup_witness :
    hasTableB c5s0 "t" = false ∧ (idsOf c5T).Nodup :=
  ⟨by decide, c5_insert_unique_ids_nodup c5s0 c5send "t" ["c1"] c5batches c5T
    (by decide) (by decide) rfl rfl⟩

/-- Parent row of the Phase E bug demonstration. -/
def c1pr : Rec := [("_id", some (.str "p1")), ("_idA", some (.str "u"))]

/-- Child row matching the parent on the shared `_idA` column. -/
def c1cr : Rec := [("_id", some (.str "c1")), ("_idA", some (.str "u"))]

/-- State with parent table `P` (one row), child table `C` holding the
matching row, and `C` hashed on the shared column. -/
def c1s : DBState :=
  match applyOps { tables := [], freshCtr := 0 }
      [DbOp.addTable "P" ["c"], DbOp.insertUnique "P" [c1pr],
       DbOp.addTable "C" ["c"], DbOp.insertUnique "C" [c1cr],
       DbOp.hashTableOp "C" "_idA" true] with
  | .ok s => s
  | .error _ => { tables := [], freshCtr := 0 }

/-- The state after the Phase E step on the node `P` with one child. -/
def c1s2 : DBState :=
  match getCommonTreeValsStep c1s "P" ["A"] [("C", ["A", "B"])] [] with
  | .ok s => s
  | .error _ => c1s

/-- C1: refuted — the `childrenTables.every` callback of
`getCommonTreeVals` evaluates `DB.hasValue(...)` but has no `return`, so
the callback yields `undefined` and `every` sees it as falsy: even though
the child's index contains the parent row's key (`hasValue` answers
`true`), the keep test fails for every parent row and the parent table is
overwritten with nothing. -/
theorem c1_common_tree_vals_drops_all_rows :
    hasValue c1s "C" "_idA" (getField c1pr "_idA") = .ok true ∧
    getAllRecords c1s "P" = .ok [c1pr] ∧
    getCommonTreeValsStep c1s "P" ["A"] [("C", ["A", "B"])] [] = .ok c1s2 ∧
    getAllRecords c1s2 "P" = .ok [] :=
  ⟨rfl, rfl, rfl, rfl⟩

/-- A pair-table row as `hashJoin` generates it for a self join: the
provenance columns `_id<t_a>` and `_id<t_b>` are the same field. -/
def c2row : Rec := [("c", some (.num 1)), ("_id", some (.str "u|w")), ("_idA", some (.str "w"))]

/-- C2 counterexample: a composite row of a self-join pair table whose
`_id<t_a>` equals `_id<t_b>` (they are the same field) survives the Phase
D insertion filter instead of being dropped. -/
theorem c2_self_join_filter_counterexample :
    jsLooseEq (getField c2row ("_id" ++ "A")) (getField c2row ("_id" ++ "A")) = true ∧
    selfJoinFilterInsert "A" "A" [c2row] = [c2row] :=
  ⟨rfl, rfl⟩

/-- C2: [amended] when both sides of the composite predicate resolve to
the same source table, the guard compares the row's `_id<src>` field with
itself, so its strict-inequality test never fires: no row is dropped, and
composite rows with `_id<t_a> == _id<t_b>` do reach the pair table. -/
theorem c2_self_join_filter_amended (src : String) (joined : List Rec) :
    selfJoinFilterInsert src src joined = joined := by
  unfold selfJoinFilterInsert
  apply List.filter_eq_self.mpr
  intro jr _
  simp [jsStrictNeq]

/-- First outer-table record of the block-join bug demonstration. -/
def c4r1 : Rec := [("_id", some (.str "a")), ("x", some (.num 1))]

/-- Second outer-table record of the block-join bug demonstration. -/
def c4r1b : Rec := [("_id", some (.str "b")), ("x", some (.num 2))]

/-- Inner-table record of the block-join bug demonstration. -/
def c4r2 : Rec := [("_id", some (.str "c")), ("y", some (.num 3))]

/-- Projection drawing only from the inner table. -/
def c4projB : List Proj := [{ colNameDst := "c", colSrc := ("B", "y") }]

/-- Projection drawing from the outer table. -/
def c4projA : List Proj := [{ colNameDst := "c", colSrc := ("A", "x") }]

/-- C4: refuted — `blockJoin` creates one inner generator per flushed
block, which the block's first outer slot exhausts, so later outer
records pair with nothing: on a 2×1 input the stream holds 1 output, not
`|t1| * |t2| = 2`.  The driver also pushes the outer generator's `value`
into the block before testing `done`, so the terminal `undefined`
occupies a slot: on a 0×1 input that slot heads its own block and meets
a fresh inner scan, yielding 1 spurious output under an inner-table
projection (instead of 0) and a thrown `TypeError` dereferencing
`undefined` under an outer-table projection. -/
theorem c4_block_join_pair_count :
    (blockJoin "A" "B" [c4r1, c4r1b] [c4r2] c4projB).1.length = 1 ∧
    (blockJoin "A" "B" [c4r1, c4r1b] [c4r2] c4projB).2 = none ∧
    [c4r1, c4r1b].length * [c4r2].length = 2 ∧
    (blockJoin "A" "B" [] [c4r2] c4projB).1.length = 1 ∧
    (blockJoin "A" "B" [] [c4r2] c4projB).2 = none ∧
    (blockJoin "A" "B" [] [c4r2] c4projA).2 = some .typeError ∧
    ([] : List Rec).length * [c4r2].length = 0 :=
  ⟨rfl, rfl, rfl, rfl, rfl, rfl, rfl⟩

/-- Two-object heap for the reference-semantics claims. -/
def c8h0 : Heap := [[("x", some (JsVal.num 1))], [("y", some (JsVal.num 2))]]

/-- Page slots of the reference-semantics claims: the first object is
stored in the page. -/
def c8files : List Addr := [0]

/-- C8 counterexample: the page iterator (`getAllRecords` and
`filterRecords` read through it) yields the stored objects themselves —
mutating a yielded record changes what a subsequent read returns — and
`insertUniqueRecordsById` stores the caller's object, so mutating it
afterwards alters the table as well. -/
theorem c8_copy_semantics_counterexample :
    tableContents c8h0 c8files = [[("x", some (JsVal.num 1))]] ∧
    tableContents (setFieldAt c8h0 ((pageIterRefs c8files).getD 0 0) "x"
        (some (JsVal.num 9))) c8files = [[("x", some (JsVal.num 9))]] ∧
    (insertSharedRef c8h0 [] 1).1 = c8h0 ∧
    tableContents (setFieldAt c8h0 1 "y" (some (JsVal.num 9)))
        (insertSharedRef c8h0 [] 1).2 = [[("y", some (JsVal.num 9))]] :=
  ⟨rfl, rfl, rfl, rfl⟩

theorem getD_set_ne (h : Heap) (n b : Addr) (r : Rec) (hne : b ≠ n) :
    (h.set n r).getD b [] = h.getD b [] := by
  rw [List.getD_eq_getElem?_getD, List.getD_eq_getElem?_getD,
    List.getElem?_set_ne (Ne.symm hne)]

theorem getD_append_lt (h t : Heap) (b : Addr) (hb : b < h.length) :
    (h ++ t).getD b [] = h.getD b [] := by
  rw [List.getD_eq_getElem?_getD, List.getD_eq_getElem?_getD,
    List.getElem?_append_left hb]

/-- C8: [amended] `Page.directAccess` (the read path of
`getRecsFromHash`) hands out a fresh shallow copy — mutating it leaves
the table contents unchanged — and `insertRecords` copies each record
before storage, so mutating the caller's object afterwards does not
alter the table.  The page-iterator reads and `insertUniqueRecordsById`
share references instead (see the counterexample). -/
theorem c8_copy_semantics_amended (h : Heap) (files : List Addr) (i : Nat)
    (a : Addr) (k : String) (v : JsV)
    (hfl : ∀ b ∈ files, b < h.length) :
    (∀ h2 a2, directAccessRef h files i = .ok (h2, a2) →
      tableContents (setFieldAt h2 a2 k v) files = tableContents h files) ∧
    (a < h.length → a ∉ files →
      tableContents (setFieldAt (insertCopyRef h files a).1 a k v)
          (insertCopyRef h files a).2
        = tableContents (insertCopyRef h files a).1 (insertCopyRef h files a).2) := by
  constructor
  · intro h2 a2 hok
    unfold directAccessRef at hok
    by_cases hi : i ≥ files.length
    · rw [if_pos hi] at hok
      exact Except.noConfusion hok
    · rw [if_neg hi] at hok
      have hpair : h2 = h ++ [hGet h (files.getD i 0)] ∧ a2 = h.length := by
        have hp := Except.ok.inj hok
        exact ⟨(congrArg Prod.fst hp).symm, (congrArg Prod.snd hp).symm⟩
      obtain ⟨rfl, rfl⟩ := hpair
      unfold tableContents
      apply List.map_congr_left
      intro b hb
      have hblt : b < h.length := hfl b hb
      show hGet (setFieldAt (h ++ [hGet h (files.getD i 0)]) h.length k v) b = hGet h b
      unfold setFieldAt hSet hGet
      rw [getD_set_ne _ _ _ _ (Nat.ne_of_lt hblt), getD_append_lt _ _ _ hblt]
  · intro ha hnf
    unfold insertCopyRef allocObj tableContents
    apply List.map_congr_left
    intro b hb
    show hGet (setFieldAt (h ++ [hGet h a]) a k v) b = hGet (h ++ [hGet h a]) b
    unfold setFieldAt hSet hGet
    have hbne : b ≠ a := by
      rcases List.mem_append.mp hb with hmem | hmem
      · exact fun hc => hnf (hc ▸ hmem)
      · have hbl : b = h.length := List.mem_singleton.mp hmem
        exact fun hc => absurd ha (by rw [← hc, hbl]; exact lt_irrefl _)
    rw [getD_set_ne _ _ _ _ hbne]

theorem c8_copy_semantics_amended_witness :
    (∀ h2 a2, directAccessRef c8h0 c8files 0 = .ok (h2, a2) →
      tableContents (setFieldAt h2 a2 "y" (some (JsVal.num 9))) c8files
        = tableContents c8h0 c8files) ∧
    (1 < c8h0.length → 1 ∉ c8files →
      tableContents (setFieldAt (insertCopyRef c8h0 c8files 1).1 1 "y" (some (JsVal.num 9)))
          (insertCopyRef c8h0 c8files 1).2
        = tableContents (insertCopyRef c8h0 c8files 1).1 (insertCopyRef c8h0 c8files 1).2) :=
  c8_copy_semantics_amended c8h0 c8files 0 1 "y" (some (JsVal.num 9)) (by decide)

/-- The record a locator denotes (total version of the buffer read). -/
def recAt (T : Table) (l : Loc) : Rec :=
  match findPage T l.1 with
  | none => []
  | some p => p.recs.getD l.2 []

/-- A locator that the buffer can dereference: its page exists and its
slot is within the page. -/
def locValid (T : Table) (l : Loc) : Bool :=
  match findPage T l.1 with
  | none => false
  | some p => decide (l.2 < p.recs.length)

/-- Validity of every locator stored in an index. -/
def idxLocsValid (T : Table) (idx : Index) : Bool :=
  idx.all (fun kv => kv.2.all (locValid T))

theorem matLocs_ok {T : Table} : ∀ {ls : List Loc}, ls.all (locValid T) = true →
    matLocs T ls = .ok (ls.map (recAt T)) := by
  intro ls
  induction ls with
  | nil => intro _; rfl
  | cons l ls ih =>
    intro hall
    obtain ⟨hl, hls⟩ : locValid T l = true ∧ ls.all (locValid T) = true := by
      simpa using hall
    have hbuf : bufGetPageRecord T l = .ok (recAt T l) := by
      unfold bufGetPageRecord recAt directAccess
      unfold locValid at hl
      cases hfp : findPage T l.1 with
      | none =>
        rw [hfp] at hl
        exact Bool.noConfusion hl
      | some p =>
        rw [hfp] at hl
        have hlt : l.2 < p.recs.length := of_decide_eq_true hl
        simp only [hfp]
        rw [if_neg (by omega)]
    show (match bufGetPageRecord T l with
      | Except.error e => Except.error e
      | Except.ok r => match matLocs T ls with
        | Except.error e => Except.error e
        | Except.ok rs => Except.ok (r :: rs))
      = (Except.ok ((l :: ls).map (recAt T)) : Except DbErr (List Rec))
    rw [hbuf, ih hls]
    rfl

theorem idxGet_all_valid {T : Table} {idx : Index} (hval : idxLocsValid T idx = true)
    (k : JsV) : ((idxGet idx k).all (locValid T)) = true := by
  unfold idxGet
  cases hf : idx.find? (fun p => p.1 == k) with
  | none => rfl
  | some kv =>
    have hmem : kv ∈ idx := List.mem_of_find?_eq_some hf
    unfold idxLocsValid at hval
    rw [List.all_eq_true] at hval
    exact hval kv hmem

theorem flatMap_locs_valid {T : Table} {idx : Index} (hval : idxLocsValid T idx = true)
    (ks : List JsV) : ((ks.flatMap (idxGet idx)).all (locValid T)) = true := by
  rw [List.all_eq_true]
  intro l hl
  rw [List.mem_flatMap] at hl
  obtain ⟨k, _, hlk⟩ := hl
  have h := idxGet_all_valid hval k
  rw [List.all_eq_true] at h
  exact h l hlk

theorem getHashes_none_iff_any (T : Table) (c : String) :
    getHashes T c = none ↔ T.hashes.any (fun p => p.1 == c) = false := by
  unfold getHashes
  rw [Option.map_eq_none', List.find?_eq_none, ← Bool.not_eq_true, List.any_eq_true]
  constructor
  · intro h hc
    obtain ⟨x, hx, hpx⟩ := hc
    exact h x hx hpx
  · intro h x hx hpx
    exact h ⟨x, hx, hpx⟩

/-- C7: with the table present and its index locators dereferenceable,
`getRecsFromHash(t, c, op, rhs)` raises an error iff the table has no
index on `c` or `op` is neither `=` nor `>`; `hasValue(t, c, v)` raises
an error iff there is no index on `c`; and with an index present, a
missing `=` key or an empty `>` key range yields the empty stream and an
absent key yields `false`, never an error. -/
theorem c7_hash_lookup_error_iff (s : DBState) (t c op : String) (rhs v : JsV)
    (T : Table) (hT : getTable? s t = some T)
    (hval : idxLocsValid T ((getHashes T c).getD []) = true) :
    ((∃ e, getRecsFromHash s t c op rhs = .error e) ↔
      (getHashes T c = none ∨ (op ≠ "=" ∧ op ≠ ">"))) ∧
    ((∃ e, hasValue s t c v = .error e) ↔ getHashes T c = none) ∧
    (∀ idx, getHashes T c = some idx → op = "=" → idxHasKey idx rhs = false →
      getRecsFromHash s t c op rhs = .ok []) ∧
    (∀ idx, getHashes T c = some idx → op = ">" →
      (idx.map Prod.fst).filter (fun k => jsGt k rhs) = [] →
      getRecsFromHash s t c op rhs = .ok []) ∧
    (∀ idx, getHashes T c = some idx → idxHasKey idx v = false →
      hasValue s t c v = .ok false) := by
  have hith : isTableHashed s t c = .ok (T.hashes.any (fun p => p.1 == c)) := by
    unfold isTableHashed
    rw [hT]
  cases hany : T.hashes.any (fun p => p.1 == c) with
  | false =>
    have hnone : getHashes T c = none := (getHashes_none_iff_any T c).mpr hany
    have hg : getRecsFromHash s t c op rhs = .error .needsHash := by
      unfold getRecsFromHash
      rw [hith, hany]
    have hh : hasValue s t c v = .error .mustBeHashed := by
      unfold hasValue
      rw [hith, hany]
    refine ⟨?_, ?_, ?_, ?_, ?_⟩
    · exact ⟨fun _ => Or.inl hnone, fun _ => ⟨DbErr.needsHash, hg⟩⟩
    · exact ⟨fun _ => hnone, fun _ => ⟨DbErr.mustBeHashed, hh⟩⟩
    · intro idx hidx
      rw [hnone] at hidx
      exact absurd hidx (Option.noConfusion)
    · intro idx hidx
      rw [hnone] at hidx
      exact absurd hidx (Option.noConfusion)
    · intro idx hidx
      rw [hnone] at hidx
      exact absurd hidx (Option.noConfusion)
  | true =>
    cases hgh : getHashes T c with
    | none =>
      rw [(getHashes_none_iff_any T c).mp hgh] at hany
      exact Bool.noConfusion hany
    | some idx0 =>
      have hgd : (getHashes T c).getD [] = idx0 := by rw [hgh]; rfl
      rw [hgd] at hval
      have hsome : getHashes T c ≠ none := by
        rw [hgh]
        exact Option.noConfusion
      have hbody : ∀ r, (if op == "=" then
            if !(idxHasKey idx0 rhs) then Except.ok ([] : List Rec)
            else matLocs T (idxGet idx0 rhs)
          else if op == ">" then
            matLocs T (((idx0.map Prod.fst).filter (fun k => jsGt k rhs)).flatMap (idxGet idx0))
          else .error .unexpectedOp) = r →
          getRecsFromHash s t c op rhs = r := by
        intro r hr
        unfold getRecsFromHash
        simp only [hith, hany, hT]
        rw [hgd]
        exact hr
      have hhv : hasValue s t c v = .ok (idxHasKey idx0 v) := by
        unfold hasValue
        simp only [hith, hany, hT]
        rw [hgd]
      by_cases hop1 : op = "="
      · have hopb : (op == "=") = true := by rw [hop1]; rfl
        have hok : ∃ rs, getRecsFromHash s t c op rhs = .ok rs := by
          by_cases hk : idxHasKey idx0 rhs
          · refine ⟨(idxGet idx0 rhs).map (recAt T), hbody _ ?_⟩
            rw [if_pos hopb, hk]
            show (if !true then Except.ok ([] : List Rec) else matLocs T (idxGet idx0 rhs)) = _
            rw [if_neg (by decide)]
            exact matLocs_ok (idxGet_all_valid hval rhs)
          · refine ⟨[], hbody _ ?_⟩
            have hkf : idxHasKey idx0 rhs = false := Bool.eq_false_iff.mpr hk
            rw [if_pos hopb, hkf]
            rfl
        obtain ⟨rs, hok⟩ := hok
        refine ⟨?_, ?_, ?_, ?_, ?_⟩
        · constructor
          · intro ⟨e, he⟩
            rw [hok] at he
            exact absurd he (Except.noConfusion)
          · intro h
            rcases h with h | h
            · exact Option.noConfusion h
            · exact absurd hop1 h.1
        · constructor
          · intro ⟨e, he⟩
            rw [hhv] at he
            exact absurd he (Except.noConfusion)
          · intro h
            exact Option.noConfusion h
        · intro idx hidx _ hkey
          have hi : idx = idx0 := (Option.some.inj hidx).symm
          apply hbody
          have hkey0 : idxHasKey idx0 rhs = false := hi ▸ hkey
          rw [if_pos hopb, hkey0]
          rfl
        · intro idx hidx hop2 _
          rw [hop1] at hop2
          exact absurd hop2 (by decide)
        · intro idx hidx hkey
          have hi : idx = idx0 := (Option.some.inj hidx).symm
          rw [hhv, ← hi, hkey]
      · by_cases hop2 : op = ">"
        · have hopb1 : (op == "=") = false := by
            rw [Bool.eq_false_iff]
            intro hc
            exact hop1 (eq_of_beq hc)
          have hopb2 : (op == ">") = true := by rw [hop2]; rfl
          have hok : getRecsFromHash s t c op rhs =
              .ok ((((idx0.map Prod.fst).filter (fun k => jsGt k rhs)).flatMap
                (idxGet idx0)).map (recAt T)) := by
            apply hbody
            rw [if_neg (by rw [hopb1]; exact Bool.false_ne_true), if_pos hopb2]
            exact matLocs_ok (flatMap_locs_valid hval _)
          refine ⟨?_, ?_, ?_, ?_, ?_⟩
          · constructor
            · intro ⟨e, he⟩
              rw [hok] at he
              exact absurd he (Except.noConfusion)
            · intro h
              rcases h with h | h
              · exact Option.noConfusion h
              · exact absurd hop2 h.2
          · constructor
            · intro ⟨e, he⟩
              rw [hhv] at he
              exact absurd he (Except.noConfusion)
            · intro h
              exact Option.noConfusion h
          · intro idx hidx hop1c
            exact absurd hop1c hop1
          · intro idx hidx _ hfilter
            have hi : idx = idx0 := (Option.some.inj hidx).symm
            have hf0 : (idx0.map Prod.fst).filter (fun k => jsGt k rhs) = [] := hi ▸ hfilter
            rw [hok, hf0]
            rfl
          · intro idx hidx hkey
            have hi : idx = idx0 := (Option.some.inj hidx).symm
            rw [hhv, ← hi, hkey]
        · have hopb1 : (op == "=") = false := by
            rw [Bool.eq_false_iff]
            intro hc
            exact hop1 (eq_of_beq hc)
          have hopb2 : (op == ">") = false := by
            rw [Bool.eq_false_iff]
            intro hc
            exact hop2 (eq_of_beq hc)
          have herr : getRecsFromHash s t c op rhs = .error .unexpectedOp := by
            apply hbody
            rw [if_neg (by rw [hopb1]; exact Bool.false_ne_true),
              if_neg (by rw [hopb2]; exact Bool.false_ne_true)]
          refine ⟨?_, ?_, ?_, ?_, ?_⟩
          · exact ⟨fun _ => Or.inr ⟨hop1, hop2⟩, fun _ => ⟨DbErr.unexpectedOp, herr⟩⟩
          · constructor
            · intro ⟨e, he⟩
              rw [hhv] at he
              exact absurd he (Except.noConfusion)
            · intro h
              exact Option.noConfusion h
          · intro idx hidx hop1c
            exact absurd hop1c hop1
          · intro idx hidx hop2c
            exact absurd hop2c hop2
          · intro idx hidx hkey
            have hi : idx = idx0 := (Option.some.inj hidx).symm
            rw [hhv, ← hi, hkey]

/-- Concrete state of the hash-lookup witness: one table `A`, one record,
an index on `x`. -/
def c7s : DBState :=
  match applyOps { tables := [], freshCtr := 0 }
      [DbOp.addTable "A" ["x"],
       DbOp.insertUnique "A" [[("_id", some (.str "u")), ("x", some (.num 5))]],
       DbOp.hashTableOp "A" "x" true] with
  | .ok s => s
  | .error _ => { tables := [], freshCtr := 0 }

/-- The witness table as stored. -/
def c7T : Table :=
  (getTable? c7s "A").getD { pages := [], queue := [], cols := [], hashes := [] }

theorem c7_hash_lookup_error_iff_witness :
    ((∃ e, getRecsFromHash c7s "A" "x" "=" (some (JsVal.num 9)) = .error e) ↔
      (getHashes c7T "x" = none ∨ (("=" : String) ≠ "=" ∧ ("=" : String) ≠ ">"))) ∧
    ((∃ e, hasValue c7s "A" "x" (some (JsVal.num 9)) = .error e) ↔
      getHashes c7T "x" = none) ∧
    (∀ idx, getHashes c7T "x" = some idx → ("=" : String) = "=" →
      idxHasKey idx (some (JsVal.num 9)) = false →
      getRecsFromHash c7s "A" "x" "=" (some (JsVal.num 9)) = .ok []) ∧
    (∀ idx, getHashes c7T "x" = some idx → ("=" : String) = ">" →
      (idx.map Prod.fst).filter (fun k => jsGt k (some (JsVal.num 9))) = [] →
      getRecsFromHash c7s "A" "x" "=" (some (JsVal.num 9)) = .ok []) ∧
    (∀ idx, getHashes c7T "x" = some idx → idxHasKey idx (some (JsVal.num 9)) = false →
      hasValue c7s "A" "x" (some (JsVal.num 9)) = .ok false) :=
  c7_hash_lookup_error_iff c7s "A" "x" "=" (some (JsVal.num 9)) (some (JsVal.num 9)) c7T
    rfl (by decide)

/-- Total form of the projection switch when every source is `t1` or
`t2`: `t1` is tested first, exactly as in the source. -/
def projPure (t1 t2 : String) (proj : List Proj) (rec1 rec2 : Rec) : Rec :=
  proj.foldl
    (fun res p =>
      if p.colSrc.1 == t1 then setField res p.colNameDst (getField rec1 p.colSrc.2)
      else setField res p.colNameDst (getField rec2 p.colSrc.2))
    []

theorem foldProj_ok {t1 t2 : String} (rec1 rec2 : Rec) :
    ∀ (proj : List Proj), (∀ p ∈ proj, p.colSrc.1 = t1 ∨ p.colSrc.1 = t2) →
      ∀ acc, (proj.foldlM (fun res p =>
          if p.colSrc.1 == t1 then
            Except.ok (setField res p.colNameDst (getField rec1 p.colSrc.2))
          else if p.colSrc.1 == t2 then
            Except.ok (setField res p.colNameDst (getField rec2 p.colSrc.2))
          else Except.error DbErr.unexpectedProj) acc : Except DbErr Rec)
        = .ok (proj.foldl (fun res p =>
            if p.colSrc.1 == t1 then setField res p.colNameDst (getField rec1 p.colSrc.2)
            else setField res p.colNameDst (getField rec2 p.colSrc.2)) acc) := by
  intro proj
  induction proj with
  | nil =>
    intro _ acc
    rfl
  | cons p ps ih =>
    intro hWF acc
    have hps : ∀ q ∈ ps, q.colSrc.1 = t1 ∨ q.colSrc.1 = t2 :=
      fun q hq => hWF q (List.mem_cons_of_mem p hq)
    rw [List.foldlM_cons, List.foldl_cons]
    by_cases hb1 : (p.colSrc.1 == t1) = true
    · rw [if_pos hb1, if_pos hb1]
      show (ps.foldlM _ (setField acc p.colNameDst (getField rec1 p.colSrc.2))
        : Except DbErr Rec) = _
      exact ih hps _
    · have hp2 : p.colSrc.1 = t2 := by
        rcases hWF p (List.mem_cons_self p ps) with h | h
        · exact absurd (by rw [h]; exact beq_self_eq_true t1) hb1
        · exact h
      have hb2 : (p.colSrc.1 == t2) = true := by rw [hp2]; exact beq_self_eq_true t2
      rw [if_neg hb1, if_neg hb1, if_pos hb2]
      show (ps.foldlM _ (setField acc p.colNameDst (getField rec2 p.colSrc.2))
        : Except DbErr Rec) = _
      exact ih hps _

theorem applyProjection_ok {t1 t2 : String} {proj : List Proj}
    (hWF : ∀ p ∈ proj, p.colSrc.1 = t1 ∨ p.colSrc.1 = t2) (rec1 rec2 : Rec) :
    applyProjection t1 t2 proj rec1 rec2 = .ok (projPure t1 t2 proj rec1 rec2) :=
  foldProj_ok rec1 rec2 proj hWF []

theorem foldProj_swap {t1 t2 : String} (hne : t1 ≠ t2) (rec1 rec2 : Rec) :
    ∀ (proj : List Proj), (∀ p ∈ proj, p.colSrc.1 = t1 ∨ p.colSrc.1 = t2) →
      ∀ acc, proj.foldl (fun res p =>
          if p.colSrc.1 == t1 then setField res p.colNameDst (getField rec1 p.colSrc.2)
          else setField res p.colNameDst (getField rec2 p.colSrc.2)) acc
        = proj.foldl (fun res p =>
            if p.colSrc.1 == t2 then setField res p.colNameDst (getField rec2 p.colSrc.2)
            else setField res p.colNameDst (getField rec1 p.colSrc.2)) acc := by
  intro proj
  induction proj with
  | nil =>
    intro _ acc
    rfl
  | cons p ps ih =>
    intro hWF acc
    have hps : ∀ q ∈ ps, q.colSrc.1 = t1 ∨ q.colSrc.1 = t2 :=
      fun q hq => hWF q (List.mem_cons_of_mem p hq)
    rw [List.foldl_cons, List.foldl_cons]
    rcases hWF p (List.mem_cons_self p ps) with hp | hp
    · have hb1 : (p.colSrc.1 == t1) = true := by rw [hp]; exact beq_self_eq_true t1
      have hb2 : (p.colSrc.1 == t2) = false := by
        rw [hp]
        exact beq_eq_false_iff_ne.mpr hne
      rw [if_pos hb1, if_neg (by rw [hb2]; exact Bool.false_ne_true)]
      exact ih hps _
    · have hb2 : (p.colSrc.1 == t2) = true := by rw [hp]; exact beq_self_eq_true t2
      have hb1 : (p.colSrc.1 == t1) = false := by
        rw [hp]
        exact beq_eq_false_iff_ne.mpr (Ne.symm hne)
      rw [if_neg (by rw [hb1]; exact Bool.false_ne_true), if_pos hb2]
      exact ih hps _

theorem projPure_swap {t1 t2 : String} (hne : t1 ≠ t2) {proj : List Proj}
    (hWF : ∀ p ∈ proj, p.colSrc.1 = t1 ∨ p.colSrc.1 = t2) (rec1 rec2 : Rec) :
    projPure t2 t1 proj rec2 rec1 = projPure t1 t2 proj rec1 rec2 := by
  unfold projPure
  rw [foldProj_swap hne rec1 rec2 proj hWF []]

theorem hashJoinOut_ok {t1 t2 : String} {proj : List Proj}
    (hWF : ∀ p ∈ proj, p.colSrc.1 = t1 ∨ p.colSrc.1 = t2) (r1 r2 : Rec) :
    hashJoinOut t1 t2 proj false r1 r2 = .ok (projPure t1 t2 proj r1 r2) := by
  unfold hashJoinOut
  rw [applyProjection_ok hWF r1 r2]
  rfl

theorem emitInner_ok {t1 t2 : String} {proj : List Proj}
    (hWF : ∀ p ∈ proj, p.colSrc.1 = t1 ∨ p.colSrc.1 = t2) (r1 : Rec) :
    ∀ (recs2 : List Rec) (acc : List Rec),
      (recs2.foldlM (fun acc2 r2 =>
        match hashJoinOut t1 t2 proj false r1 r2 with
        | .error e => .error e
        | .ok o => .ok (acc2 ++ [o])) acc : Except DbErr (List Rec))
      = .ok (acc ++ recs2.map (projPure t1 t2 proj r1)) := by
  intro recs2
  induction recs2 with
  | nil =>
    intro acc
    show (Except.ok acc : Except DbErr (List Rec)) = .ok (acc ++ [])
    rw [List.append_nil]
  | cons r2 rs ih =>
    intro acc
    rw [List.foldlM_cons, hashJoinOut_ok hWF r1 r2]
    show (rs.foldlM _ (acc ++ [projPure t1 t2 proj r1 r2]) : Except DbErr (List Rec)) = _
    rw [ih (acc ++ [projPure t1 t2 proj r1 r2]), List.append_assoc]
    rfl

theorem hashJoinEmit_ok {t1 t2 : String} {proj : List Proj}
    (hWF : ∀ p ∈ proj, p.colSrc.1 = t1 ∨ p.colSrc.1 = t2) :
    ∀ (recs1 recs2 : List Rec) (acc : List Rec),
      (recs1.foldlM (fun acc r1 =>
        recs2.foldlM (fun acc2 r2 =>
          match hashJoinOut t1 t2 proj false r1 r2 with
          | .error e => .error e
          | .ok o => .ok (acc2 ++ [o])) acc) acc : Except DbErr (List Rec))
      = .ok (acc ++ recs1.flatMap (fun r1 => recs2.map (projPure t1 t2 proj r1))) := by
  intro recs1
  induction recs1 with
  | nil =>
    intro recs2 acc
    show (Except.ok acc : Except DbErr (List Rec)) = .ok (acc ++ [])
    rw [List.append_nil]
  | cons r1 rs ih =>
    intro recs2 acc
    rw [List.foldlM_cons, emitInner_ok hWF r1 recs2 acc]
    show (rs.foldlM _ (acc ++ recs2.map (projPure t1 t2 proj r1)) : Except DbErr (List Rec)) = _
    rw [ih recs2 (acc ++ recs2.map (projPure t1 t2 proj r1)), List.append_assoc]
    rfl

/-- The locators `hashJoin` dereferences on the right side for one left
key: all matching keys of the right index, then their locator lists. -/
def matchLocs2 (idx2 : Index) (v1 : JsV) : List Loc :=
  ((idx2.map Prod.fst).filter (fun v2 => hashJoinKeyMatch "=" v1 v2)).flatMap (idxGet idx2)

theorem flatMap_congr_mem {α β : Type} {l : List α} {f g : α → List β}
    (h : ∀ a ∈ l, f a = g a) : l.flatMap f = l.flatMap g := by
  induction l with
  | nil => rfl
  | cons a as ih =>
    rw [List.flatMap_cons, List.flatMap_cons, h a (List.mem_cons_self a as),
      ih (fun b hb => h b (List.mem_cons_of_mem a hb))]

theorem idxGet_cons_self (kv : JsV × List Loc) (rest : Index) :
    idxGet (kv :: rest) kv.1 = kv.2 := by
  unfold idxGet
  have hf : ((kv :: rest).find? (fun p => p.1 == kv.1)) = some kv :=
    List.find?_cons_of_pos _ (beq_self_eq_true kv.1)
  rw [hf]

theorem idxGet_cons_ne (kv : JsV × List Loc) (rest : Index) (k : JsV) (hne : k ≠ kv.1) :
    idxGet (kv :: rest) k = idxGet rest k := by
  unfold idxGet
  have hf : ((kv :: rest).find? (fun p => p.1 == k)) = rest.find? (fun p => p.1 == k) :=
    List.find?_cons_of_neg _
      (by rw [beq_eq_false_iff_ne.mpr (Ne.symm hne)]; exact Bool.false_ne_true)
  rw [hf]

theorem matchLocs2_group : ∀ (idx2 : Index), ((idx2.map Prod.fst).Nodup) →
    ∀ v1, matchLocs2 idx2 v1
      = idx2.flatMap (fun kv2 => if hashJoinKeyMatch "=" v1 kv2.1 then kv2.2 else []) := by
  intro idx2
  induction idx2 with
  | nil =>
    intro _ v1
    rfl
  | cons kv rest ih =>
    intro hnd v1
    obtain ⟨hnotin, hndr⟩ : kv.1 ∉ rest.map Prod.fst ∧ ((rest.map Prod.fst).Nodup) := by
      rw [List.map_cons, List.nodup_cons] at hnd
      exact hnd
    have hcong : ((rest.map Prod.fst).filter (fun v2 => hashJoinKeyMatch "=" v1 v2)).flatMap
        (idxGet (kv :: rest))
        = ((rest.map Prod.fst).filter (fun v2 => hashJoinKeyMatch "=" v1 v2)).flatMap
          (idxGet rest) := by
      apply flatMap_congr_mem
      intro k hk
      have hkmem : k ∈ rest.map Prod.fst := List.mem_of_mem_filter hk
      have hkne : k ≠ kv.1 := fun hc => hnotin (hc ▸ hkmem)
      exact idxGet_cons_ne kv rest k hkne
    unfold matchLocs2 at ih ⊢
    rw [List.map_cons, List.filter_cons, List.flatMap_cons]
    by_cases hm : hashJoinKeyMatch "=" v1 kv.1 = true
    · rw [if_pos hm, if_pos hm, List.flatMap_cons, idxGet_cons_self, hcong, ih hndr v1]
    · rw [if_neg hm, if_neg hm, hcong, ih hndr v1, List.nil_append]

/-- All projected outputs of one left index entry in the `=` hash join. -/
def joinOut (t1 t2 : String) (proj : List Proj) (T1 T2 : Table) (idx2 : Index)
    (kv1 : JsV × List Loc) : List Rec :=
  (kv1.2.map (recAt T1)).flatMap (fun r1 =>
    ((matchLocs2 idx2 kv1.1).map (recAt T2)).map (fun r2 => projPure t1 t2 proj r1 r2))

/-- The full output stream of the `=` hash join as a pure function of the
two indexes. -/
def joinList (t1 t2 : String) (proj : List Proj) (T1 T2 : Table)
    (idx1 idx2 : Index) : List Rec :=
  idx1.flatMap (joinOut t1 t2 proj T1 T2 idx2)

theorem hashJoinLoop_ok {T1 T2 : Table} {t1 t2 : String} {proj : List Proj}
    (hWF : ∀ p ∈ proj, p.colSrc.1 = t1 ∨ p.colSrc.1 = t2)
    {idx2 : Index} (hv2 : idxLocsValid T2 idx2 = true) :
    ∀ (idx1 : List (JsV × List Loc)), idxLocsValid T1 idx1 = true →
      hashJoinLoop T1 T2 t1 t2 proj "=" false idx2 idx1 =
        .ok (joinList t1 t2 proj T1 T2 idx1 idx2) := by
  intro idx1
  induction idx1 with
  | nil =>
    intro _
    rfl
  | cons kv1 rest ih =>
    intro hv1
    obtain ⟨hkv, hrest⟩ : (kv1.2.all (locValid T1)) = true ∧ idxLocsValid T1 rest = true := by
      unfold idxLocsValid at hv1 ⊢
      rw [List.all_cons, Bool.and_eq_true] at hv1
      exact hv1
    have h1 : matLocs T1 kv1.2 = .ok (kv1.2.map (recAt T1)) := matLocs_ok hkv
    have h2 : matLocs T2 (((idx2.map Prod.fst).filter
          (fun v2 => hashJoinKeyMatch "=" kv1.1 v2)).flatMap (idxGet idx2))
        = .ok ((matchLocs2 idx2 kv1.1).map (recAt T2)) := by
      show matLocs T2 (matchLocs2 idx2 kv1.1)
        = .ok ((matchLocs2 idx2 kv1.1).map (recAt T2))
      exact matLocs_ok (flatMap_locs_valid hv2 _)
    have h3 : hashJoinEmit t1 t2 proj false (kv1.2.map (recAt T1))
          ((matchLocs2 idx2 kv1.1).map (recAt T2))
        = .ok (joinOut t1 t2 proj T1 T2 idx2 kv1) := by
      unfold hashJoinEmit
      rw [hashJoinEmit_ok hWF _ _ [], List.nil_append]
      rfl
    have h4 : hashJoinLoop T1 T2 t1 t2 proj "=" false idx2 rest
        = .ok (joinList t1 t2 proj T1 T2 rest idx2) := ih hrest
    show (match matLocs T1 kv1.2 with
      | Except.error e => Except.error e
      | Except.ok recs1 =>
        match matLocs T2 (((idx2.map Prod.fst).filter
            (fun v2 => hashJoinKeyMatch "=" kv1.1 v2)).flatMap (idxGet idx2)) with
        | Except.error e => Except.error e
        | Except.ok recs2 =>
          match hashJoinEmit t1 t2 proj false recs1 recs2 with
          | Except.error e => Except.error e
          | Except.ok out =>
            match hashJoinLoop T1 T2 t1 t2 proj "=" false idx2 rest with
            | Except.error e => Except.error e
            | Except.ok outRest => Except.ok (out ++ outRest))
      = (Except.ok (joinList t1 t2 proj T1 T2 (kv1 :: rest) idx2)
          : Except DbErr (List Rec))
    simp only [h1, h2, h3, h4]
    show Except.ok (joinOut t1 t2 proj T1 T2 idx2 kv1
        ++ joinList t1 t2 proj T1 T2 rest idx2)
      = Except.ok (joinList t1 t2 proj T1 T2 (kv1 :: rest) idx2)
    rw [joinList, joinList, List.flatMap_cons]

theorem jsLooseEqV_symm (a b : JsVal) : jsLooseEqV a b = jsLooseEqV b a := by
  cases a with
  | str sa =>
    cases b with
    | str sb =>
      show (sa == sb) = (sb == sa)
      exact Bool.beq_comm
    | num nb => rfl
  | num na =>
    cases b with
    | str sb => rfl
    | num nb =>
      show (na == nb) = (nb == na)
      exact Bool.beq_comm

theorem jsLooseEq_symm (a b : JsV) : jsLooseEq a b = jsLooseEq b a := by
  cases a with
  | none =>
    cases b with
    | none => rfl
    | some y => rfl
  | some x =>
    cases b with
    | none => rfl
    | some y =>
      show jsLooseEqV x y = jsLooseEqV y x
      exact jsLooseEqV_symm x y

theorem keyMatchEq_symm (a b : JsV) :
    hashJoinKeyMatch "=" a b = hashJoinKeyMatch "=" b a := by
  show jsLooseEq a b = jsLooseEq b a
  exact jsLooseEq_symm a b

/-- The multiset of outputs one pair of index entries contributes to the
`=` hash join: empty unless the keys match loosely, else one projected
record per pair of locators. -/
def pairMS (t1 t2 : String) (proj : List Proj) (T1 T2 : Table)
    (kv1 kv2 : JsV × List Loc) : Multiset Rec :=
  if hashJoinKeyMatch "=" kv1.1 kv2.1 then
    (↑kv1.2 : Multiset Loc).bind (fun l1 =>
      (↑kv2.2 : Multiset Loc).map (fun l2 =>
        projPure t1 t2 proj (recAt T1 l1) (recAt T2 l2)))
  else 0

theorem joinOne_ms {t1 t2 : String} {proj : List Proj} {T2 : Table}
    {idx2 : Index} (hk2 : ((idx2.map Prod.fst).Nodup)) (v1 : JsV) (r1 : Rec) :
    (↑(((matchLocs2 idx2 v1).map (recAt T2)).map (fun r2 => projPure t1 t2 proj r1 r2))
      : Multiset Rec)
      = (↑idx2 : Multiset (JsV × List Loc)).bind (fun kv2 =>
          if hashJoinKeyMatch "=" v1 kv2.1 then
            (↑kv2.2 : Multiset Loc).map (fun l2 => projPure t1 t2 proj r1 (recAt T2 l2))
          else 0) := by
  rw [matchLocs2_group idx2 hk2 v1, List.map_map, List.map_flatMap, ← Multiset.coe_bind]
  apply Multiset.bind_congr
  intro kv2 _
  by_cases hm : hashJoinKeyMatch "=" v1 kv2.1 = true
  · rw [if_pos hm, if_pos hm, ← Multiset.map_coe]
    rfl
  · rw [if_neg hm, if_neg hm]
    rfl

theorem joinOut_ms_aux {t1 t2 : String} {proj : List Proj} {T1 T2 : Table}
    {idx2 : Index} (hk2 : ((idx2.map Prod.fst).Nodup)) (v1 : JsV) :
    ∀ locs1 : List Loc,
      (↑((locs1.map (recAt T1)).flatMap (fun r1 =>
          ((matchLocs2 idx2 v1).map (recAt T2)).map (fun r2 => projPure t1 t2 proj r1 r2)))
        : Multiset Rec)
      = (↑idx2 : Multiset (JsV × List Loc)).bind (fun kv2 =>
          if hashJoinKeyMatch "=" v1 kv2.1 then
            (↑locs1 : Multiset Loc).bind (fun l1 =>
              (↑kv2.2 : Multiset Loc).map (fun l2 =>
                projPure t1 t2 proj (recAt T1 l1) (recAt T2 l2)))
          else 0) := by
  intro locs1
  induction locs1 with
  | nil =>
    have hz : ((↑idx2 : Multiset (JsV × List Loc)).bind (fun kv2 =>
        if hashJoinKeyMatch "=" v1 kv2.1 then
          ((↑([] : List Loc) : Multiset Loc)).bind (fun l1 =>
            (↑kv2.2 : Multiset Loc).map (fun l2 =>
              projPure t1 t2 proj (recAt T1 l1) (recAt T2 l2)))
        else 0)) = (↑idx2 : Multiset (JsV × List Loc)).bind (fun kv2 => (0 : Multiset Rec)) := by
      apply Multiset.bind_congr
      intro kv2 _
      by_cases hm : hashJoinKeyMatch "=" v1 kv2.1 = true
      · rw [if_pos hm]
        rw [Multiset.coe_nil, Multiset.zero_bind]
      · rw [if_neg hm]
    rw [hz, Multiset.bind_zero]
    rfl
  | cons l1 ls ih =>
    rw [List.map_cons, List.flatMap_cons, ← Multiset.coe_add,
      joinOne_ms hk2 v1 (recAt T1 l1), ih, ← Multiset.bind_add]
    apply Multiset.bind_congr
    intro kv2 _
    by_cases hm : hashJoinKeyMatch "=" v1 kv2.1 = true
    · rw [if_pos hm, if_pos hm, if_pos hm, ← Multiset.cons_coe, Multiset.cons_bind]
    · rw [if_neg hm, if_neg hm, if_neg hm, zero_add]

theorem joinOut_ms {t1 t2 : String} {proj : List Proj} {T1 T2 : Table}
    {idx2 : Index} (hk2 : ((idx2.map Prod.fst).Nodup)) (kv1 : JsV × List Loc) :
    (↑(joinOut t1 t2 proj T1 T2 idx2 kv1) : Multiset Rec)
      = (↑idx2 : Multiset (JsV × List Loc)).bind (fun kv2 =>
          pairMS t1 t2 proj T1 T2 kv1 kv2) :=
  joinOut_ms_aux hk2 kv1.1 kv1.2

theorem joinList_ms {t1 t2 : String} {proj : List Proj} {T1 T2 : Table}
    {idx2 : Index} (hk2 : ((idx2.map Prod.fst).Nodup)) :
    ∀ (idx1 : Index),
      (↑(joinList t1 t2 proj T1 T2 idx1 idx2) : Multiset Rec)
      = (↑idx1 : Multiset (JsV × List Loc)).bind (fun kv1 =>
          (↑idx2 : Multiset (JsV × List Loc)).bind (fun kv2 =>
            pairMS t1 t2 proj T1 T2 kv1 kv2)) := by
  intro idx1
  induction idx1 with
  | nil => rfl
  | cons kv1 rest ih =>
    show (↑(joinOut t1 t2 proj T1 T2 idx2 kv1 ++ joinList t1 t2 proj T1 T2 rest idx2)
      : Multiset Rec) = _
    rw [← Multiset.coe_add, joinOut_ms hk2 kv1, ih, ← Multiset.cons_coe, Multiset.cons_bind]

theorem pairMS_swap {t1 t2 : String} (hne : t1 ≠ t2) {proj : List Proj}
    (hWF : ∀ p ∈ proj, p.colSrc.1 = t1 ∨ p.colSrc.1 = t2) {T1 T2 : Table}
    (kv1 kv2 : JsV × List Loc) :
    pairMS t2 t1 proj T2 T1 kv2 kv1 = pairMS t1 t2 proj T1 T2 kv1 kv2 := by
  unfold pairMS
  rw [keyMatchEq_symm kv2.1 kv1.1]
  by_cases hm : hashJoinKeyMatch "=" kv1.1 kv2.1 = true
  · rw [if_pos hm, if_pos hm]
    have hcong : ∀ l2 ∈ (↑kv2.2 : Multiset Loc),
        ((↑kv1.2 : Multiset Loc).map (fun l1 =>
          projPure t2 t1 proj (recAt T2 l2) (recAt T1 l1)))
        = ((↑kv1.2 : Multiset Loc).map (fun l1 =>
          projPure t1 t2 proj (recAt T1 l1) (recAt T2 l2))) := by
      intro l2 _
      apply Multiset.map_congr rfl
      intro l1 _
      exact projPure_swap hne hWF (recAt T1 l1) (recAt T2 l2)
    rw [Multiset.bind_congr hcong]
    exact Multiset.bind_map_comm (↑kv2.2 : Multiset Loc) (↑kv1.2 : Multiset Loc)
  · rw [if_neg hm, if_neg hm]

theorem joinList_comm {t1 t2 : String} (hne : t1 ≠ t2) {proj : List Proj}
    (hWF : ∀ p ∈ proj, p.colSrc.1 = t1 ∨ p.colSrc.1 = t2) {T1 T2 : Table}
    {idx1 idx2 : Index} (hk1 : ((idx1.map Prod.fst).Nodup))
    (hk2 : ((idx2.map Prod.fst).Nodup)) :
    (↑(joinList t1 t2 proj T1 T2 idx1 idx2) : Multiset Rec)
      = ↑(joinList t2 t1 proj T2 T1 idx2 idx1) := by
  rw [joinList_ms hk2 idx1, joinList_ms hk1 idx2, Multiset.bind_bind]
  apply Multiset.bind_congr
  intro kv2 _
  apply Multiset.bind_congr
  intro kv1 _
  exact (pairMS_swap hne hWF kv1 kv2).symm

theorem idxAddLoc_all (ok : Loc → Bool) (idx : Index) (k : JsV) (l : Loc)
    (hidx : idx.all (fun kv => kv.2.all ok) = true) (hl : ok l = true) :
    (idxAddLoc idx k l).all (fun kv => kv.2.all ok) = true := by
  unfold idxAddLoc
  rw [List.all_eq_true] at hidx
  by_cases hk : idxHasKey idx k = true
  · rw [if_pos hk, List.all_eq_true]
    intro kv hkv
    rw [List.mem_map] at hkv
    obtain ⟨p, hp, hpe⟩ := hkv
    by_cases hpk : (p.1 == k) = true
    · rw [if_pos hpk] at hpe
      rw [← hpe]
      show (p.2 ++ [l]).all ok = true
      rw [List.all_append]
      refine Bool.and_eq_true_iff.mpr ⟨hidx p hp, ?_⟩
      rw [List.all_cons, hl]
      rfl
    · rw [if_neg hpk] at hpe
      rw [← hpe]
      exact hidx p hp
  · rw [if_neg hk, List.all_append]
    refine Bool.and_eq_true_iff.mpr ⟨List.all_eq_true.mpr hidx, ?_⟩
    show ([l].all ok && true) = true
    rw [List.all_cons, hl]
    rfl

theorem hashPageInto_all (c pid : String) (ok : Loc → Bool) :
    ∀ (recs : List Rec) (idx : Index) (i0 : Nat),
      idx.all (fun kv => kv.2.all ok) = true →
      (∀ j, i0 ≤ j → j < i0 + recs.length → ok (pid, j) = true) →
      ((recs.foldl (fun acc r => (idxAddLoc acc.1 (getField r c) (pid, acc.2), acc.2 + 1))
        (idx, i0)).1).all (fun kv => kv.2.all ok) = true := by
  intro recs
  induction recs with
  | nil =>
    intro idx i0 h _
    exact h
  | cons r rs ih =>
    intro idx i0 h hok
    rw [List.foldl_cons]
    exact ih (idxAddLoc idx (getField r c) (pid, i0)) (i0 + 1)
      (idxAddLoc_all ok idx (getField r c) (pid, i0) h
        (hok i0 (le_refl _) (by simp)))
      (fun j hj1 hj2 => hok j (by omega) (by simp only [List.length_cons]; omega))

theorem buildIndexOver_all (c : String) (ok : Loc → Bool) :
    ∀ (pages : List Page) (idx0 : Index),
      idx0.all (fun kv => kv.2.all ok) = true →
      (∀ p ∈ pages, ∀ j, j < p.recs.length → ok (p.pid, j) = true) →
      (buildIndexOver idx0 c pages).all (fun kv => kv.2.all ok) = true := by
  intro pages
  induction pages with
  | nil =>
    intro idx0 h _
    exact h
  | cons p ps ih =>
    intro idx0 h hok
    show (buildIndexOver (hashPageInto idx0 c p.pid p.recs) c ps).all
      (fun kv => kv.2.all ok) = true
    refine ih (hashPageInto idx0 c p.pid p.recs) ?_
      (fun q hq j hj => hok q (List.mem_cons_of_mem p hq) j hj)
    exact hashPageInto_all c p.pid ok p.recs idx0 0 h
      (fun j _ hj => hok p (List.mem_cons_self p ps) j (by omega))

theorem buildIndex_locsValid {T : Table} (c : String)
    (hpid : ((T.pages.map Page.pid).Nodup)) :
    idxLocsValid T (buildIndexOver [] c T.pages) = true := by
  unfold idxLocsValid
  refine buildIndexOver_all c (locValid T) T.pages [] rfl ?_
  intro p hp j hj
  obtain ⟨l₁, l₂, hdecomp⟩ := List.append_of_mem hp
  have hfp : findPage T p.pid = some p := findPage_decomp hdecomp hpid
  show (match findPage T p.pid with
    | none => false
    | some q => decide (j < q.recs.length)) = true
  rw [hfp]
  show decide (j < p.recs.length) = true
  exact decide_eq_true hj

theorem idxAddLoc_keys_nodup {idx : Index} (k : JsV) (l : Loc)
    (h : ((idx.map Prod.fst).Nodup)) : (((idxAddLoc idx k l).map Prod.fst).Nodup) := by
  rw [idxAddLoc_keys]
  by_cases hk : idxHasKey idx k = true
  · rw [if_pos hk]
    exact h
  · rw [if_neg hk]
    refine List.nodup_append.mpr ⟨h, List.nodup_singleton k, ?_⟩
    intro a ha hmem
    rw [List.mem_singleton.mp hmem] at ha
    exact hk ((idxHasKey_iff_mem idx k).mpr ha)

theorem hashPageInto_keys_nodup (c pid : String) :
    ∀ (recs : List Rec) (idx : Index) (i0 : Nat),
      ((idx.map Prod.fst).Nodup) →
      ((((recs.foldl (fun acc r => (idxAddLoc acc.1 (getField r c) (pid, acc.2), acc.2 + 1))
        (idx, i0)).1).map Prod.fst).Nodup) := by
  intro recs
  induction recs with
  | nil =>
    intro idx i0 h
    exact h
  | cons r rs ih =>
    intro idx i0 h
    rw [List.foldl_cons]
    exact ih _ _ (idxAddLoc_keys_nodup _ _ h)

theorem buildIndexOver_keys_nodup (c : String) :
    ∀ (pages : List Page) (idx0 : Index),
      ((idx0.map Prod.fst).Nodup) →
      ((((buildIndexOver idx0 c pages).map Prod.fst).Nodup)) := by
  intro pages
  induction pages with
  | nil =>
    intro idx0 h
    exact h
  | cons p ps ih =>
    intro idx0 h
    show ((((buildIndexOver (hashPageInto idx0 c p.pid p.recs) c ps).map Prod.fst).Nodup))
    exact ih _ (hashPageInto_keys_nodup c p.pid p.recs idx0 0 h)

theorem locValid_setHashIndex_fun (T : Table) (c : String) (i : Index) :
    locValid (setHashIndex T c i) = locValid T := by
  funext l
  unfold locValid findPage
  rw [setHashIndex_pages]

theorem idxLocsValid_setHashIndex (T : Table) (c : String) (i idx : Index) :
    idxLocsValid (setHashIndex T c i) idx = idxLocsValid T idx := by
  unfold idxLocsValid
  rw [locValid_setHashIndex_fun]

/-- The table as `hashJoin` sees one side after its re-hash step: the
stored table when an index on the join column already exists, otherwise
the table freshly hashed by the join itself (`hashTable(t, c, true)`). -/
def hashedSide (T : Table) (c : String) : Table :=
  if T.hashes.any (fun p => p.1 == c) then T
  else setHashIndex T c (buildIndexOver [] c T.pages)

/-- The index `hashJoin` joins on for one side. -/
def effIdx (T : Table) (c : String) : Index :=
  (getHashes (hashedSide T c) c).getD []

theorem effIdx_locsValid {T : Table} {c : String}
    (hpid : ((T.pages.map Page.pid).Nodup))
    (hv : T.hashes.any (fun p => p.1 == c) = true →
      idxLocsValid T ((getHashes T c).getD []) = true) :
    idxLocsValid (hashedSide T c) (effIdx T c) = true := by
  by_cases hb : T.hashes.any (fun p => p.1 == c) = true
  · have h1 : hashedSide T c = T := by
      unfold hashedSide
      rw [if_pos hb]
    unfold effIdx
    rw [h1]
    exact hv hb
  · have h1 : hashedSide T c = setHashIndex T c (buildIndexOver [] c T.pages) := by
      unfold hashedSide
      rw [if_neg hb]
    have h2 : effIdx T c = buildIndexOver [] c T.pages := by
      unfold effIdx
      rw [h1, getHashes_setHashIndex]
      rfl
    unfold effIdx at h2
    unfold effIdx
    rw [h1] at h2 ⊢
    rw [h2, idxLocsValid_setHashIndex]
    exact buildIndex_locsValid c hpid

theorem effIdx_keys_nodup {T : Table} {c : String}
    (hk : T.hashes.any (fun p => p.1 == c) = true →
      ((((getHashes T c).getD []).map Prod.fst).Nodup)) :
    (((effIdx T c).map Prod.fst).Nodup) := by
  by_cases hb : T.hashes.any (fun p => p.1 == c) = true
  · have h1 : hashedSide T c = T := by
      unfold hashedSide
      rw [if_pos hb]
    unfold effIdx
    rw [h1]
    exact hk hb
  · have h2 : effIdx T c = buildIndexOver [] c T.pages := by
      unfold effIdx hashedSide
      rw [if_neg hb, getHashes_setHashIndex]
      rfl
    rw [h2]
    exact buildIndexOver_keys_nodup c T.pages [] List.nodup_nil

theorem hashJoin_eval {s : DBState} {t1 c1 t2 c2 : String} {proj : List Proj}
    {T1 T2 : Table} (hne : t1 ≠ t2)
    (hT1 : getTable? s t1 = some T1) (hT2 : getTable? s t2 = some T2)
    {out : List Rec}
    (hloop : hashJoinLoop (hashedSide T1 c1) (hashedSide T2 c2) t1 t2 proj "=" false
      (effIdx T2 c2) (effIdx T1 c1) = .ok out) :
    ∃ sb, hashJoin s t1 c1 t2 c2 proj "=" false = .ok (sb, out) := by
  have hh1 : isTableHashed s t1 c1 = .ok (T1.hashes.any (fun p => p.1 == c1)) := by
    unfold isTableHashed
    rw [hT1]
  obtain ⟨sa, hsa, hsa1, hsa2⟩ :
      ∃ sa, (if (T1.hashes.any (fun p => p.1 == c1)) then Except.ok s
          else hashTable s t1 c1 true) = .ok sa ∧
        getTable? sa t1 = some (hashedSide T1 c1) ∧
        getTable? sa t2 = some T2 := by
    by_cases hb1 : T1.hashes.any (fun p => p.1 == c1) = true
    · refine ⟨s, ?_, ?_, hT2⟩
      · rw [if_pos hb1]
      · rw [show hashedSide T1 c1 = T1 from by unfold hashedSide; rw [if_pos hb1]]
        exact hT1
    · refine ⟨setTable s t1 (hashedSide T1 c1), ?_, ?_, ?_⟩
      · rw [if_neg hb1]
        unfold hashTable
        rw [hT1]
        show Except.ok (setTable s t1
          (setHashIndex T1 c1 (buildIndexOver [] c1 T1.pages))) = _
        rw [show hashedSide T1 c1 = setHashIndex T1 c1 (buildIndexOver [] c1 T1.pages)
          from by unfold hashedSide; rw [if_neg hb1]]
      · exact setTable_get_self _ (hasTableB_of_getTable? hT1)
      · rw [setTable_get_other _ (Ne.symm hne)]
        exact hT2
  have hh2 : isTableHashed sa t2 c2 = .ok (T2.hashes.any (fun p => p.1 == c2)) := by
    unfold isTableHashed
    rw [hsa2]
  obtain ⟨sb, hsb, hsb1, hsb2⟩ :
      ∃ sb, (if (T2.hashes.any (fun p => p.1 == c2)) then Except.ok sa
          else hashTable sa t2 c2 true) = .ok sb ∧
        getTable? sb t1 = some (hashedSide T1 c1) ∧
        getTable? sb t2 = some (hashedSide T2 c2) := by
    by_cases hb2 : T2.hashes.any (fun p => p.1 == c2) = true
    · refine ⟨sa, ?_, hsa1, ?_⟩
      · rw [if_pos hb2]
      · rw [show hashedSide T2 c2 = T2 from by unfold hashedSide; rw [if_pos hb2]]
        exact hsa2
    · refine ⟨setTable sa t2 (hashedSide T2 c2), ?_, ?_, ?_⟩
      · rw [if_neg hb2]
        unfold hashTable
        rw [hsa2]
        show Except.ok (setTable sa t2
          (setHashIndex T2 c2 (buildIndexOver [] c2 T2.pages))) = _
        rw [show hashedSide T2 c2 = setHashIndex T2 c2 (buildIndexOver [] c2 T2.pages)
          from by unfold hashedSide; rw [if_neg hb2]]
      · rw [setTable_get_other _ hne]
        exact hsa1
      · exact setTable_get_self _ (hasTableB_of_getTable? hsa2)
  refine ⟨sb, ?_⟩
  unfold hashJoin
  simp only [hh1, hsa, hh2, hsb, hsb1, hsb2]
  show (match hashJoinLoop (hashedSide T1 c1) (hashedSide T2 c2) t1 t2 proj "=" false
      (effIdx T2 c2) (effIdx T1 c1) with
    | Except.error e => Except.error e
    | Except.ok out => Except.ok (sb, out)) = Except.ok (sb, out)
  simp only [hloop]

/-- Self-join state of the hash-join commutativity counterexample: table
`A` with rows `u{x:1, y:5}` and `w{x:5, y:9}`, hashed on `x` and `y`. -/
def c9s : DBState :=
  match applyOps { tables := [], freshCtr := 0 }
      [DbOp.addTable "A" ["x", "y"],
       DbOp.insertUnique "A"
         [[("_id", some (.str "u")), ("x", some (.num 1)), ("y", some (.num 5))],
          [("_id", some (.str "w")), ("x", some (.num 5)), ("y", some (.num 9))]],
       DbOp.hashTableOp "A" "x" true, DbOp.hashTableOp "A" "y" true] with
  | .ok s => s
  | .error _ => { tables := [], freshCtr := 0 }

/-- The counterexample projection `c ← A.x`. -/
def c9proj : List Proj := [{ colNameDst := "c", colSrc := ("A", "x") }]

/-- C9 counterexample: with both sides the same table (allowed by the
claim's quantification over all tables), the projection switch always
draws from the left record, so `hash_join(A, x, A, y, '=')` and the
mirrored `hash_join(A, y, A, x, '=')` emit different multisets: `{c: 5}`
versus `{c: 1}`. -/
theorem c9_hash_join_comm_counterexample :
    hashJoin c9s "A" "x" "A" "y" c9proj "=" false
      = .ok (c9s, [[("c", some (JsVal.num 5))]]) ∧
    hashJoin c9s "A" "y" "A" "x" c9proj "=" false
      = .ok (c9s, [[("c", some (JsVal.num 1))]]) ∧
    ¬ ((↑[[("c", some (JsVal.num 5))]] : Multiset Rec)
      = ↑[[("c", some (JsVal.num 1))]]) :=
  ⟨rfl, rfl, by decide⟩

/-- C9: [amended] for distinct tables `t1 ≠ t2` present in the catalog
and a projection drawing only from `t1` and `t2`, the `=` hash join and
its mirrored join (same destination/source pairs) emit equal multisets
of projected records, provided any side that is already hashed on its
join column stores dereferenceable locators and duplicate-free keys — a
side the join hashes itself gets a freshly built index, which satisfies
both automatically (given distinct page ids). -/
theorem c9_hash_join_comm_amended (s : DBState) (t1 c1 t2 c2 : String)
    (proj : List Proj) (T1 T2 : Table)
    (hne : t1 ≠ t2)
    (hT1 : getTable? s t1 = some T1) (hT2 : getTable? s t2 = some T2)
    (hWF : ∀ p ∈ proj, p.colSrc.1 = t1 ∨ p.colSrc.1 = t2)
    (hpid1 : ((T1.pages.map Page.pid).Nodup))
    (hpid2 : ((T2.pages.map Page.pid).Nodup))
    (hv1 : T1.hashes.any (fun p => p.1 == c1) = true →
      idxLocsValid T1 ((getHashes T1 c1).getD []) = true)
    (hk1 : T1.hashes.any (fun p => p.1 == c1) = true →
      ((((getHashes T1 c1).getD []).map Prod.fst).Nodup))
    (hv2 : T2.hashes.any (fun p => p.1 == c2) = true →
      idxLocsValid T2 ((getHashes T2 c2).getD []) = true)
    (hk2 : T2.hashes.any (fun p => p.1 == c2) = true →
      ((((getHashes T2 c2).getD []).map Prod.fst).Nodup)) :
    ∃ s1 s2,
      hashJoin s t1 c1 t2 c2 proj "=" false
        = .ok (s1, joinList t1 t2 proj (hashedSide T1 c1) (hashedSide T2 c2)
            (effIdx T1 c1) (effIdx T2 c2)) ∧
      hashJoin s t2 c2 t1 c1 proj "=" false
        = .ok (s2, joinList t2 t1 proj (hashedSide T2 c2) (hashedSide T1 c1)
            (effIdx T2 c2) (effIdx T1 c1)) ∧
      (↑(joinList t1 t2 proj (hashedSide T1 c1) (hashedSide T2 c2)
          (effIdx T1 c1) (effIdx T2 c2)) : Multiset Rec)
        = ↑(joinList t2 t1 proj (hashedSide T2 c2) (hashedSide T1 c1)
            (effIdx T2 c2) (effIdx T1 c1)) := by
  have hv1e := effIdx_locsValid hpid1 hv1
  have hv2e := effIdx_locsValid hpid2 hv2
  have hk1e := effIdx_keys_nodup hk1
  have hk2e := effIdx_keys_nodup hk2
  obtain ⟨s1, hs1⟩ := hashJoin_eval hne hT1 hT2
    (hashJoinLoop_ok hWF hv2e _ hv1e)
  obtain ⟨s2, hs2⟩ := hashJoin_eval (Ne.symm hne) hT2 hT1
    (hashJoinLoop_ok (fun p hp => (hWF p hp).symm) hv1e _ hv2e)
  exact ⟨s1, s2, hs1, hs2, joinList_comm hne hWF hk1e hk2e⟩

/-- Two-table state of the hash-join commutativity witness; neither
table is hashed on its join column, so both calls hash the sides
themselves. -/
def c9sW : DBState :=
  match applyOps { tables := [], freshCtr := 0 }
      [DbOp.addTable "A" ["x"], DbOp.addTable "B" ["y"],
       DbOp.insertUnique "A"
         [[("_id", some (.str "a1")), ("x", some (.num 1))],
          [("_id", some (.str "a2")), ("x", some (.num 1))]],
       DbOp.insertUnique "B"
         [[("_id", some (.str "b1")), ("y", some (.num 1))],
          [("_id", some (.str "b2")), ("y", some (.num 2))]]] with
  | .ok s => s
  | .error _ => { tables := [], freshCtr := 0 }

/-- The stored witness table `A`. -/
def c9TA : Table :=
  (getTable? c9sW "A").getD { pages := [], queue := [], cols := [], hashes := [] }

/-- The stored witness table `B`. -/
def c9TB : Table :=
  (getTable? c9sW "B").getD { pages := [], queue := [], cols := [], hashes := [] }

/-- The witness projection, one column from each side. -/
def c9projW : List Proj :=
  [{ colNameDst := "cx", colSrc := ("A", "x") }, { colNameDst := "cy", colSrc := ("B", "y") }]

theorem c9_hash_join_comm_amended_witness :
    ∃ s1 s2,
      hashJoin c9sW "A" "x" "B" "y" c9projW "=" false
        = .ok (s1, joinList "A" "B" c9projW (hashedSide c9TA "x") (hashedSide c9TB "y")
            (effIdx c9TA "x") (effIdx c9TB "y")) ∧
      hashJoin c9sW "B" "y" "A" "x" c9projW "=" false
        = .ok (s2, joinList "B" "A" c9projW (hashedSide c9TB "y") (hashedSide c9TA "x")
            (effIdx c9TB "y") (effIdx c9TA "x")) ∧
      (↑(joinList "A" "B" c9projW (hashedSide c9TA "x") (hashedSide c9TB "y")
          (effIdx c9TA "x") (effIdx c9TB "y")) : Multiset Rec)
        = ↑(joinList "B" "A" c9projW (hashedSide c9TB "y") (hashedSide c9TA "x")
            (effIdx c9TB "y") (effIdx c9TA "x")) :=
  c9_hash_join_comm_amended c9sW "A" "x" "B" "y" c9projW c9TA c9TB
    (by decide) rfl rfl (by decide) (by decide) (by decide)
    (by decide) (by decide) (by decide) (by decide)

end RecDB
